import Mathlib

/-!
# Verification of the BPS-tree (`src/lib/salad/bps_tree.h`)

Shallow embedding of the in-memory B+*-tree of `src/lib/salad/bps_tree.h`.
Blocks live in a store indexed by 32-bit block ids (here `Nat`), mirroring
the matras directory; the tree struct, the garbage list, the search
primitives, the path collection, the structural insert/delete operations,
bulk build and the iterators are translated function by function from the
source.  The extent allocator is modelled by a fuel counter (`budget`):
each successful `matras_alloc` consumes one unit, a zero budget makes it
fail, matching the sole external failure source of the C code.

Elements are pairs of integers compared on the first component only, so
that comparator-equal but distinguishable elements exist (the element
type is an opaque POD in the source; the comparator is the example
`(a) < (b) ? -1 : (a) > (b)` from the header comment, applied to the
first component, and the second component plays the role of the payload
bits the comparator does not inspect).
-/

set_option maxHeartbeats 1000000

namespace BpsTree

/-- Element type `bps_tree_elem_t`: key component and payload component.
The key type `bps_tree_key_t` is the key component's type (`Int`), and
block ids (`bps_tree_block_id_t`) are naturals indexing the store. -/
abbrev Elem := Int × Int


/-- `BPS_TREE_COMPARE`: the header's example comparator
`(a) < (b) ? -1 : (a) > (b)` on the key component. -/
def cmp (a b : Elem) : Int :=
  if a.1 < b.1 then -1 else if a.1 > b.1 then 1 else 0

/-- `BPS_TREE_COMPARE_KEY`: same comparison against a bare key. -/
def cmp_key (a : Elem) (k : Int) : Int :=
  if a.1 < k then -1 else if a.1 > k then 1 else 0

/-- Default element used for out-of-range array reads (never reached on
the paths the source actually executes). -/
def dflt : Elem := (0, 0)

/-! ## Search primitives (`bps_tree_find_ins_point_*`)

The source selects a binary or a linear implementation with the
`BPS_BLOCK_LINEAR_SEARCH` switch; both are embedded.  The binary loops
over pointers `begin`/`end`; here `lo`/`hi` are the corresponding
indices into the array. -/

/-- Binary-search loop of `bps_tree_find_ins_point_key` (default build):
on `res > 0` take the left half, on `res < 0` the right half, on equality
record `exact` and continue leftwards for the lowest equal position.  The
`begin != end` loop shrinks `hi - lo` every iteration, so a fuel of the
array length (supplied by the wrapper) never runs out. -/
def find_ins_point_key_go (arr : List Elem) (key : Int) :
    Nat → Nat → Nat → Bool → Nat × Bool
  | 0, _lo, hi, ex => (hi, ex)
  | fuel + 1, lo, hi, ex =>
    if lo < hi then
      let mid := lo + (hi - lo) / 2
      let res := cmp_key (arr.getD mid dflt) key
      if 0 < res then find_ins_point_key_go arr key fuel lo mid ex
      else if res < 0 then find_ins_point_key_go arr key fuel (mid + 1) hi ex
      else find_ins_point_key_go arr key fuel lo mid true
    else (hi, ex)

/-- `bps_tree_find_ins_point_key` (binary variant): lowest index whose
element is `>=` the key, plus the `*exact` flag. -/
def bps_tree_find_ins_point_key (arr : List Elem) (key : Int) : Nat × Bool :=
  find_ins_point_key_go arr key arr.length 0 arr.length false

/-- `bps_tree_find_ins_point_key` under `BPS_BLOCK_LINEAR_SEARCH`:
walk `begin` forward to the first element with `res >= 0`. -/
def bps_tree_find_ins_point_key_linear : List Elem → Int → Nat × Bool
  | [], _ => (0, false)
  | a :: rest, key =>
    let res := cmp_key a key
    if 0 ≤ res then (0, decide (res = 0))
    else
      let r := bps_tree_find_ins_point_key_linear rest key
      (r.1 + 1, r.2)

/-- Binary-search loop of `bps_tree_find_ins_point_elem`: as the key
variant, except that on equality the search stops at `mid` at once
("elements are unique in array, stop search"). -/
def find_ins_point_elem_go (arr : List Elem) (el : Elem) :
    Nat → Nat → Nat → Nat × Bool
  | 0, _lo, hi => (hi, false)
  | fuel + 1, lo, hi =>
    if lo < hi then
      let mid := lo + (hi - lo) / 2
      let res := cmp (arr.getD mid dflt) el
      if 0 < res then find_ins_point_elem_go arr el fuel lo mid
      else if res < 0 then find_ins_point_elem_go arr el fuel (mid + 1) hi
      else (mid, true)
    else (hi, false)

/-- `bps_tree_find_ins_point_elem` (binary variant). -/
def bps_tree_find_ins_point_elem (arr : List Elem) (el : Elem) : Nat × Bool :=
  find_ins_point_elem_go arr el arr.length 0 arr.length

/-- `bps_tree_find_ins_point_elem` under `BPS_BLOCK_LINEAR_SEARCH`. -/
def bps_tree_find_ins_point_elem_linear : List Elem → Elem → Nat × Bool
  | [], _ => (0, false)
  | a :: rest, el =>
    let res := cmp a el
    if 0 ≤ res then (0, decide (res = 0))
    else
      let r := bps_tree_find_ins_point_elem_linear rest el
      (r.1 + 1, r.2)

/-! ## Block layout, the matras and the tree struct

A block id (`bps_tree_block_id_t`) is an index into the matras store;
the sentinel id `0xFFFFFFFF` is rendered as `Option.none` wherever the
source uses it.  A block is `free` right after `matras_alloc` (before its
header is initialised), and otherwise one of the three tagged variants of
the source.  A leaf's `header.size` is the length of its element list, an
inner's `header.size` is the length of its child-id list (its separator
array holds `size - 1` elements, as in `struct bps_inner`). -/

/-- The three block variants of `bps_block_type` plus the uninitialised
state of a freshly allocated block. -/
inductive Block where
  | free
  | leaf (prevId nextId : Option Nat) (elems : List Elem)
  | inner (elems : List Elem) (childIds : List Nat)
  | garbage (next : Option Nat)
deriving Repr, DecidableEq

/-- The compile-time configuration: `BPS_TREE_MAX_COUNT_IN_LEAF` and
`BPS_TREE_MAX_COUNT_IN_INNER`, derived in the source from
`BPS_TREE_BLOCK_SIZE` and the element size. -/
structure Cfg where
  lmax : Nat
  imax : Nat
deriving Repr, DecidableEq

/-- `BPS_TREE_MAX_DEPTH`. -/
def BPS_TREE_MAX_DEPTH : Nat := 16

/-- `struct bps_tree`.  `root` doubles as the root pointer (NULL in an
empty tree) and `root_id`.  The matras is the `store` list: `matras_get`
is indexing, `matras_alloc` appends (stable, sequentially growing ids,
as the three-level directory provides). -/
structure Tree where
  cfg : Cfg
  store : List Block
  root : Option Nat
  firstId : Option Nat
  lastId : Option Nat
  leafCount : Nat
  innerCount : Nat
  garbageCount : Nat
  depth : Nat
  size : Nat
  garbageHead : Option Nat
  maxElem : Elem
deriving Repr, DecidableEq

/-- `bps_tree_create`: the empty tree.  `max_elem` is uninitialised in
the source; `dflt` stands for that junk value. -/
def bps_tree_create (cfg : Cfg) : Tree :=
  { cfg := cfg, store := [], root := none, firstId := none, lastId := none,
    leafCount := 0, innerCount := 0, garbageCount := 0, depth := 0,
    size := 0, garbageHead := none, maxElem := dflt }

/-- `bps_tree_restore_block` / `matras_get`. -/
def getBlock (t : Tree) (id : Nat) : Block :=
  t.store.getD id .free

/-- Overwrite one block of the store. -/
def setBlock (t : Tree) (id : Nat) (b : Block) : Tree :=
  { t with store := t.store.set id b }

/-- Modelled from the spec: `matras_alloc` (§4.1 of the design) returns a
fresh block and its id, failing exactly when the host extent allocator is
exhausted; the fuel counter `budget` models the host's remaining
capacity (the matras sources are not part of this repository). -/
def matras_alloc (t : Tree) (budget : Nat) : Option (Tree × Nat × Nat) :=
  match budget with
  | 0 => none
  | b + 1 => some ({ t with store := t.store ++ [.free] }, t.store.length, b)

/-- Modelled from the spec: `matras_reset` releases all extents. -/
def matras_reset (t : Tree) : Tree :=
  { t with store := [] }

/-- `bps_tree_size`. -/
def bps_tree_size (t : Tree) : Nat := t.size

def Block.leafPrevId : Block → Option Nat
  | .leaf p _ _ => p
  | _ => none

def Block.leafNextId : Block → Option Nat
  | .leaf _ n _ => n
  | _ => none

def Block.leafElems : Block → List Elem
  | .leaf _ _ es => es
  | _ => []

def Block.innerElems : Block → List Elem
  | .inner es _ => es
  | _ => []

def Block.innerChildIds : Block → List Nat
  | .inner _ cs => cs
  | _ => []

def Block.garbageNext : Block → Option Nat
  | .garbage n => n
  | _ => none

/-- `header.size` of a block. -/
def Block.bsize : Block → Nat
  | .leaf _ _ es => es.length
  | .inner _ cs => cs.length
  | _ => 0

/-! ## Garbage pool, block creation and disposal -/

/-- `bps_tree_garbage_push`: tag the block as garbage, prepend it to the
garbage list. -/
def bps_tree_garbage_push (t : Tree) (id : Nat) : Tree :=
  let t' := setBlock t id (.garbage t.garbageHead)
  { t' with garbageHead := some id, garbageCount := t.garbageCount + 1 }

/-- `bps_tree_garbage_pop`: detach the head of the garbage list. -/
def bps_tree_garbage_pop (t : Tree) : Option (Tree × Nat) :=
  match t.garbageHead with
  | some id =>
    some ({ t with garbageHead := (getBlock t id).garbageNext,
                   garbageCount := t.garbageCount - 1 }, id)
  | none => none

/-- `bps_tree_create_leaf`: reclaim from garbage or allocate, then set
`header.type = BPS_TREE_BT_LEAF` and bump `leaf_count`.  The source
dereferences the result of `matras_alloc` without a NULL check, so an
allocation failure here is a crash, modelled as `none`. -/
def bps_tree_create_leaf (t : Tree) (budget : Nat) :
    Option (Tree × Nat × Nat) :=
  match bps_tree_garbage_pop t with
  | some (t', id) =>
    let t'' := setBlock t' id (.leaf none none [])
    some ({ t'' with leafCount := t''.leafCount + 1 }, id, budget)
  | none =>
    match matras_alloc t budget with
    | some (t', id, budget') =>
      let t'' := setBlock t' id (.leaf none none [])
      some ({ t'' with leafCount := t''.leafCount + 1 }, id, budget')
    | none => none

/-- `bps_tree_create_inner`: as `bps_tree_create_leaf` for inner blocks. -/
def bps_tree_create_inner (t : Tree) (budget : Nat) :
    Option (Tree × Nat × Nat) :=
  match bps_tree_garbage_pop t with
  | some (t', id) =>
    let t'' := setBlock t' id (.inner [] [])
    some ({ t'' with innerCount := t''.innerCount + 1 }, id, budget)
  | none =>
    match matras_alloc t budget with
    | some (t', id, budget') =>
      let t'' := setBlock t' id (.inner [] [])
      some ({ t'' with innerCount := t''.innerCount + 1 }, id, budget')
    | none => none

/-- `bps_tree_dispose_leaf`. -/
def bps_tree_dispose_leaf (t : Tree) (id : Nat) : Tree :=
  bps_tree_garbage_push { t with leafCount := t.leafCount - 1 } id

/-- `bps_tree_dispose_inner`. -/
def bps_tree_dispose_inner (t : Tree) (id : Nat) : Tree :=
  bps_tree_garbage_push { t with innerCount := t.innerCount - 1 } id

/-- `bps_tree_reserve_blocks`: top up the garbage list to `count`
blocks; `false` on allocation failure (this path checks the allocation
result, so it is a clean failure, not a crash). -/
def bps_tree_reserve_blocks (t : Tree) : Nat → Nat → Bool × Tree × Nat
  | budget, count =>
    if t.garbageCount < count then
      match budget with
      | 0 => (false, t, 0)
      | b + 1 =>
        match matras_alloc t (b + 1) with
        | some (t', id, _budget') =>
          bps_tree_reserve_blocks (bps_tree_garbage_push t' id) b count
        | none => (false, t, b + 1)
    else (true, t, budget)

/-! ## Size margins -/

/-- `bps_tree_leaf_free_size`. -/
def bps_tree_leaf_free_size (t : Tree) (id : Nat) : Nat :=
  t.cfg.lmax - (getBlock t id).bsize

/-- `bps_tree_inner_free_size`. -/
def bps_tree_inner_free_size (t : Tree) (id : Nat) : Nat :=
  t.cfg.imax - (getBlock t id).bsize

/-- `bps_tree_leaf_overmin_size`: `size - BPS_TREE_MAX_COUNT_IN_LEAF * 2 / 3`
in signed arithmetic (`bps_tree_pos_t` is `int16_t`). -/
def bps_tree_leaf_overmin_size (t : Tree) (id : Nat) : Int :=
  ((getBlock t id).bsize : Int) - (t.cfg.lmax * 2 / 3 : Nat)

/-- `bps_tree_inner_overmin_size`. -/
def bps_tree_inner_overmin_size (t : Tree) (id : Nat) : Int :=
  ((getBlock t id).bsize : Int) - (t.cfg.imax * 2 / 3 : Nat)

/-! ## Paths and the max-element copy pointer

`max_elem_copy` is a pointer aliasing either an ancestor's separator
slot, the tree's `max_elem` field, or (for the block created during a
split) the local variable `new_max_elem` of the structural op.  It is
rendered as an address, and the local cell travels next to the tree in
`St` (the design notes of the spec describe exactly this encoding). -/

inductive MaxPtr where
  | tree
  | sep (id : Nat) (idx : Nat)
  | scratch
deriving Repr, DecidableEq

/-- Tree state together with the live `new_max_elem` local. -/
structure St where
  t : Tree
  nm : Elem
deriving Repr, DecidableEq

/-- Read through a `max_elem_copy` pointer. -/
def readMax (s : St) : MaxPtr → Elem
  | .tree => s.t.maxElem
  | .sep id idx => (getBlock s.t id).innerElems.getD idx dflt
  | .scratch => s.nm

/-- Write through a `max_elem_copy` pointer. -/
def writeMax (s : St) (p : MaxPtr) (e : Elem) : St :=
  match p with
  | .tree => { s with t := { s.t with maxElem := e } }
  | .sep id idx =>
    match getBlock s.t id with
    | .inner es cs => { s with t := setBlock s.t id (.inner (es.set idx e) cs) }
    | _ => s
  | .scratch => { s with nm := e }

/-- `struct bps_inner_path_elem` / `struct bps_leaf_path_elem` (their
fields coincide).  The block pointer of the source is recovered from the
id via the store; the parent pointer is the next entry of the
leaf-to-root path list the caller carries. -/
structure PathElem where
  blockId : Nat
  insertionPoint : Nat
  posInParent : Nat
  maxPtr : MaxPtr
deriving Repr, DecidableEq

/-- Last element of a list, `dflt` when empty (the `elems[size - 1]`
idiom of the source). -/
def lastElem (es : List Elem) : Elem :=
  es.getD (es.length - 1) dflt

/-! ## Elementary block operations

All `BPS_TREE_DATAMOVE` shuffles are rendered as `take`/`drop`/append
combinations producing exactly the array contents the corresponding
`memmove`s leave behind. -/

/-- `bps_tree_insert_into_leaf`: shift the tail right, place the element,
refresh the max copy with the (possibly new) last element, bump sizes. -/
def bps_tree_insert_into_leaf (s : St) (pe : PathElem) (new_elem : Elem) :
    St :=
  match getBlock s.t pe.blockId with
  | .leaf p n es =>
    let es' := es.insertIdx pe.insertionPoint new_elem
    let s := { s with t := setBlock s.t pe.blockId (.leaf p n es') }
    let s := writeMax s pe.maxPtr (es'.getD es.length dflt)
    { s with t := { s.t with size := s.t.size + 1 } }
  | _ => s

/-- `bps_tree_insert_into_inner`: place a child id and its subtree max
at slot `pos`; at the rightmost slot the previous max moves into the
separator array and the max copy receives the new max. -/
def bps_tree_insert_into_inner (s : St) (pe : PathElem) (blockId : Nat)
    (pos : Nat) (max_elem : Elem) : St :=
  match getBlock s.t pe.blockId with
  | .inner es cs =>
    if pos < cs.length then
      let b' := Block.inner (es.insertIdx pos max_elem) (cs.insertIdx pos blockId)
      { s with t := setBlock s.t pe.blockId b' }
    else
      let es' := if 0 < pos then es ++ [readMax s pe.maxPtr] else es
      let s := { s with t := setBlock s.t pe.blockId (.inner es' (cs ++ [blockId])) }
      writeMax s pe.maxPtr max_elem
  | _ => s

/-- `bps_tree_delete_from_leaf`. -/
def bps_tree_delete_from_leaf (s : St) (pe : PathElem) : St :=
  match getBlock s.t pe.blockId with
  | .leaf p n es =>
    let es' := es.eraseIdx pe.insertionPoint
    let s := { s with t := setBlock s.t pe.blockId (.leaf p n es') }
    let s := if 0 < es'.length then writeMax s pe.maxPtr (lastElem es') else s
    { s with t := { s.t with size := s.t.size - 1 } }
  | _ => s

/-- `bps_tree_delete_from_inner`. -/
def bps_tree_delete_from_inner (s : St) (pe : PathElem) : St :=
  match getBlock s.t pe.blockId with
  | .inner es cs =>
    let pos := pe.insertionPoint
    if pos < cs.length - 1 then
      let b' := Block.inner (es.eraseIdx pos) (cs.eraseIdx pos)
      { s with t := setBlock s.t pe.blockId b' }
    else if 0 < pos then
      let s := writeMax s pe.maxPtr (es.getD (pos - 1) dflt)
      { s with t := setBlock s.t pe.blockId (.inner es.dropLast cs.dropLast) }
    else
      { s with t := setBlock s.t pe.blockId (.inner [] []) }
  | _ => s

/-- `bps_tree_move_elems_to_right_leaf`: `a`'s top `num` elements move
to the front of its right sibling `b`. -/
def bps_tree_move_elems_to_right_leaf (s : St) (a_pe b_pe : PathElem)
    (num : Nat) : St :=
  match getBlock s.t a_pe.blockId, getBlock s.t b_pe.blockId with
  | .leaf ap an aes, .leaf bp bn bes =>
    let move_all := aes.length == num
    let aes' := aes.take (aes.length - num)
    let bes' := aes.drop (aes.length - num) ++ bes
    let s := { s with t := setBlock s.t a_pe.blockId (.leaf ap an aes') }
    let s := { s with t := setBlock s.t b_pe.blockId (.leaf bp bn bes') }
    let s := if !move_all then writeMax s a_pe.maxPtr (lastElem aes') else s
    writeMax s b_pe.maxPtr (lastElem bes')
  | _, _ => s

/-- `bps_tree_move_elems_to_left_leaf`: the bottom `num` elements of the
right sibling `b` move to the end of `a`. -/
def bps_tree_move_elems_to_left_leaf (s : St) (a_pe b_pe : PathElem)
    (num : Nat) : St :=
  match getBlock s.t a_pe.blockId, getBlock s.t b_pe.blockId with
  | .leaf ap an aes, .leaf bp bn bes =>
    let aes' := aes ++ bes.take num
    let bes' := bes.drop num
    let s := { s with t := setBlock s.t a_pe.blockId (.leaf ap an aes') }
    let s := { s with t := setBlock s.t b_pe.blockId (.leaf bp bn bes') }
    writeMax s a_pe.maxPtr (lastElem aes')
  | _, _ => s

/-- `bps_tree_move_elems_to_right_inner`: as the leaf version for child
ids; the separator stream through the pair is `a`'s separators, then
`a`'s max copy, then `b`'s separators. -/
def bps_tree_move_elems_to_right_inner (s : St) (a_pe b_pe : PathElem)
    (num : Nat) : St :=
  match getBlock s.t a_pe.blockId, getBlock s.t b_pe.blockId with
  | .inner aes acs, .inner bes bcs =>
    let n := acs.length
    let move_to_empty := bcs.length == 0
    let move_all := n == num
    let bcs' := acs.drop (n - num) ++ bcs
    let bes' := aes.drop (n - num) ++
      (if move_to_empty then [] else readMax s a_pe.maxPtr :: bes)
    let s := if move_to_empty then
               writeMax s b_pe.maxPtr (readMax s a_pe.maxPtr) else s
    let s := if !move_all then
               writeMax s a_pe.maxPtr (aes.getD (n - num - 1) dflt) else s
    let s := { s with t := setBlock s.t a_pe.blockId (.inner (aes.take (n - num - 1)) (acs.take (n - num))) }
    { s with t := setBlock s.t b_pe.blockId (.inner bes' bcs') }
  | _, _ => s

/-- `bps_tree_move_elems_to_left_inner`. -/
def bps_tree_move_elems_to_left_inner (s : St) (a_pe b_pe : PathElem)
    (num : Nat) : St :=
  match getBlock s.t a_pe.blockId, getBlock s.t b_pe.blockId with
  | .inner aes acs, .inner bes bcs =>
    let move_to_empty := acs.length == 0
    let move_all := bcs.length == num
    let acs' := acs ++ bcs.take num
    let bcs' := bcs.drop num
    let aes' := (if move_to_empty then [] else aes ++ [readMax s a_pe.maxPtr]) ++
                bes.take (num - 1)
    let s := if move_all then
               writeMax s a_pe.maxPtr (readMax s b_pe.maxPtr)
             else
               writeMax s a_pe.maxPtr (bes.getD (num - 1) dflt)
    let bes' := if move_all then [] else bes.drop num
    let s := { s with t := setBlock s.t a_pe.blockId (.inner aes' acs') }
    { s with t := setBlock s.t b_pe.blockId (.inner bes' bcs') }
  | _, _ => s

/-- `bps_tree_insert_and_move_elems_to_right_leaf`: virtual insertion
into (a possibly full) `a` at its recorded insertion point, then the top
`num` of the enlarged array moves to `b`. -/
def bps_tree_insert_and_move_elems_to_right_leaf (s : St)
    (a_pe b_pe : PathElem) (num : Nat) (new_elem : Elem) : St :=
  match getBlock s.t a_pe.blockId, getBlock s.t b_pe.blockId with
  | .leaf ap an aes, .leaf bp bn bes =>
    let n := aes.length
    let pos := a_pe.insertionPoint
    let move_to_empty := bes.length == 0
    let move_all := n == num - 1
    let mid := n - pos
    let (aes', bes') :=
      if num ≤ mid then
        -- "In fact insert to 'a' block"
        ((aes.take (n - num)).insertIdx pos new_elem,
         aes.drop (n - num) ++ bes)
      else
        -- "In fact insert to 'b' block"
        let new_pos := num - mid - 1
        (aes.take (n - (num - 1)),
         ((aes.drop (n - (num - 1))).take new_pos) ++ new_elem ::
           (aes.drop pos ++ bes))
    let s := { s with t := setBlock s.t a_pe.blockId (.leaf ap an aes') }
    let s := { s with t := setBlock s.t b_pe.blockId (.leaf bp bn bes') }
    let s := if !move_all then writeMax s a_pe.maxPtr (lastElem aes') else s
    let s := if move_to_empty then writeMax s b_pe.maxPtr (lastElem bes') else s
    { s with t := { s.t with size := s.t.size + 1 } }
  | _, _ => s

/-- `bps_tree_insert_and_move_elems_to_left_leaf`: virtual insertion
into `b` at its recorded insertion point, then the bottom `num` of the
enlarged array moves to `a`. -/
def bps_tree_insert_and_move_elems_to_left_leaf (s : St)
    (a_pe b_pe : PathElem) (num : Nat) (new_elem : Elem) : St :=
  match getBlock s.t a_pe.blockId, getBlock s.t b_pe.blockId with
  | .leaf ap an aes, .leaf bp bn bes =>
    let pos := b_pe.insertionPoint
    let move_all := bes.length == num - 1
    let (aes', bes') :=
      if num ≤ pos then
        -- "In fact insert to 'b' block"
        (aes ++ bes.take num, (bes.drop num).insertIdx (pos - num) new_elem)
      else
        -- "In fact insert to 'a' block"
        (aes ++ bes.take pos ++ new_elem :: ((bes.drop pos).take (num - 1 - pos)),
         bes.drop (num - 1))
    let s := { s with t := setBlock s.t a_pe.blockId (.leaf ap an aes') }
    let s := { s with t := setBlock s.t b_pe.blockId (.leaf bp bn bes') }
    let s := writeMax s a_pe.maxPtr (lastElem aes')
    let s := if !move_all then writeMax s b_pe.maxPtr (lastElem bes') else s
    { s with t := { s.t with size := s.t.size + 1 } }
  | _, _ => s

/-- `bps_tree_insert_and_move_elems_to_right_inner`: virtual insertion
of child `blockId` (whose subtree max is `max_elem`) at slot `pos` of
`a`, then the top `num` children of the enlarged block move to `b`. -/
def bps_tree_insert_and_move_elems_to_right_inner (s : St)
    (a_pe b_pe : PathElem) (num : Nat) (blockId : Nat) (pos : Nat)
    (max_elem : Elem) : St :=
  match getBlock s.t a_pe.blockId, getBlock s.t b_pe.blockId with
  | .inner aes acs, .inner bes bcs =>
    let n := acs.length
    let move_to_empty := bcs.length == 0
    let move_all := n == num - 1
    let mid := n - pos
    if num < mid then
      -- "In fact insert to 'a' block, to the internal position"
      let bcs' := acs.drop (n - num) ++ bcs
      let acs' := (acs.take (n - num)).insertIdx pos blockId
      let bes' := aes.drop (n - num) ++
        (if move_to_empty then [] else readMax s a_pe.maxPtr :: bes)
      let s := if move_to_empty then
                 writeMax s b_pe.maxPtr (readMax s a_pe.maxPtr) else s
      let s := writeMax s a_pe.maxPtr (aes.getD (n - num - 1) dflt)
      let aes' := (aes.take (n - num - 1)).insertIdx pos max_elem
      let s := { s with t := setBlock s.t a_pe.blockId (.inner aes' acs') }
      { s with t := setBlock s.t b_pe.blockId (.inner bes' bcs') }
    else if num = mid then
      -- "In fact insert to 'a' block, to the last position"
      let bcs' := acs.drop (n - num) ++ bcs
      let acs' := (acs.take (n - num)).insertIdx pos blockId
      let bes' := aes.drop (n - num) ++
        (if move_to_empty then [] else readMax s a_pe.maxPtr :: bes)
      let s := if move_to_empty then
                 writeMax s b_pe.maxPtr (readMax s a_pe.maxPtr) else s
      let s := writeMax s a_pe.maxPtr max_elem
      let s := { s with t := setBlock s.t a_pe.blockId (.inner (aes.take (n - num)) acs') }
      { s with t := setBlock s.t b_pe.blockId (.inner bes' bcs') }
    else
      -- "In fact insert to 'b' block"
      let new_pos := num - mid - 1
      let bcs' := ((acs.drop (n - num + 1)).take new_pos) ++ blockId ::
                    (acs.drop pos ++ bcs)
      let acs' := acs.take (n - num + 1)
      if pos == n then
        if 1 < num then
          let bes' := aes.drop (n - num + 1) ++ readMax s a_pe.maxPtr ::
            (if move_to_empty then [] else max_elem :: bes)
          let s := if move_to_empty then writeMax s b_pe.maxPtr max_elem else s
          let s := if !move_all then
                     writeMax s a_pe.maxPtr (aes.getD (n - num) dflt) else s
          let s := { s with t := setBlock s.t a_pe.blockId (.inner (aes.take (n - num)) acs') }
          { s with t := setBlock s.t b_pe.blockId (.inner bes' bcs') }
        else
          let bes' := if move_to_empty then [] else max_elem :: bes
          let s := if move_to_empty then writeMax s b_pe.maxPtr max_elem else s
          let s := { s with t := setBlock s.t a_pe.blockId (.inner (aes.take (n - num)) acs') }
          { s with t := setBlock s.t b_pe.blockId (.inner bes' bcs') }
      else
        let bes' := ((aes.drop (n - num + 1)).take (num - mid - 1)) ++ max_elem ::
          (((aes.drop pos).take (mid - 1)) ++
            (if move_to_empty then [] else readMax s a_pe.maxPtr :: bes))
        let s := if move_to_empty then
                   writeMax s b_pe.maxPtr (readMax s a_pe.maxPtr) else s
        let s := if !move_all then
                   writeMax s a_pe.maxPtr (aes.getD (n - num) dflt) else s
        let s := { s with t := setBlock s.t a_pe.blockId (.inner (aes.take (n - num)) acs') }
        { s with t := setBlock s.t b_pe.blockId (.inner bes' bcs') }
  | _, _ => s

/-- `bps_tree_insert_and_move_elems_to_left_inner`. -/
def bps_tree_insert_and_move_elems_to_left_inner (s : St)
    (a_pe b_pe : PathElem) (num : Nat) (blockId : Nat) (pos : Nat)
    (max_elem : Elem) : St :=
  match getBlock s.t a_pe.blockId, getBlock s.t b_pe.blockId with
  | .inner aes acs, .inner bes bcs =>
    let an := acs.length
    let bn := bcs.length
    let move_to_empty := acs.length == 0
    let move_all := bn == num - 1
    if num ≤ pos then
      -- "In fact insert to 'b' block"
      let acs' := acs ++ bcs.take num
      let bcs' := (bcs.drop num).insertIdx (pos - num) blockId
      let aes' := (if move_to_empty then [] else aes ++ [readMax s a_pe.maxPtr]) ++
                  bes.take (num - 1)
      let s := if num < bn then
                 writeMax s a_pe.maxPtr (bes.getD (num - 1) dflt)
               else
                 writeMax s a_pe.maxPtr (readMax s b_pe.maxPtr)
      if pos == bn then
        -- "arrow is righter than star"
        let bes' := if num < bn then bes.drop num ++ [readMax s b_pe.maxPtr]
                    else []
        let s := writeMax s b_pe.maxPtr max_elem
        let s := { s with t := setBlock s.t a_pe.blockId (.inner aes' acs') }
        { s with t := setBlock s.t b_pe.blockId (.inner bes' bcs') }
      else
        -- "star is righter than arrow"
        let bes' := (bes.drop num).insertIdx (pos - num) max_elem
        let s := { s with t := setBlock s.t a_pe.blockId (.inner aes' acs') }
        { s with t := setBlock s.t b_pe.blockId (.inner bes' bcs') }
    else
      -- "In fact insert to 'a' block"
      let new_pos := an + pos
      let acs' := acs ++ bcs.take pos ++ blockId ::
                    ((bcs.drop pos).take (num - 1 - pos))
      let bcs' := bcs.drop (num - 1)
      let aes1 := (if move_to_empty then [] else aes ++ [readMax s a_pe.maxPtr]) ++
        (if !move_all then bes.take pos
         else if pos == bn then
           (if 0 < pos then bes.take (pos - 1) ++ [readMax s b_pe.maxPtr] else [])
         else bes.take pos)
      if new_pos == an + num - 1 then
        let s := writeMax s a_pe.maxPtr max_elem
        let bes' := if !move_all then bes.drop (num - 1) else []
        let s := { s with t := setBlock s.t a_pe.blockId (.inner aes1 acs') }
        { s with t := setBlock s.t b_pe.blockId (.inner bes' bcs') }
      else
        let aes' := aes1 ++ max_elem :: ((bes.drop pos).take (num - 1 - pos - 1))
        let s := if move_all then
                   writeMax s a_pe.maxPtr (readMax s b_pe.maxPtr)
                 else
                   writeMax s a_pe.maxPtr (bes.getD (num - 2) dflt)
        let bes' := if !move_all then bes.drop (num - 1) else []
        let s := { s with t := setBlock s.t a_pe.blockId (.inner aes' acs') }
        { s with t := setBlock s.t b_pe.blockId (.inner bes' bcs') }
  | _, _ => s

/-! ## Sibling collection -/

/-- `bps_tree_collect_left_path_elem_leaf`: path element of the left
sibling under the same parent (`false`/`none` when absent). -/
def bps_tree_collect_left_path_elem_leaf (t : Tree) (pe : PathElem)
    (parent : Option PathElem) : Option PathElem :=
  match parent with
  | none => none
  | some par =>
    if pe.posInParent == 0 then none
    else
      let pp := pe.posInParent - 1
      some { blockId := (getBlock t par.blockId).innerChildIds.getD pp 0,
             insertionPoint := 0, posInParent := pp,
             maxPtr := .sep par.blockId pp }

/-- `bps_tree_collect_left_path_elem_inner` (same shape as the leaf
version, the source keeps two copies for the two block types). -/
def bps_tree_collect_left_path_elem_inner (t : Tree) (pe : PathElem)
    (parent : Option PathElem) : Option PathElem :=
  match parent with
  | none => none
  | some par =>
    if pe.posInParent == 0 then none
    else
      let pp := pe.posInParent - 1
      some { blockId := (getBlock t par.blockId).innerChildIds.getD pp 0,
             insertionPoint := 0, posInParent := pp,
             maxPtr := .sep par.blockId pp }

/-- `bps_tree_collect_right_ext_leaf`: path element of the right sibling
under the same parent; the rightmost child inherits the parent's max
copy. -/
def bps_tree_collect_right_ext_leaf (t : Tree) (pe : PathElem)
    (parent : Option PathElem) : Option PathElem :=
  match parent with
  | none => none
  | some par =>
    let psize := (getBlock t par.blockId).bsize
    if psize - 1 ≤ pe.posInParent then none
    else
      let pp := pe.posInParent + 1
      some { blockId := (getBlock t par.blockId).innerChildIds.getD pp 0,
             insertionPoint := 0, posInParent := pp,
             maxPtr := if psize - 1 ≤ pp then par.maxPtr
                       else .sep par.blockId pp }

/-- `bps_tree_collect_right_ext_inner`. -/
def bps_tree_collect_right_ext_inner (t : Tree) (pe : PathElem)
    (parent : Option PathElem) : Option PathElem :=
  match parent with
  | none => none
  | some par =>
    let psize := (getBlock t par.blockId).bsize
    if psize - 1 ≤ pe.posInParent then none
    else
      let pp := pe.posInParent + 1
      some { blockId := (getBlock t par.blockId).innerChildIds.getD pp 0,
             insertionPoint := 0, posInParent := pp,
             maxPtr := if psize - 1 ≤ pp then par.maxPtr
                       else .sep par.blockId pp }

/-- `bps_tree_prepare_new_ext_leaf`: path element of the block created
by a split; its max copy is the local `new_max_elem` cell. -/
def bps_tree_prepare_new_ext_leaf (pe : PathElem) (newId : Nat) : PathElem :=
  { blockId := newId, insertionPoint := 0, posInParent := pe.posInParent + 1,
    maxPtr := .scratch }

/-- `bps_tree_prepare_new_ext_inner`. -/
def bps_tree_prepare_new_ext_inner (pe : PathElem) (newId : Nat) : PathElem :=
  { blockId := newId, insertionPoint := 0, posInParent := pe.posInParent + 1,
    maxPtr := .scratch }

/-! ## Structural insertion

`bps_tree_process_insert_inner` first tries the in-place insertion, then
the one- and two-hop borrows (each `return true`), and finally splits,
recursing into the parent.  The borrow phase is rendered as a
`Sum`-valued intermediate: `inl` is an early `return true`, `inr`
carries the collected two-hop extensions into the split tail. -/

def bps_tree_process_insert_inner (s : St) (pe : PathElem)
    (parents : List PathElem) (budget : Nat) (blockId : Nat) (pos : Nat)
    (max_elem : Elem) : Option (Bool × St × Nat) :=
  if 0 < bps_tree_inner_free_size s.t pe.blockId then
    some (true, bps_tree_insert_into_inner s pe blockId pos max_elem, budget)
  else
    let parent := parents.head?
    let oleft := bps_tree_collect_left_path_elem_inner s.t pe parent
    let oright := bps_tree_collect_right_ext_inner s.t pe parent
    let phase1 : St ⊕ (Option PathElem × Option PathElem) :=
      match oleft, oright with
      | some le, some re =>
        if bps_tree_inner_free_size s.t re.blockId <
           bps_tree_inner_free_size s.t le.blockId then
          Sum.inl (bps_tree_insert_and_move_elems_to_left_inner s le pe
            (1 + bps_tree_inner_free_size s.t le.blockId / 2) blockId pos max_elem)
        else if 0 < bps_tree_inner_free_size s.t re.blockId then
          Sum.inl (bps_tree_insert_and_move_elems_to_right_inner s pe re
            (1 + bps_tree_inner_free_size s.t re.blockId / 2) blockId pos max_elem)
        else Sum.inr (none, none)
      | some le, none =>
        if 0 < bps_tree_inner_free_size s.t le.blockId then
          Sum.inl (bps_tree_insert_and_move_elems_to_left_inner s le pe
            (1 + bps_tree_inner_free_size s.t le.blockId / 2) blockId pos max_elem)
        else
          match bps_tree_collect_left_path_elem_inner s.t le parent with
          | some lle =>
            if 0 < bps_tree_inner_free_size s.t lle.blockId then
              let mc := 1 + (2 * bps_tree_inner_free_size s.t lle.blockId - 1) / 3
              let s := bps_tree_move_elems_to_left_inner s lle le mc
              Sum.inl (bps_tree_insert_and_move_elems_to_left_inner s le pe
                (1 + mc / 2) blockId pos max_elem)
            else Sum.inr (some lle, none)
          | none => Sum.inr (none, none)
      | none, some re =>
        if 0 < bps_tree_inner_free_size s.t re.blockId then
          Sum.inl (bps_tree_insert_and_move_elems_to_right_inner s pe re
            (1 + bps_tree_inner_free_size s.t re.blockId / 2) blockId pos max_elem)
        else
          match bps_tree_collect_right_ext_inner s.t re parent with
          | some rre =>
            if 0 < bps_tree_inner_free_size s.t rre.blockId then
              let mc := 1 + (2 * bps_tree_inner_free_size s.t rre.blockId - 1) / 3
              let s := bps_tree_move_elems_to_right_inner s re rre mc
              Sum.inl (bps_tree_insert_and_move_elems_to_right_inner s pe re
                (1 + mc / 2) blockId pos max_elem)
            else Sum.inr (none, some rre)
          | none => Sum.inr (none, none)
      | none, none => Sum.inr (none, none)
    match phase1 with
    | Sum.inl s => some (true, s, budget)
    | Sum.inr (oll, orr) =>
      match bps_tree_create_inner s.t budget with
      | none => none
      | some (t, new_block_id, budget) =>
        let s := { s with t := t }
        let new_pe := bps_tree_prepare_new_ext_inner pe new_block_id
        match oleft, oright, oll, orr with
        | some le, some re, _, _ =>
          let mc := s.t.cfg.imax / 4
          let s := bps_tree_insert_and_move_elems_to_right_inner s pe new_pe
            (mc * 2) blockId pos max_elem
          let s := bps_tree_move_elems_to_left_inner s new_pe re mc
          let s := bps_tree_move_elems_to_right_inner s le pe mc
          match parents with
          | [] => none
          | p :: rest =>
            bps_tree_process_insert_inner s p rest budget new_block_id
              new_pe.posInParent s.nm
        | some le, _, some lle, _ =>
          let mc := s.t.cfg.imax / 4
          let s := bps_tree_insert_and_move_elems_to_right_inner s pe new_pe
            (mc * 3) blockId pos max_elem
          let s := bps_tree_move_elems_to_right_inner s le pe (mc * 2)
          let s := bps_tree_move_elems_to_right_inner s lle le mc
          match parents with
          | [] => none
          | p :: rest =>
            bps_tree_process_insert_inner s p rest budget new_block_id
              new_pe.posInParent s.nm
        | _, some re, _, some rre =>
          let mc := s.t.cfg.imax / 4
          let s := bps_tree_insert_and_move_elems_to_right_inner s pe new_pe
            mc blockId pos max_elem
          let s := bps_tree_move_elems_to_left_inner s new_pe re (mc * 2)
          let s := bps_tree_move_elems_to_left_inner s re rre mc
          match parents with
          | [] => none
          | p :: rest =>
            bps_tree_process_insert_inner s p rest budget new_block_id
              new_pe.posInParent s.nm
        | some le, _, _, _ =>
          let mc := s.t.cfg.imax / 3
          let s := bps_tree_insert_and_move_elems_to_right_inner s pe new_pe
            (mc * 2) blockId pos max_elem
          let s := bps_tree_move_elems_to_right_inner s le pe mc
          match parents with
          | [] => none
          | p :: rest =>
            bps_tree_process_insert_inner s p rest budget new_block_id
              new_pe.posInParent s.nm
        | _, some re, _, _ =>
          let mc := s.t.cfg.imax / 3
          let s := bps_tree_insert_and_move_elems_to_right_inner s pe new_pe
            mc blockId pos max_elem
          let s := bps_tree_move_elems_to_left_inner s new_pe re mc
          match parents with
          | [] => none
          | p :: rest =>
            bps_tree_process_insert_inner s p rest budget new_block_id
              new_pe.posInParent s.nm
        | _, _, _, _ =>
          let mc := s.t.cfg.imax / 2
          let s := bps_tree_insert_and_move_elems_to_right_inner s pe new_pe
            mc blockId pos max_elem
          match bps_tree_create_inner s.t budget with
          | none => none
          | some (t, new_root_id, budget) =>
            let s := { s with t := t }
            let rootBlk := Block.inner [s.t.maxElem] [s.t.root.getD 0, new_block_id]
            let s := { s with t := setBlock s.t new_root_id rootBlk }
            let t' := { s.t with root := some new_root_id, maxElem := s.nm, depth := s.t.depth + 1 }
            some (true, { s with t := t' }, budget)
termination_by structural parents

/-- Split tail of `bps_tree_process_insert_leaf` (everything after the
borrow attempts fail): create the new leaf, reserve blocks for the
cascade — the only clean failure point of insertion — splice the new
leaf into the leaf list, redistribute, and propagate to the parent. -/
def bps_tree_process_insert_leaf_split (s : St) (leaf_pe : PathElem)
    (parents : List PathElem) (budget : Nat) (new_elem : Elem)
    (oleft oright oll orr : Option PathElem) : Option (Bool × St × Nat) :=
  match bps_tree_create_leaf s.t budget with
  | none => none
  | some (t, new_block_id, budget) =>
    let s := { s with t := t }
    match bps_tree_reserve_blocks s.t budget (s.t.depth + 1) with
    | (false, t, budget) => some (false, { s with t := t }, budget)
    | (true, t, budget) =>
      let s := { s with t := t }
      let oldNext := (getBlock s.t leaf_pe.blockId).leafNextId
      let s :=
        match oldNext with
        | some nid =>
          match getBlock s.t nid with
          | .leaf _ nn nes =>
            { s with t := setBlock s.t nid (.leaf (some new_block_id) nn nes) }
          | _ => s
        | none => { s with t := { s.t with lastId := some new_block_id } }
      let newLeafBlk := Block.leaf (some leaf_pe.blockId) oldNext []
      let s := { s with t := setBlock s.t new_block_id newLeafBlk }
      let s :=
        match getBlock s.t leaf_pe.blockId with
        | .leaf p _ es =>
          { s with t := setBlock s.t leaf_pe.blockId (.leaf p (some new_block_id) es) }
        | _ => s
      let new_pe := bps_tree_prepare_new_ext_leaf leaf_pe new_block_id
      match oleft, oright, oll, orr with
      | some le, some re, _, _ =>
        let mc := s.t.cfg.lmax / 4
        let s := bps_tree_insert_and_move_elems_to_right_leaf s leaf_pe new_pe
          (mc * 2) new_elem
        let s := bps_tree_move_elems_to_left_leaf s new_pe re mc
        let s := bps_tree_move_elems_to_right_leaf s le leaf_pe mc
        match parents with
        | [] => none
        | p :: rest =>
          bps_tree_process_insert_inner s p rest budget new_block_id
            new_pe.posInParent s.nm
      | some le, _, some lle, _ =>
        let mc := s.t.cfg.lmax / 4
        let s := bps_tree_insert_and_move_elems_to_right_leaf s leaf_pe new_pe
          (mc * 3) new_elem
        let s := bps_tree_move_elems_to_right_leaf s le leaf_pe (mc * 2)
        let s := bps_tree_move_elems_to_right_leaf s lle le mc
        match parents with
        | [] => none
        | p :: rest =>
          bps_tree_process_insert_inner s p rest budget new_block_id
            new_pe.posInParent s.nm
      | _, some re, _, some rre =>
        let mc := s.t.cfg.lmax / 4
        let s := bps_tree_insert_and_move_elems_to_right_leaf s leaf_pe new_pe
          mc new_elem
        let s := bps_tree_move_elems_to_left_leaf s new_pe re (mc * 2)
        let s := bps_tree_move_elems_to_left_leaf s re rre mc
        match parents with
        | [] => none
        | p :: rest =>
          bps_tree_process_insert_inner s p rest budget new_block_id
            new_pe.posInParent s.nm
      | some le, _, _, _ =>
        let mc := s.t.cfg.lmax / 3
        let s := bps_tree_insert_and_move_elems_to_right_leaf s leaf_pe new_pe
          (mc * 2) new_elem
        let s := bps_tree_move_elems_to_right_leaf s le leaf_pe mc
        match parents with
        | [] => none
        | p :: rest =>
          bps_tree_process_insert_inner s p rest budget new_block_id
            new_pe.posInParent s.nm
      | _, some re, _, _ =>
        let mc := s.t.cfg.lmax / 3
        let s := bps_tree_insert_and_move_elems_to_right_leaf s leaf_pe new_pe
          mc new_elem
        let s := bps_tree_move_elems_to_left_leaf s new_pe re mc
        match parents with
        | [] => none
        | p :: rest =>
          bps_tree_process_insert_inner s p rest budget new_block_id
            new_pe.posInParent s.nm
      | _, _, _, _ =>
        let mc := s.t.cfg.lmax / 2
        let s := bps_tree_insert_and_move_elems_to_right_leaf s leaf_pe new_pe
          mc new_elem
        match bps_tree_create_inner s.t budget with
        | none => none
        | some (t, new_root_id, budget) =>
          let s := { s with t := t }
          let rootBlk := Block.inner [s.t.maxElem] [s.t.root.getD 0, new_block_id]
          let s := { s with t := setBlock s.t new_root_id rootBlk }
          let t' := { s.t with root := some new_root_id, maxElem := s.nm, depth := s.t.depth + 1 }
          some (true, { s with t := t' }, budget)

/-- `bps_tree_process_insert_leaf`: in-place insert, borrows across up
to three neighbours, or split (the only path that can report failure). -/
def bps_tree_process_insert_leaf (s : St) (leaf_pe : PathElem)
    (parents : List PathElem) (budget : Nat) (new_elem : Elem) :
    Option (Bool × St × Nat) :=
  if 0 < bps_tree_leaf_free_size s.t leaf_pe.blockId then
    some (true, bps_tree_insert_into_leaf s leaf_pe new_elem, budget)
  else
    let parent := parents.head?
    let oleft := bps_tree_collect_left_path_elem_leaf s.t leaf_pe parent
    let oright := bps_tree_collect_right_ext_leaf s.t leaf_pe parent
    match oleft, oright with
    | some le, some re =>
      if bps_tree_leaf_free_size s.t re.blockId <
         bps_tree_leaf_free_size s.t le.blockId then
        some (true, bps_tree_insert_and_move_elems_to_left_leaf s le leaf_pe
          (1 + bps_tree_leaf_free_size s.t le.blockId / 2) new_elem, budget)
      else if 0 < bps_tree_leaf_free_size s.t re.blockId then
        some (true, bps_tree_insert_and_move_elems_to_right_leaf s leaf_pe re
          (1 + bps_tree_leaf_free_size s.t re.blockId / 2) new_elem, budget)
      else
        bps_tree_process_insert_leaf_split s leaf_pe parents budget new_elem
          oleft oright none none
    | some le, none =>
      if 0 < bps_tree_leaf_free_size s.t le.blockId then
        some (true, bps_tree_insert_and_move_elems_to_left_leaf s le leaf_pe
          (1 + bps_tree_leaf_free_size s.t le.blockId / 2) new_elem, budget)
      else
        match bps_tree_collect_left_path_elem_leaf s.t le parent with
        | some lle =>
          if 0 < bps_tree_leaf_free_size s.t lle.blockId then
            let mc := 1 + (2 * bps_tree_leaf_free_size s.t lle.blockId - 1) / 3
            let s := bps_tree_move_elems_to_left_leaf s lle le mc
            some (true, bps_tree_insert_and_move_elems_to_left_leaf s le leaf_pe
              (1 + mc / 2) new_elem, budget)
          else
            bps_tree_process_insert_leaf_split s leaf_pe parents budget new_elem
              oleft none (some lle) none
        | none =>
          bps_tree_process_insert_leaf_split s leaf_pe parents budget new_elem
            oleft none none none
    | none, some re =>
      if 0 < bps_tree_leaf_free_size s.t re.blockId then
        some (true, bps_tree_insert_and_move_elems_to_right_leaf s leaf_pe re
          (1 + bps_tree_leaf_free_size s.t re.blockId / 2) new_elem, budget)
      else
        match bps_tree_collect_right_ext_leaf s.t re parent with
        | some rre =>
          if 0 < bps_tree_leaf_free_size s.t rre.blockId then
            let mc := 1 + (2 * bps_tree_leaf_free_size s.t rre.blockId - 1) / 3
            let s := bps_tree_move_elems_to_right_leaf s re rre mc
            some (true, bps_tree_insert_and_move_elems_to_right_leaf s leaf_pe re
              (1 + mc / 2) new_elem, budget)
          else
            bps_tree_process_insert_leaf_split s leaf_pe parents budget new_elem
              none oright none (some rre)
        | none =>
          bps_tree_process_insert_leaf_split s leaf_pe parents budget new_elem
            none oright none none
    | none, none =>
      bps_tree_process_insert_leaf_split s leaf_pe parents budget new_elem
        none none none none

/-! ## Structural deletion -/

/-- `bps_tree_process_delete_inner`: remove the child slot, then borrow
from up to two hops of siblings, else merge and recurse into the parent;
an inner root of size 1 collapses into its only child. -/
def bps_tree_process_delete_inner (s : St) (pe : PathElem)
    (parents : List PathElem) : St :=
  let s := bps_tree_delete_from_inner s pe
  if (s.t.cfg.imax * 2 / 3 : Nat) ≤ (getBlock s.t pe.blockId).bsize then s
  else
    let parent := parents.head?
    let oleft := bps_tree_collect_left_path_elem_inner s.t pe parent
    let oright := bps_tree_collect_right_ext_inner s.t pe parent
    let phase1 : St ⊕ (Option PathElem × Option PathElem) :=
      match oleft, oright with
      | some le, some re =>
        if bps_tree_inner_overmin_size s.t re.blockId <
           bps_tree_inner_overmin_size s.t le.blockId then
          Sum.inl (bps_tree_move_elems_to_right_inner s le pe
            (1 + Int.tdiv (bps_tree_inner_overmin_size s.t le.blockId) 2).toNat)
        else if 0 < bps_tree_inner_overmin_size s.t re.blockId then
          Sum.inl (bps_tree_move_elems_to_left_inner s pe re
            (1 + Int.tdiv (bps_tree_inner_overmin_size s.t re.blockId) 2).toNat)
        else Sum.inr (none, none)
      | some le, none =>
        if 0 < bps_tree_inner_overmin_size s.t le.blockId then
          Sum.inl (bps_tree_move_elems_to_right_inner s le pe
            (1 + Int.tdiv (bps_tree_inner_overmin_size s.t le.blockId) 2).toNat)
        else
          match bps_tree_collect_left_path_elem_inner s.t le parent with
          | some lle =>
            if 0 < bps_tree_inner_overmin_size s.t lle.blockId then
              let mc := (1 + Int.tdiv
                (2 * bps_tree_inner_overmin_size s.t lle.blockId - 1) 3).toNat
              let s := bps_tree_move_elems_to_right_inner s le pe mc
              Sum.inl (bps_tree_move_elems_to_right_inner s lle le (1 + mc / 2))
            else Sum.inr (some lle, none)
          | none => Sum.inr (none, none)
      | none, some re =>
        if 0 < bps_tree_inner_overmin_size s.t re.blockId then
          Sum.inl (bps_tree_move_elems_to_left_inner s pe re
            (1 + Int.tdiv (bps_tree_inner_overmin_size s.t re.blockId) 2).toNat)
        else
          match bps_tree_collect_right_ext_inner s.t re parent with
          | some rre =>
            if 0 < bps_tree_inner_overmin_size s.t rre.blockId then
              let mc := (1 + Int.tdiv
                (2 * bps_tree_inner_overmin_size s.t rre.blockId - 1) 3).toNat
              let s := bps_tree_move_elems_to_left_inner s pe re mc
              Sum.inl (bps_tree_move_elems_to_left_inner s re rre (1 + mc / 2))
            else Sum.inr (none, some rre)
          | none => Sum.inr (none, none)
      | none, none => Sum.inr (none, none)
    match phase1 with
    | Sum.inl s => s
    | Sum.inr (oll, orr) =>
      match oleft, oright, oll, orr with
      | some le, some re, _, _ =>
        let mc := ((getBlock s.t pe.blockId).bsize + 1) / 2
        let s := bps_tree_move_elems_to_right_inner s pe re mc
        let s := bps_tree_move_elems_to_left_inner s le pe
          (getBlock s.t pe.blockId).bsize
        let s := { s with t := bps_tree_dispose_inner s.t pe.blockId }
        match parents with
        | [] => s
        | p :: rest => bps_tree_process_delete_inner s p rest
      | some le, _, some lle, _ =>
        let mc := ((getBlock s.t pe.blockId).bsize + 1) / 2
        let s := bps_tree_move_elems_to_left_inner s lle le mc
        let s := bps_tree_move_elems_to_left_inner s le pe
          (getBlock s.t pe.blockId).bsize
        let s := { s with t := bps_tree_dispose_inner s.t pe.blockId }
        match parents with
        | [] => s
        | p :: rest => bps_tree_process_delete_inner s p rest
      | _, some re, _, some rre =>
        let mc := ((getBlock s.t pe.blockId).bsize + 1) / 2
        let s := bps_tree_move_elems_to_right_inner s re rre mc
        let s := bps_tree_move_elems_to_right_inner s pe re
          (getBlock s.t pe.blockId).bsize
        let s := { s with t := bps_tree_dispose_inner s.t pe.blockId }
        match parents with
        | [] => s
        | p :: rest => bps_tree_process_delete_inner s p rest
      | some le, _, _, _ =>
        if s.t.cfg.imax <
           (getBlock s.t pe.blockId).bsize + (getBlock s.t le.blockId).bsize then
          s
        else
          let s := bps_tree_move_elems_to_left_inner s le pe
            (getBlock s.t pe.blockId).bsize
          let s := { s with t := bps_tree_dispose_inner s.t pe.blockId }
          match parents with
          | [] => s
          | p :: rest => bps_tree_process_delete_inner s p rest
      | _, some re, _, _ =>
        if s.t.cfg.imax <
           (getBlock s.t pe.blockId).bsize + (getBlock s.t re.blockId).bsize then
          s
        else
          let s := bps_tree_move_elems_to_right_inner s pe re
            (getBlock s.t pe.blockId).bsize
          let s := { s with t := bps_tree_dispose_inner s.t pe.blockId }
          match parents with
          | [] => s
          | p :: rest => bps_tree_process_delete_inner s p rest
      | _, _, _, _ =>
        if 1 < (getBlock s.t pe.blockId).bsize then s
        else
          let newRoot := (getBlock s.t pe.blockId).innerChildIds.getD 0 0
          let t' := { s.t with depth := s.t.depth - 1, root := some newRoot }
          let s := { s with t := t' }
          { s with t := bps_tree_dispose_inner s.t pe.blockId }
termination_by structural parents

/-- `bps_tree_process_delete_leaf`: remove the element from the leaf;
if it drops below `LMAX * 2 / 3`, borrow across up to two hops, else
merge into a sibling, unlink the emptied leaf from the leaf chain,
dispose it and recurse into the parent; an emptied root leaf resets the
tree to the empty state. -/
def bps_tree_process_delete_leaf (s : St) (pe : PathElem)
    (parents : List PathElem) : St :=
  let s := bps_tree_delete_from_leaf s pe
  if (s.t.cfg.lmax * 2 / 3 : Nat) ≤ (getBlock s.t pe.blockId).bsize then s
  else
    let parent := parents.head?
    let oleft := bps_tree_collect_left_path_elem_leaf s.t pe parent
    let oright := bps_tree_collect_right_ext_leaf s.t pe parent
    let phase1 : St ⊕ (Option PathElem × Option PathElem) :=
      match oleft, oright with
      | some le, some re =>
        if bps_tree_leaf_overmin_size s.t re.blockId <
           bps_tree_leaf_overmin_size s.t le.blockId then
          Sum.inl (bps_tree_move_elems_to_right_leaf s le pe
            (1 + Int.tdiv (bps_tree_leaf_overmin_size s.t le.blockId) 2).toNat)
        else if 0 < bps_tree_leaf_overmin_size s.t re.blockId then
          Sum.inl (bps_tree_move_elems_to_left_leaf s pe re
            (1 + Int.tdiv (bps_tree_leaf_overmin_size s.t re.blockId) 2).toNat)
        else Sum.inr (none, none)
      | some le, none =>
        if 0 < bps_tree_leaf_overmin_size s.t le.blockId then
          Sum.inl (bps_tree_move_elems_to_right_leaf s le pe
            (1 + Int.tdiv (bps_tree_leaf_overmin_size s.t le.blockId) 2).toNat)
        else
          match bps_tree_collect_left_path_elem_leaf s.t le parent with
          | some lle =>
            if 0 < bps_tree_leaf_overmin_size s.t lle.blockId then
              let mc := (1 + Int.tdiv
                (2 * bps_tree_leaf_overmin_size s.t lle.blockId - 1) 3).toNat
              let s := bps_tree_move_elems_to_right_leaf s le pe mc
              Sum.inl (bps_tree_move_elems_to_right_leaf s lle le (1 + mc / 2))
            else Sum.inr (some lle, none)
          | none => Sum.inr (none, none)
      | none, some re =>
        if 0 < bps_tree_leaf_overmin_size s.t re.blockId then
          Sum.inl (bps_tree_move_elems_to_left_leaf s pe re
            (1 + Int.tdiv (bps_tree_leaf_overmin_size s.t re.blockId) 2).toNat)
        else
          match bps_tree_collect_right_ext_leaf s.t re parent with
          | some rre =>
            if 0 < bps_tree_leaf_overmin_size s.t rre.blockId then
              let mc := (1 + Int.tdiv
                (2 * bps_tree_leaf_overmin_size s.t rre.blockId - 1) 3).toNat
              let s := bps_tree_move_elems_to_left_leaf s pe re mc
              Sum.inl (bps_tree_move_elems_to_left_leaf s re rre (1 + mc / 2))
            else Sum.inr (none, some rre)
          | none => Sum.inr (none, none)
      | none, none => Sum.inr (none, none)
    match phase1 with
    | Sum.inl s => s
    | Sum.inr (oll, orr) =>
      let finish : St → St := fun s =>
        -- unlink the (now empty) leaf from the doubly linked list
        let blk := getBlock s.t pe.blockId
        let s :=
          match blk.leafPrevId with
          | none => { s with t := { s.t with firstId := blk.leafNextId } }
          | some pid =>
            match getBlock s.t pid with
            | .leaf pp _ pes =>
              { s with t := setBlock s.t pid (.leaf pp blk.leafNextId pes) }
            | _ => s
        let s :=
          match blk.leafNextId with
          | none => { s with t := { s.t with lastId := blk.leafPrevId } }
          | some nid =>
            match getBlock s.t nid with
            | .leaf _ nn nes =>
              { s with t := setBlock s.t nid (.leaf blk.leafPrevId nn nes) }
            | _ => s
        { s with t := bps_tree_dispose_leaf s.t pe.blockId }
      match oleft, oright, oll, orr with
      | some le, some re, _, _ =>
        let mc := ((getBlock s.t pe.blockId).bsize + 1) / 2
        let s := bps_tree_move_elems_to_right_leaf s pe re mc
        let s := bps_tree_move_elems_to_left_leaf s le pe
          (getBlock s.t pe.blockId).bsize
        let s := finish s
        match parents with
        | [] => s
        | p :: rest => bps_tree_process_delete_inner s p rest
      | some le, _, some lle, _ =>
        let mc := ((getBlock s.t pe.blockId).bsize + 1) / 2
        let s := bps_tree_move_elems_to_left_leaf s lle le mc
        let s := bps_tree_move_elems_to_left_leaf s le pe
          (getBlock s.t pe.blockId).bsize
        let s := finish s
        match parents with
        | [] => s
        | p :: rest => bps_tree_process_delete_inner s p rest
      | _, some re, _, some rre =>
        let mc := ((getBlock s.t pe.blockId).bsize + 1) / 2
        let s := bps_tree_move_elems_to_right_leaf s re rre mc
        let s := bps_tree_move_elems_to_right_leaf s pe re
          (getBlock s.t pe.blockId).bsize
        let s := finish s
        match parents with
        | [] => s
        | p :: rest => bps_tree_process_delete_inner s p rest
      | some le, _, _, _ =>
        if s.t.cfg.lmax <
           (getBlock s.t pe.blockId).bsize + (getBlock s.t le.blockId).bsize then
          s
        else
          let s := bps_tree_move_elems_to_left_leaf s le pe
            (getBlock s.t pe.blockId).bsize
          let s := finish s
          match parents with
          | [] => s
          | p :: rest => bps_tree_process_delete_inner s p rest
      | _, some re, _, _ =>
        if s.t.cfg.lmax <
           (getBlock s.t pe.blockId).bsize + (getBlock s.t re.blockId).bsize then
          s
        else
          let s := bps_tree_move_elems_to_right_leaf s pe re
            (getBlock s.t pe.blockId).bsize
          let s := finish s
          match parents with
          | [] => s
          | p :: rest => bps_tree_process_delete_inner s p rest
      | _, _, _, _ =>
        if 0 < (getBlock s.t pe.blockId).bsize then s
        else
          let t' := { s.t with root := none, depth := 0, firstId := none, lastId := none }
          let s := { s with t := t' }
          { s with t := bps_tree_dispose_leaf s.t pe.blockId }

/-! ## Path collection and the public mutators -/

/-- Descent loop of `bps_tree_collect_path`: record a path element per
inner level; once `exact` is seen, the descent follows the rightmost
child (the matching element is the maximum of that subtree).  Returns
the inner path (head = leaf's parent), the leaf path element, and the
`exact` flag. -/
def collect_path_go (t : Tree) (new_elem : Elem) (blockId : Nat)
    (maxPtr : MaxPtr) (prevPos : Nat) (exact : Bool) (steps : Nat)
    (acc : List PathElem) : List PathElem × PathElem × Bool :=
  match steps with
  | 0 =>
    let es := (getBlock t blockId).leafElems
    let pr := if exact then (es.length - 1, true)
              else bps_tree_find_ins_point_elem es new_elem
    (acc, { blockId := blockId, insertionPoint := pr.1,
            posInParent := prevPos, maxPtr := maxPtr }, pr.2)
  | steps + 1 =>
    let b := getBlock t blockId
    let pr := if exact then (b.bsize - 1, true)
              else bps_tree_find_ins_point_elem b.innerElems new_elem
    let pe : PathElem := { blockId := blockId, insertionPoint := pr.1,
                           posInParent := prevPos, maxPtr := maxPtr }
    let maxPtr' := if pr.1 < b.bsize - 1 then MaxPtr.sep blockId pr.1 else maxPtr
    collect_path_go t new_elem (b.innerChildIds.getD pr.1 0) maxPtr' pr.1 pr.2
      steps (pe :: acc)

/-- `bps_tree_collect_path`. -/
def bps_tree_collect_path (t : Tree) (new_elem : Elem) :
    List PathElem × PathElem × Bool :=
  collect_path_go t new_elem (t.root.getD 0) .tree 0 false (t.depth - 1) []

/-- `bps_tree_process_replace`: overwrite the matching slot, report the
old element, refresh the subtree's max copy with the leaf's last
element. -/
def bps_tree_process_replace (s : St) (pe : PathElem) (new_elem : Elem) :
    St × Option Elem :=
  match getBlock s.t pe.blockId with
  | .leaf p n es =>
    let replaced := es.getD pe.insertionPoint dflt
    let es' := es.set pe.insertionPoint new_elem
    let s := { s with t := setBlock s.t pe.blockId (.leaf p n es') }
    (writeMax s pe.maxPtr (lastElem es'), some replaced)
  | _ => (s, none)

/-- `bps_tree_insert_first_elem`: `tree->max_elem` is written *before*
the leaf creation; a creation failure is the crash inherited from
`bps_tree_create_leaf`. -/
def bps_tree_insert_first_elem (t : Tree) (budget : Nat) (new_elem : Elem) :
    Option (Bool × Tree × Nat) :=
  let t := { t with maxElem := new_elem }
  match bps_tree_create_leaf t budget with
  | none => none
  | some (t, id, budget) =>
    let t := setBlock t id (.leaf none none [new_elem])
    let t := { t with root := some id, firstId := some id, lastId := some id, depth := 1, size := 1 }
    some (true, t, budget)

/-- `bps_tree_insert`: empty-tree case, replacement case (`exact`), or
structural insertion.  Result: `(inserted-or-replaced, replaced element
if any, tree, remaining budget)`; `none` is the crash case. -/
def bps_tree_insert (t : Tree) (budget : Nat) (new_elem : Elem) :
    Option (Bool × Option Elem × Tree × Nat) :=
  match t.root with
  | none =>
    match bps_tree_insert_first_elem t budget new_elem with
    | none => none
    | some (ok, t, budget) => some (ok, none, t, budget)
  | some _ =>
    let (parents, leaf_pe, exact) := bps_tree_collect_path t new_elem
    if exact then
      let (s, replaced) :=
        bps_tree_process_replace { t := t, nm := dflt } leaf_pe new_elem
      some (true, replaced, s.t, budget)
    else
      match bps_tree_process_insert_leaf { t := t, nm := dflt } leaf_pe parents
              budget new_elem with
      | none => none
      | some (ok, s, budget) => some (ok, none, s.t, budget)

/-- `bps_tree_delete`. -/
def bps_tree_delete (t : Tree) (elem : Elem) : Bool × Tree :=
  match t.root with
  | none => (false, t)
  | some _ =>
    let (parents, leaf_pe, exact) := bps_tree_collect_path t elem
    if !exact then (false, t)
    else
      let s := bps_tree_process_delete_leaf { t := t, nm := dflt } leaf_pe parents
      (true, s.t)

/-! ## Lookup and iterators -/

/-- Descent loop of `bps_tree_find`. -/
def find_go (t : Tree) (key : Int) (id : Nat) : Nat → Option Elem
  | 0 =>
    let es := (getBlock t id).leafElems
    let pr := bps_tree_find_ins_point_key es key
    if pr.2 then some (es.getD pr.1 dflt) else none
  | steps + 1 =>
    let b := getBlock t id
    let pr := bps_tree_find_ins_point_key b.innerElems key
    find_go t key (b.innerChildIds.getD pr.1 0) steps

/-- `bps_tree_find`: pointer to the first element equal to the key, or
NULL. -/
def bps_tree_find (t : Tree) (key : Int) : Option Elem :=
  match t.root with
  | none => none
  | some rid => find_go t key rid (t.depth - 1)

/-- `struct bps_tree_iterator`: `none` renders the `-1` sentinels of
both fields. -/
structure Iterator where
  blockId : Option Nat
  pos : Option Nat
deriving Repr, DecidableEq

/-- `bps_tree_invalid_iterator`. -/
def bps_tree_invalid_iterator : Iterator :=
  { blockId := none, pos := some 0 }

/-- `bps_tree_itr_first`. -/
def bps_tree_itr_first (t : Tree) : Iterator :=
  { blockId := t.firstId, pos := some 0 }

/-- `bps_tree_itr_last`. -/
def bps_tree_itr_last (t : Tree) : Iterator :=
  { blockId := t.lastId, pos := none }

/-- `bps_tree_get_leaf_safe`: validity check plus canonicalization of
`pos = -1`; returns the (possibly invalidated) iterator and, on success,
the leaf's elements and its neighbour ids. -/
def bps_tree_get_leaf_safe (t : Tree) (itr : Iterator) :
    Iterator × Option (List Elem × Option Nat × Option Nat) :=
  match itr.blockId with
  | none => (itr, none)
  | some id =>
    match getBlock t id with
    | .leaf p n es =>
      match itr.pos with
      | none => ({ itr with pos := some (es.length - 1) }, some (es, p, n))
      | some pos =>
        if es.length ≤ pos then ({ itr with blockId := none }, none)
        else (itr, some (es, p, n))
    | _ => ({ itr with blockId := none }, none)

/-- `bps_tree_itr_get_elem`. -/
def bps_tree_itr_get_elem (t : Tree) (itr : Iterator) :
    Iterator × Option Elem :=
  match bps_tree_get_leaf_safe t itr with
  | (itr, none) => (itr, none)
  | (itr, some (es, _, _)) => (itr, some (es.getD (itr.pos.getD 0) dflt))

/-- `bps_tree_itr_next`: step within the leaf or hop to the next one;
an invalid iterator rewinds to the first element. -/
def bps_tree_itr_next (t : Tree) (itr : Iterator) : Bool × Iterator :=
  match itr.blockId with
  | none =>
    let itr : Iterator := { blockId := t.firstId, pos := some 0 }
    (itr.blockId.isSome, itr)
  | some _ =>
    match bps_tree_get_leaf_safe t itr with
    | (itr, none) => (false, itr)
    | (itr, some (es, _, n)) =>
      let pos := itr.pos.getD 0 + 1
      if es.length ≤ pos then
        let itr : Iterator := { blockId := n, pos := some 0 }
        (itr.blockId.isSome, itr)
      else (true, { itr with pos := some pos })

/-! ## Bulk build (`bps_tree_build`)

The build loop keeps one open (partially filled) inner block per level;
a child slot of an open block is claimed (written at index
`header.size`) when the child is created and the size is bumped when the
child completes, so an open block's child array is one longer than its
official size.  The official sizes travel in the `BuildLevel` records
(`psize`), mirroring the `parents` / `level_child_count` /
`level_block_count` locals of the source; all array writes land at the
index the corresponding C store targets. -/

structure BuildLevel where
  parent : Option Nat
  psize : Nat
  childCount : Nat
  blockCount : Nat
deriving Repr, DecidableEq

/-- The `while (level_count > 1)` depth computation.  The fuel is the
initial leaf count — with `IMAX ≥ 2` the loop needs at most that many
iterations. -/
def build_depth_go (imax : Nat) : Nat → Nat → Nat → Nat
  | 0, _, depth => depth
  | fuel + 1, lc, depth =>
    if 1 < lc then build_depth_go imax fuel ((lc + imax - 1) / imax) (depth + 1)
    else depth

/-- The `level_child_count` / `level_block_count` setup loop. -/
def build_levels_go (imax : Nat) : Nat → Nat → List BuildLevel
  | 0, _ => []
  | n + 1, lc =>
    let nb := (lc + imax - 1) / imax
    { parent := none, psize := 0, childCount := lc, blockCount := nb } ::
      build_levels_go imax n nb

/-- First inner loop of the build iteration: claim a child slot at each
level, creating a new open inner where none exists (and then continuing
one level up with the created block); `none` is an allocation failure. -/
def build_claim : List BuildLevel → List Block → Nat → Nat → Option Nat →
    Nat → Option (List Block × Nat × Nat × Option Nat × List BuildLevel)
  | [], store, budget, innerCount, rootIfInner, _ =>
    some (store, budget, innerCount, rootIfInner, [])
  | lv :: rest, store, budget, innerCount, rootIfInner, insert_id =>
    match lv.parent with
    | some pid =>
      let store :=
        match store.getD pid .free with
        | .inner es cs => store.set pid (.inner es (cs ++ [insert_id]))
        | b => store.set pid b
      some (store, budget, innerCount, rootIfInner, lv :: rest)
    | none =>
      match budget with
      | 0 => none
      | b + 1 =>
        let new_id := store.length
        let store := store ++ [.inner [] [insert_id]]
        let lv := { lv with parent := some new_id, psize := 0 }
        match rest with
        | [] => some (store, b, innerCount + 1, some new_id, [lv])
        | _ =>
          match build_claim rest store b (innerCount + 1) rootIfInner new_id with
          | none => none
          | some (store, b', ic, ri, rest') =>
            some (store, b', ic, ri, lv :: rest')

/-- Second inner loop of the build iteration: bump the official size at
each level; a block that has not reached its paced share records the
new subtree max as a separator, a block that has closes and propagates
the bump upward. -/
def build_bump (store : List Block) (levels : List BuildLevel)
    (insert_value : Elem) : List Block × List BuildLevel :=
  match levels with
  | [] => (store, [])
  | lv :: rest =>
    match lv.parent with
    | none => (store, lv :: rest)
    | some pid =>
      let psize := lv.psize + 1
      let max_size := lv.childCount / lv.blockCount
      if psize ≠ max_size then
        let store :=
          match store.getD pid .free with
          | .inner es cs => store.set pid (.inner (es ++ [insert_value]) cs)
          | b => store.set pid b
        (store, { lv with psize := psize } :: rest)
      else
        let lv := { lv with parent := none, psize := 0, childCount := lv.childCount - max_size, blockCount := lv.blockCount - 1 }
        let (store', rest') := build_bump store rest insert_value
        (store', lv :: rest')

/-- The `leaf->next_id = id` patch-up of the previous leaf in the build
loop (identity when the block at `pl` is not a leaf). -/
def setPrevLeafNext (store : List Block) (pl : Nat) (id : Nat) :
    List Block :=
  match store.getD pl .free with
  | .leaf pp _ pes => store.set pl (.leaf pp (some id) pes)
  | blk => store.set pl blk

/-- `if (leaf) leaf->next_id = id;` over the optional previous leaf. -/
def setPrevLeafNextOpt (store : List Block) : Option Nat → Nat → List Block
  | some pl, id => setPrevLeafNext store pl id
  | none, _ => store

/-- `if (first_leaf_id == (bps_tree_block_id_t)-1) first_leaf_id = id;` -/
def keepFirst (firstId : Option Nat) (id : Nat) : Option Nat :=
  match firstId with
  | none => some id
  | some f => some f

/-- The `do { ... } while (leaf_left)` loop of `bps_tree_build`,
recursing on `leaf_left`.  Returns `(store, budget, inner_count,
root_if_inner, first_leaf_id, last_leaf_id)`, or `none` on allocation
failure. -/
def build_go (store : List Block) (budget : Nat) (innerCount : Nat)
    (rootIfInner : Option Nat) (levels : List BuildLevel)
    (current : List Elem) (elems_left : Nat) (prevLeafId : Option Nat)
    (firstLeafId : Option Nat) :
    Nat → Option (List Block × Nat × Nat × Option Nat × Option Nat × Option Nat)
  | 0 => some (store, budget, innerCount, rootIfInner, firstLeafId, prevLeafId)
  | ll + 1 =>
    match budget with
    | 0 => none
    | b + 1 =>
      let id := store.length
      let leafSize := elems_left / (ll + 1)
      let store := store ++ [.free]
      let store := setPrevLeafNextOpt store prevLeafId id
      let store := store.set id (.leaf prevLeafId none (current.take leafSize))
      let firstLeafId := keepFirst firstLeafId id
      match build_claim levels store b innerCount rootIfInner id with
      | none => none
      | some (store, b', innerCount, rootIfInner, levels) =>
        let insert_value := current.getD (leafSize - 1) dflt
        let (store, levels) := build_bump store levels insert_value
        build_go store b' innerCount rootIfInner levels (current.drop leafSize)
          (elems_left - leafSize) (some id) firstLeafId ll

/-- `bps_tree_build`: bulk-load a freshly created tree from a sorted
array.  On allocation failure the matras is reset (all extents return to
the host, so the budget is restored) and the tree keeps its initial
empty field values. -/
def bps_tree_build (t : Tree) (budget : Nat) (sorted_array : List Elem) :
    Bool × Tree × Nat :=
  if sorted_array.length == 0 then (true, t, budget)
  else
    let array_size := sorted_array.length
    let leaf_count := (array_size + t.cfg.lmax - 1) / t.cfg.lmax
    let depth := build_depth_go t.cfg.imax leaf_count leaf_count 1
    let levels := build_levels_go t.cfg.imax (depth - 1) leaf_count
    match build_go [] budget 0 none levels sorted_array array_size none none
            leaf_count with
    | none => (false, matras_reset t, budget)
    | some (store, budget', innerCount, rootIfInner, firstLeafId, lastLeafId) =>
      let rootId := if depth == 1 then firstLeafId else rootIfInner
      let t := { t with store := store, firstId := firstLeafId, lastId := lastLeafId, leafCount := leaf_count, innerCount := innerCount, depth := depth, size := array_size, maxElem := sorted_array.getD (array_size - 1) dflt, root := rootId }
      (true, t, budget')

/-! ## Debug self-check (`bps_tree_debug_check`)

The executable invariant checker of the source; a zero bitmask is the
code's own notion of a well-formed tree. -/

/-- Strict ascent by the comparator (the `0x400` / `0x2000` loops). -/
def elems_ascending : List Elem → Bool
  | [] => true
  | [_] => true
  | a :: b :: rest => decide (cmp a b < 0) && elems_ascending (b :: rest)

/-- `bps_tree_debug_find_max_elem` (fuel = level of the block). -/
def bps_tree_debug_find_max_elem (t : Tree) : Nat → Nat → Elem
  | 0, _ => dflt
  | fuel + 1, id =>
    match getBlock t id with
    | .leaf _ _ es => lastElem es
    | .inner _ cs => bps_tree_debug_find_max_elem t fuel (cs.getD (cs.length - 1) 0)
    | _ => dflt

/-- `bps_tree_debug_check_block`: returns the error bitmask and the
updated `(calc_count, expected_prev_id, expected_this_id)` state. -/
def bps_tree_debug_check_block (t : Tree) :
    Nat → Nat → Nat × Option Nat × Option Nat →
    Nat × (Nat × Option Nat × Option Nat)
  | 0, _, st => (0x10, st)
  | level + 1, id, (cnt, eprev, ethis) =>
    match getBlock t id with
    | .leaf p n es =>
      let r := (if some id ≠ ethis then 0x10000 else 0) |||
               (if p ≠ eprev then 0x20000 else 0) |||
               (if level + 1 ≠ 1 then 0x100 else 0) |||
               (if es.length == 0 then 0x200 else 0) |||
               (if t.cfg.lmax < es.length then 0x200 else 0) |||
               (if elems_ascending es then 0 else 0x400)
      (r, (cnt + es.length, some id, n))
    | .inner es cs =>
      let r := (if cs.length == 0 then 0x1000 else 0) |||
               (if t.cfg.imax < cs.length then 0x1000 else 0) |||
               (if elems_ascending es then 0 else 0x2000) |||
               (if (List.range (cs.length - 1)).all fun i =>
                   es.getD i dflt ==
                     bps_tree_debug_find_max_elem t level (cs.getD i 0)
                then 0 else 0x4000) |||
               (if 1 < cs.length ∧
                   0 ≤ cmp (es.getD (cs.length - 2) dflt)
                     (bps_tree_debug_find_max_elem t (level + 1) id)
                then 0x8000 else 0)
      cs.foldl
        (fun acc cid =>
          let pr := bps_tree_debug_check_block t level cid acc.2
          (acc.1 ||| pr.1, pr.2))
        (r, (cnt, eprev, ethis))
    | _ => (0x10, (cnt, eprev, ethis))

/-- `bps_tree_debug_check`: zero iff no invariant of the tree is
broken. -/
def bps_tree_debug_check (t : Tree) : Nat :=
  match t.root with
  | none =>
    (if t.depth ≠ 0 then 0x1 else 0) ||| (if t.size ≠ 0 then 0x1 else 0) |||
      (if t.leafCount ≠ 0 ∨ t.innerCount ≠ 0 then 0x1 else 0)
  | some rid =>
    let r0 := if t.maxElem == bps_tree_debug_find_max_elem t t.depth rid
              then 0 else 0x8
    let pr := bps_tree_debug_check_block t t.depth rid (0, none, t.firstId)
    r0 ||| pr.1 ||| (if pr.2.2.2 ≠ none then 0x40000 else 0) |||
      (if pr.2.2.1 ≠ t.lastId then 0x80000 else 0) |||
      (if t.size ≠ pr.2.1 then 0x4 else 0)


/-- A block that is part of the live tree structure (leaf or inner), as
opposed to garbage-tagged or never-initialised blocks. -/
def liveBlock : Block → Bool
  | .leaf _ _ _ => true
  | .inner _ _ => true
  | _ => false

/-- The garbage list is a well-formed chain: starting at `garbage_head`,
`garbage_count` hops pass through garbage-tagged blocks and end at the
null sentinel. -/
def garbageChainOK (t : Tree) : Nat → Option Nat → Bool
  | 0, none => true
  | 0, some _ => false
  | _ + 1, none => false
  | fuel + 1, some id =>
    match getBlock t id with
    | .garbage nxt => garbageChainOK t fuel nxt
    | _ => false

/-- Garbage bookkeeping of the tree is consistent. -/
def garbageOK (t : Tree) : Bool :=
  garbageChainOK t t.garbageCount t.garbageHead

/-- A full single-leaf tree over `LMAX = 4`, used as the concrete
out-of-memory scenario: the leaf is full, there are no siblings, and
the allocator has exactly one block left. -/
def exTree : Tree :=
  { cfg := { lmax := 4, imax := 4 },
    store := [.leaf none none [(1, 0), (2, 0), (3, 0), (4, 0)]],
    root := some 0, firstId := some 0, lastId := some 0,
    leafCount := 1, innerCount := 0, garbageCount := 0, depth := 1,
    size := 4, garbageHead := none, maxElem := (4, 0) }

/-- The state `bps_tree_insert exTree 1 (5, 0)` leaves behind when the
garbage reservation fails: the new leaf block has already been created
(`leaf_count = 2`, a second block in the store) although the insertion
reports failure. -/
def exTreeAfter : Tree :=
  { cfg := { lmax := 4, imax := 4 },
    store := [.leaf none none [(1, 0), (2, 0), (3, 0), (4, 0)],
              .leaf none none []],
    root := some 0, firstId := some 0, lastId := some 0,
    leafCount := 2, innerCount := 0, garbageCount := 0, depth := 1,
    size := 4, garbageHead := none, maxElem := (4, 0) }

/-- `block->header.type == BPS_TREE_BT_LEAF`. -/
def Block.isLeaf : Block → Bool
  | .leaf _ _ _ => true
  | _ => false

/-- Overwrite a leaf's `next_id` (identity on other block kinds). -/
def setLeafNext : Block → Option Nat → Block
  | .leaf p _ es, n => .leaf p n es
  | b, _ => b

/-- The successive leaf sizes of `bps_tree_build`: each new leaf takes
`elems_left / leaf_left` (C integer division, `bps_tree.h:960`) of what
remains. -/
def buildFillSizes : Nat → Nat → List Nat
  | _, 0 => []
  | n, ll + 1 => n / (ll + 1) :: buildFillSizes (n - n / (ll + 1)) ll

/-- The runs of the sorted array the successive leaves receive under the
`elems_left / leaf_left` pacing. -/
def buildSlices : List Elem → Nat → List (List Elem)
  | _, 0 => []
  | arr, ll + 1 =>
    arr.take (arr.length / (ll + 1)) ::
      buildSlices (arr.drop (arr.length / (ll + 1))) ll

/-- What one pass of the build loop guarantees: `ids` are the fresh,
increasing ids of the `ll` leaves laid down from `current`; they chain
`prevId -> ids_0 -> ... -> ids_last -> null` and carry the successive
`buildSlices` runs; every other leaf position is untouched except the
`next_id` of the leaf `prevId`; `fid`/`lid` are the first/last leaf ids
reported back. -/
def BuildChainOut (store store' : List Block) (current : List Elem)
    (prevId firstId fid lid : Option Nat) (ll : Nat) : Prop :=
  ∃ ids : List Nat,
    ids.length = ll ∧
    List.Chain' (fun a b => a < b) ids ∧
    (∀ x ∈ ids, store.length ≤ x) ∧
    (∀ k, k < ll →
      store'.getD (ids.getD k 0) Block.free =
        Block.leaf
          (if k = 0 then prevId else some (ids.getD (k - 1) 0))
          (if k = ll - 1 then none else some (ids.getD (k + 1) 0))
          ((buildSlices current ll).getD k [])) ∧
    (∀ id, (store.getD id Block.free).isLeaf = true → some id ≠ prevId →
      store'.getD id Block.free = store.getD id Block.free) ∧
    (∀ p, prevId = some p → (store.getD p Block.free).isLeaf = true →
      store'.getD p Block.free =
        (if ll = 0 then store.getD p Block.free
         else setLeafNext (store.getD p Block.free)
           (some (ids.getD 0 0)))) ∧
    fid = (if ll = 0 then firstId
           else some (firstId.getD (ids.getD 0 0))) ∧
    lid = (if ll = 0 then prevId else some (ids.getD (ll - 1) 0))

/-- The leaf-chain contents from a leaf id on (fuel = leaf count). -/
def leafChainElems (t : Tree) : Nat → Option Nat → List Elem
  | 0, _ => []
  | _ + 1, none => []
  | fuel + 1, some id =>
    match getBlock t id with
    | .leaf _ n es => es ++ leafChainElems t fuel n
    | _ => []

/-- Soundness of the leaf chain: `fuel` hops pass through nonempty
leaves and reach the null sentinel exactly when the fuel (the leaf
count) runs out. -/
def leafChainOK (t : Tree) : Nat → Option Nat → Bool
  | 0, none => true
  | 0, some _ => false
  | _ + 1, none => false
  | fuel + 1, some id =>
    match getBlock t id with
    | .leaf _ n es => decide (0 < es.length) && leafChainOK t fuel n
    | _ => false

/-- The elements still to be visited from iterator position `pos` of
leaf `oid` on. -/
def chainFromPos (t : Tree) (cf : Nat) (oid : Option Nat) (pos : Nat) :
    List Elem :=
  match oid with
  | none => []
  | some id =>
    (getBlock t id).leafElems.drop pos ++
      leafChainElems t (cf - 1) (getBlock t id).leafNextId

/-- The canonical iteration loop: read the element under the iterator,
stop when the read reports an invalid iterator, otherwise advance with
`bps_tree_itr_next`. -/
def iterWalk_go (t : Tree) : Nat → Iterator → List Elem
  | 0, _ => []
  | fuel + 1, itr =>
    match bps_tree_itr_get_elem t itr with
    | (_, none) => []
    | (itr2, some e) => e :: iterWalk_go t fuel (bps_tree_itr_next t itr2).2

/-- The full `bps_tree_itr_first`-to-invalid walk. -/
def bps_tree_iterWalk (t : Tree) : List Elem :=
  iterWalk_go t (t.size + 1) (bps_tree_itr_first t)

/-- Non-decreasing by the key component. -/
def SortedLe (arr : List Elem) : Prop :=
  List.Pairwise (fun a b : Elem => a.1 ≤ b.1) arr

/-- Strictly increasing by the key component. -/
def SortedLt (arr : List Elem) : Prop :=
  List.Pairwise (fun a b : Elem => a.1 < b.1) arr

theorem sorted_getD_le {arr : List Elem} (h : SortedLe arr) {i j : Nat}
    (hij : i ≤ j) (hj : j < arr.length) :
    (arr.getD i dflt).1 ≤ (arr.getD j dflt).1 := by
  rcases Nat.lt_or_ge i j with hlt | hge
  · rw [SortedLe, List.pairwise_iff_getElem] at h
    have hi : i < arr.length := lt_trans hlt hj
    rw [List.getD_eq_getElem arr dflt hi, List.getD_eq_getElem arr dflt hj]
    exact h i j hi hj hlt
  · have : i = j := le_antisymm hij hge
    subst this; rfl

theorem sorted_getD_lt {arr : List Elem} (h : SortedLt arr) {i j : Nat}
    (hij : i < j) (hj : j < arr.length) :
    (arr.getD i dflt).1 < (arr.getD j dflt).1 := by
  rw [SortedLt, List.pairwise_iff_getElem] at h
  have hi : i < arr.length := lt_trans hij hj
  rw [List.getD_eq_getElem arr dflt hi, List.getD_eq_getElem arr dflt hj]
  exact h i j hi hj hij

theorem mem_getD {arr : List Elem} {e : Elem} (he : e ∈ arr) :
    ∃ m, m < arr.length ∧ arr.getD m dflt = e := by
  obtain ⟨m, hm, rfl⟩ := List.mem_iff_getElem.mp he
  exact ⟨m, hm, List.getD_eq_getElem arr dflt hm⟩

theorem getD_mem {arr : List Elem} {m : Nat} (hm : m < arr.length) :
    arr.getD m dflt ∈ arr := by
  rw [List.getD_eq_getElem arr dflt hm]
  exact List.getElem_mem hm

theorem find_ins_point_key_go_exit (arr : List Elem) (k : Int)
    (fuel lo hi : Nat) (ex : Bool) (h : ¬ lo < hi) :
    find_ins_point_key_go arr k fuel lo hi ex = (hi, ex) := by
  cases fuel with
  | zero => rfl
  | succ fuel => rw [find_ins_point_key_go]; simp [h]

theorem find_ins_point_key_go_gt (arr : List Elem) (k : Int)
    (fuel lo hi : Nat) (ex : Bool) (h : lo < hi)
    (hc : 0 < cmp_key (arr.getD (lo + (hi - lo) / 2) dflt) k) :
    find_ins_point_key_go arr k (fuel + 1) lo hi ex =
      find_ins_point_key_go arr k fuel lo (lo + (hi - lo) / 2) ex := by
  rw [find_ins_point_key_go]
  simp only [h, if_pos]
  rw [if_pos hc]

theorem find_ins_point_key_go_lt (arr : List Elem) (k : Int)
    (fuel lo hi : Nat) (ex : Bool) (h : lo < hi)
    (hc : cmp_key (arr.getD (lo + (hi - lo) / 2) dflt) k < 0) :
    find_ins_point_key_go arr k (fuel + 1) lo hi ex =
      find_ins_point_key_go arr k fuel (lo + (hi - lo) / 2 + 1) hi ex := by
  rw [find_ins_point_key_go]
  simp only [h, if_pos]
  rw [if_neg (by omega), if_pos hc]

theorem find_ins_point_key_go_eq (arr : List Elem) (k : Int)
    (fuel lo hi : Nat) (ex : Bool) (h : lo < hi)
    (hc : cmp_key (arr.getD (lo + (hi - lo) / 2) dflt) k = 0) :
    find_ins_point_key_go arr k (fuel + 1) lo hi ex =
      find_ins_point_key_go arr k fuel lo (lo + (hi - lo) / 2) true := by
  rw [find_ins_point_key_go]
  simp only [h, if_pos]
  rw [if_neg (by omega), if_neg (by omega)]

theorem cmp_key_cases (a : Elem) (k : Int) :
    (cmp_key a k = -1 ∧ a.1 < k) ∨ (cmp_key a k = 1 ∧ a.1 > k) ∨
      (cmp_key a k = 0 ∧ a.1 = k) := by
  rw [cmp_key]
  by_cases h1 : a.1 < k
  · rw [if_pos h1]; exact Or.inl ⟨rfl, h1⟩
  · rw [if_neg h1]
    by_cases h2 : a.1 > k
    · rw [if_pos h2]; exact Or.inr (Or.inl ⟨rfl, h2⟩)
    · rw [if_neg h2]; exact Or.inr (Or.inr ⟨rfl, by omega⟩)

theorem cmp_key_pos {a : Elem} {k : Int} (h : 0 < cmp_key a k) : a.1 > k := by
  rcases cmp_key_cases a k with ⟨he, h'⟩ | ⟨he, h'⟩ | ⟨he, h'⟩ <;> rw [he] at h
  · omega
  · exact h'
  · omega

theorem cmp_key_neg {a : Elem} {k : Int} (h : cmp_key a k < 0) : a.1 < k := by
  rcases cmp_key_cases a k with ⟨he, h'⟩ | ⟨he, h'⟩ | ⟨he, h'⟩ <;> rw [he] at h
  · exact h'
  · omega
  · omega

theorem cmp_key_zero {a : Elem} {k : Int} (h : cmp_key a k = 0) : a.1 = k := by
  rcases cmp_key_cases a k with ⟨he, h'⟩ | ⟨he, h'⟩ | ⟨he, h'⟩ <;> rw [he] at h
  · omega
  · omega
  · exact h'

theorem cmp_key_zero_iff {a : Elem} {k : Int} : cmp_key a k = 0 ↔ a.1 = k := by
  rcases cmp_key_cases a k with ⟨he, h'⟩ | ⟨he, h'⟩ | ⟨he, h'⟩ <;> rw [he] <;>
    constructor <;> intro hh <;> omega

theorem find_ins_point_key_go_spec (arr : List Elem) (k : Int)
    (hs : SortedLe arr) :
    ∀ fuel lo hi ex, hi - lo ≤ fuel → lo ≤ hi → hi ≤ arr.length →
    (∀ i, i < lo → (arr.getD i dflt).1 < k) →
    (∀ i, hi ≤ i → i < arr.length → (arr.getD i dflt).1 ≥ k) →
    (ex = true → ∃ e ∈ arr, e.1 = k) →
    (ex = false → ∀ i, hi ≤ i → i < arr.length → (arr.getD i dflt).1 > k) →
    ((find_ins_point_key_go arr k fuel lo hi ex).1 ≤ arr.length ∧
     (∀ i, i < (find_ins_point_key_go arr k fuel lo hi ex).1 →
        (arr.getD i dflt).1 < k) ∧
     (∀ i, (find_ins_point_key_go arr k fuel lo hi ex).1 ≤ i → i < arr.length →
        (arr.getD i dflt).1 ≥ k) ∧
     ((find_ins_point_key_go arr k fuel lo hi ex).2 = true ↔
        ∃ e ∈ arr, e.1 = k)) := by
  intro fuel
  induction fuel with
  | zero =>
    intro lo hi ex h0 h1 h2 h3 h4 h5 h6
    rw [find_ins_point_key_go_exit arr k 0 lo hi ex (by omega)]
    dsimp only
    refine ⟨h2, fun i hi' => h3 i (by omega), h4, fun hex => h5 hex, ?_⟩
    rintro ⟨e, he, hek⟩
    by_contra hexf
    have hexf' : ex = false := by
      cases ex with
      | true => exact absurd rfl hexf
      | false => rfl
    obtain ⟨m, hm, hme⟩ := mem_getD he
    rcases Nat.lt_or_ge m hi with hlt | hge
    · have := h3 m (by omega); rw [hme] at this; omega
    · have := h6 hexf' m hge hm; rw [hme] at this; omega
  | succ fuel ih =>
    intro lo hi ex h0 h1 h2 h3 h4 h5 h6
    by_cases hlh : lo < hi
    · set mid := lo + (hi - lo) / 2 with hmid
      have hmidlt : mid < hi := by omega
      have hmidge : lo ≤ mid := by omega
      have hmidn : mid < arr.length := by omega
      rcases lt_trichotomy (cmp_key (arr.getD mid dflt) k) 0 with hc | hc | hc
      · rw [find_ins_point_key_go_lt arr k fuel lo hi ex hlh hc]
        have hlt : (arr.getD mid dflt).1 < k := cmp_key_neg hc
        exact ih (mid + 1) hi ex (by omega) (by omega) h2
          (fun i hi' => lt_of_le_of_lt
            (sorted_getD_le hs (by omega : i ≤ mid) hmidn) hlt)
          h4 h5 h6
      · rw [find_ins_point_key_go_eq arr k fuel lo hi ex hlh hc]
        have heqk : (arr.getD mid dflt).1 = k := cmp_key_zero hc
        exact ih lo mid true (by omega) (by omega) (by omega) h3
          (fun i hi' hin => heqk ▸ sorted_getD_le hs hi' hin)
          (fun _ => ⟨arr.getD mid dflt, getD_mem hmidn, heqk⟩)
          (fun hff => absurd hff (by simp))
      · rw [find_ins_point_key_go_gt arr k fuel lo hi ex hlh hc]
        have hklt : (arr.getD mid dflt).1 > k := cmp_key_pos hc
        exact ih lo mid ex (by omega) (by omega) (by omega) h3
          (fun i hi' hin => le_trans (le_of_lt hklt)
            (sorted_getD_le hs hi' hin))
          h5
          (fun hexf i hi' hin => lt_of_lt_of_le hklt
            (sorted_getD_le hs hi' hin))
    · rw [find_ins_point_key_go_exit arr k (fuel + 1) lo hi ex hlh]
      dsimp only
      refine ⟨h2, fun i hi' => h3 i (by omega), h4, fun hex => h5 hex, ?_⟩
      rintro ⟨e, he, hek⟩
      by_contra hexf
      have hexf' : ex = false := by
        cases ex with
        | true => exact absurd rfl hexf
        | false => rfl
      obtain ⟨m, hm, hme⟩ := mem_getD he
      rcases Nat.lt_or_ge m hi with hlt | hge
      · have := h3 m (by omega); rw [hme] at this; omega
      · have := h6 hexf' m hge hm; rw [hme] at this; omega

theorem bps_tree_find_ins_point_key_spec (arr : List Elem) (k : Int)
    (hs : SortedLe arr) :
    ((bps_tree_find_ins_point_key arr k).1 ≤ arr.length ∧
     (∀ i, i < (bps_tree_find_ins_point_key arr k).1 →
        (arr.getD i dflt).1 < k) ∧
     (∀ i, (bps_tree_find_ins_point_key arr k).1 ≤ i → i < arr.length →
        (arr.getD i dflt).1 ≥ k) ∧
     ((bps_tree_find_ins_point_key arr k).2 = true ↔ ∃ e ∈ arr, e.1 = k)) := by
  rw [bps_tree_find_ins_point_key]
  exact find_ins_point_key_go_spec arr k hs arr.length 0 arr.length false
    (by omega) (by omega) (by omega)
    (fun i hi' => absurd hi' (by omega))
    (fun i hi' hin => absurd hin (by omega))
    (fun hff => absurd hff (by simp))
    (fun _ i hi' hin => absurd hin (by omega))

theorem cmp_cases (a b : Elem) :
    (cmp a b = -1 ∧ a.1 < b.1) ∨ (cmp a b = 1 ∧ a.1 > b.1) ∨
      (cmp a b = 0 ∧ a.1 = b.1) := by
  rw [cmp]
  by_cases h1 : a.1 < b.1
  · rw [if_pos h1]; exact Or.inl ⟨rfl, h1⟩
  · rw [if_neg h1]
    by_cases h2 : a.1 > b.1
    · rw [if_pos h2]; exact Or.inr (Or.inl ⟨rfl, h2⟩)
    · rw [if_neg h2]; exact Or.inr (Or.inr ⟨rfl, by omega⟩)

theorem cmp_pos {a b : Elem} (h : 0 < cmp a b) : a.1 > b.1 := by
  rcases cmp_cases a b with ⟨he, h'⟩ | ⟨he, h'⟩ | ⟨he, h'⟩ <;> rw [he] at h
  · omega
  · exact h'
  · omega

theorem cmp_neg {a b : Elem} (h : cmp a b < 0) : a.1 < b.1 := by
  rcases cmp_cases a b with ⟨he, h'⟩ | ⟨he, h'⟩ | ⟨he, h'⟩ <;> rw [he] at h
  · exact h'
  · omega
  · omega

theorem cmp_zero {a b : Elem} (h : cmp a b = 0) : a.1 = b.1 := by
  rcases cmp_cases a b with ⟨he, h'⟩ | ⟨he, h'⟩ | ⟨he, h'⟩ <;> rw [he] at h
  · omega
  · omega
  · exact h'

theorem bps_tree_find_ins_point_key_linear_spec (k : Int) :
    ∀ arr : List Elem, SortedLe arr →
    ((bps_tree_find_ins_point_key_linear arr k).1 ≤ arr.length ∧
     (∀ i, i < (bps_tree_find_ins_point_key_linear arr k).1 →
        (arr.getD i dflt).1 < k) ∧
     (∀ i, (bps_tree_find_ins_point_key_linear arr k).1 ≤ i → i < arr.length →
        (arr.getD i dflt).1 ≥ k) ∧
     ((bps_tree_find_ins_point_key_linear arr k).2 = true ↔
        ∃ e ∈ arr, e.1 = k)) := by
  intro arr
  induction arr with
  | nil =>
    intro _
    rw [bps_tree_find_ins_point_key_linear]
    refine ⟨by omega, fun i hi' => absurd hi' (by omega),
      fun i _ hin => absurd hin (by simp), by simp⟩
  | cons a rest ih =>
    intro hs
    have hsr : SortedLe rest := hs.tail
    have hhead : ∀ e ∈ rest, a.1 ≤ e.1 := by
      intro e he
      exact List.rel_of_pairwise_cons hs he
    rw [bps_tree_find_ins_point_key_linear]
    by_cases hge : 0 ≤ cmp_key a k
    · rw [if_pos hge]
      dsimp only
      have hak : a.1 ≥ k := by
        rcases cmp_key_cases a k with ⟨he, h'⟩ | ⟨he, h'⟩ | ⟨he, h'⟩ <;>
          rw [he] at hge <;> omega
      refine ⟨by omega, fun i hi' => absurd hi' (by omega), ?_, ?_⟩
      · intro i _ hin
        match i with
        | 0 => exact hak
        | j + 1 =>
          have : (rest.getD j dflt).1 ≥ k := by
            have hj : j < rest.length := by
              simpa using hin
            have := hhead (rest.getD j dflt) (getD_mem hj)
            omega
          simpa using this
      · constructor
        · intro hd
          have : cmp_key a k = 0 := by
            simpa using hd
          exact ⟨a, List.mem_cons_self a rest, cmp_key_zero this⟩
        · rintro ⟨e, he, hek⟩
          have hek0 : a.1 = k := by
            rcases List.mem_cons.mp he with rfl | hmem
            · exact hek
            · have := hhead e hmem
              omega
          simp [cmp_key_zero_iff.mpr hek0]
    · rw [if_neg hge]
      have halt : a.1 < k := by
        rcases cmp_key_cases a k with ⟨he, h'⟩ | ⟨he, h'⟩ | ⟨he, h'⟩ <;>
          rw [he] at hge <;> omega
      obtain ⟨ih1, ih2, ih3, ih4⟩ := ih hsr
      dsimp only
      refine ⟨by simpa using Nat.succ_le_succ ih1, ?_, ?_, ?_⟩
      · intro i hi'
        match i with
        | 0 => exact halt
        | j + 1 =>
          have := ih2 j (by omega)
          simpa using this
      · intro i hi' hin
        match i with
        | 0 => omega
        | j + 1 =>
          have := ih3 j (by omega) (by simpa using hin)
          simpa using this
      · rw [ih4]
        constructor
        · rintro ⟨e, he, hek⟩
          exact ⟨e, List.mem_cons_of_mem a he, hek⟩
        · rintro ⟨e, he, hek⟩
          rcases List.mem_cons.mp he with rfl | hmem
          · omega
          · exact ⟨e, hmem, hek⟩

theorem bps_tree_find_ins_point_elem_linear_spec (el : Elem) :
    ∀ arr : List Elem, SortedLe arr →
    ((bps_tree_find_ins_point_elem_linear arr el).1 ≤ arr.length ∧
     (∀ i, i < (bps_tree_find_ins_point_elem_linear arr el).1 →
        (arr.getD i dflt).1 < el.1) ∧
     (∀ i, (bps_tree_find_ins_point_elem_linear arr el).1 ≤ i →
        i < arr.length → (arr.getD i dflt).1 ≥ el.1) ∧
     ((bps_tree_find_ins_point_elem_linear arr el).2 = true ↔
        ∃ e ∈ arr, e.1 = el.1)) := by
  intro arr
  induction arr with
  | nil =>
    intro _
    rw [bps_tree_find_ins_point_elem_linear]
    refine ⟨by omega, fun i hi' => absurd hi' (by omega),
      fun i _ hin => absurd hin (by simp), by simp⟩
  | cons a rest ih =>
    intro hs
    have hsr : SortedLe rest := hs.tail
    have hhead : ∀ e ∈ rest, a.1 ≤ e.1 := by
      intro e he
      exact List.rel_of_pairwise_cons hs he
    rw [bps_tree_find_ins_point_elem_linear]
    by_cases hge : 0 ≤ cmp a el
    · rw [if_pos hge]
      dsimp only
      have hak : a.1 ≥ el.1 := by
        rcases cmp_cases a el with ⟨he, h'⟩ | ⟨he, h'⟩ | ⟨he, h'⟩ <;>
          rw [he] at hge <;> omega
      refine ⟨by omega, fun i hi' => absurd hi' (by omega), ?_, ?_⟩
      · intro i _ hin
        match i with
        | 0 => exact hak
        | j + 1 =>
          have hj : j < rest.length := by simpa using hin
          have := hhead (rest.getD j dflt) (getD_mem hj)
          have : (rest.getD j dflt).1 ≥ el.1 := by omega
          simpa using this
      · constructor
        · intro hd
          have : cmp a el = 0 := by simpa using hd
          exact ⟨a, List.mem_cons_self a rest, cmp_zero this⟩
        · rintro ⟨e, he, hek⟩
          have hek0 : a.1 = el.1 := by
            rcases List.mem_cons.mp he with rfl | hmem
            · exact hek
            · have := hhead e hmem
              omega
          have : cmp a el = 0 := by
            rcases cmp_cases a el with ⟨he', h'⟩ | ⟨he', h'⟩ | ⟨he', h'⟩ <;> omega
          simp [this]
    · rw [if_neg hge]
      have halt : a.1 < el.1 := by
        rcases cmp_cases a el with ⟨he, h'⟩ | ⟨he, h'⟩ | ⟨he, h'⟩ <;>
          rw [he] at hge <;> omega
      obtain ⟨ih1, ih2, ih3, ih4⟩ := ih hsr
      dsimp only
      refine ⟨by simpa using Nat.succ_le_succ ih1, ?_, ?_, ?_⟩
      · intro i hi'
        match i with
        | 0 => exact halt
        | j + 1 =>
          have := ih2 j (by omega)
          simpa using this
      · intro i hi' hin
        match i with
        | 0 => omega
        | j + 1 =>
          have := ih3 j (by omega) (by simpa using hin)
          simpa using this
      · rw [ih4]
        constructor
        · rintro ⟨e, he, hek⟩
          exact ⟨e, List.mem_cons_of_mem a he, hek⟩
        · rintro ⟨e, he, hek⟩
          rcases List.mem_cons.mp he with rfl | hmem
          · omega
          · exact ⟨e, hmem, hek⟩

theorem find_ins_point_elem_go_exit (arr : List Elem) (el : Elem)
    (fuel lo hi : Nat) (h : ¬ lo < hi) :
    find_ins_point_elem_go arr el fuel lo hi = (hi, false) := by
  cases fuel with
  | zero => rfl
  | succ fuel => rw [find_ins_point_elem_go]; simp [h]

theorem find_ins_point_elem_go_gt (arr : List Elem) (el : Elem)
    (fuel lo hi : Nat) (h : lo < hi)
    (hc : 0 < cmp (arr.getD (lo + (hi - lo) / 2) dflt) el) :
    find_ins_point_elem_go arr el (fuel + 1) lo hi =
      find_ins_point_elem_go arr el fuel lo (lo + (hi - lo) / 2) := by
  rw [find_ins_point_elem_go]
  simp only [h, if_pos]
  rw [if_pos hc]

theorem find_ins_point_elem_go_lt (arr : List Elem) (el : Elem)
    (fuel lo hi : Nat) (h : lo < hi)
    (hc : cmp (arr.getD (lo + (hi - lo) / 2) dflt) el < 0) :
    find_ins_point_elem_go arr el (fuel + 1) lo hi =
      find_ins_point_elem_go arr el fuel (lo + (hi - lo) / 2 + 1) hi := by
  rw [find_ins_point_elem_go]
  simp only [h, if_pos]
  rw [if_neg (by omega), if_pos hc]

theorem find_ins_point_elem_go_eq (arr : List Elem) (el : Elem)
    (fuel lo hi : Nat) (h : lo < hi)
    (hc : cmp (arr.getD (lo + (hi - lo) / 2) dflt) el = 0) :
    find_ins_point_elem_go arr el (fuel + 1) lo hi =
      (lo + (hi - lo) / 2, true) := by
  rw [find_ins_point_elem_go]
  simp only [h, if_pos]
  rw [if_neg (by omega), if_neg (by omega)]

theorem find_ins_point_elem_go_spec (arr : List Elem) (el : Elem)
    (hs : SortedLt arr) :
    ∀ fuel lo hi, hi - lo ≤ fuel → lo ≤ hi → hi ≤ arr.length →
    (∀ i, i < lo → (arr.getD i dflt).1 < el.1) →
    (∀ i, hi ≤ i → i < arr.length → (arr.getD i dflt).1 > el.1) →
    ((find_ins_point_elem_go arr el fuel lo hi).1 ≤ arr.length ∧
     (∀ i, i < (find_ins_point_elem_go arr el fuel lo hi).1 →
        (arr.getD i dflt).1 < el.1) ∧
     (∀ i, (find_ins_point_elem_go arr el fuel lo hi).1 ≤ i → i < arr.length →
        (arr.getD i dflt).1 ≥ el.1) ∧
     ((find_ins_point_elem_go arr el fuel lo hi).2 = true ↔
        ∃ e ∈ arr, e.1 = el.1)) := by
  intro fuel
  induction fuel with
  | zero =>
    intro lo hi h0 h1 h2 h3 h4
    rw [find_ins_point_elem_go_exit arr el 0 lo hi (by omega)]
    dsimp only
    refine ⟨h2, fun i hi' => h3 i (by omega),
      fun i hi' hin => le_of_lt (h4 i hi' hin), ?_⟩
    constructor
    · intro hff; exact absurd hff (by simp)
    · rintro ⟨e, he, hek⟩
      obtain ⟨m, hm, hme⟩ := mem_getD he
      rcases Nat.lt_or_ge m hi with hlt | hge
      · have := h3 m (by omega); rw [hme] at this; omega
      · have := h4 m hge hm; rw [hme] at this; omega
  | succ fuel ih =>
    intro lo hi h0 h1 h2 h3 h4
    by_cases hlh : lo < hi
    · set mid := lo + (hi - lo) / 2 with hmid
      have hmidlt : mid < hi := by omega
      have hmidge : lo ≤ mid := by omega
      have hmidn : mid < arr.length := by omega
      rcases lt_trichotomy (cmp (arr.getD mid dflt) el) 0 with hc | hc | hc
      · rw [find_ins_point_elem_go_lt arr el fuel lo hi hlh hc]
        have hlt : (arr.getD mid dflt).1 < el.1 := cmp_neg hc
        exact ih (mid + 1) hi (by omega) (by omega) h2
          (fun i hi' => by
            rcases Nat.lt_or_ge i mid with him | him
            · exact lt_trans (sorted_getD_lt hs him hmidn) hlt
            · have : i = mid := by omega
              subst this; exact hlt)
          h4
      · rw [find_ins_point_elem_go_eq arr el fuel lo hi hlh hc]
        have heqk : (arr.getD mid dflt).1 = el.1 := cmp_zero hc
        dsimp only
        rw [← hmid]
        refine ⟨by omega, ?_, ?_, ?_⟩
        · intro i hi'
          have := sorted_getD_lt hs hi' hmidn
          omega
        · intro i hi' hin
          rcases Nat.lt_or_ge mid i with him | him
          · have := sorted_getD_lt hs him hin
            omega
          · have : i = mid := by omega
            subst this; omega
        · simp only [true_iff]
          exact ⟨arr.getD mid dflt, getD_mem hmidn, heqk⟩
      · rw [find_ins_point_elem_go_gt arr el fuel lo hi hlh hc]
        have hgt : (arr.getD mid dflt).1 > el.1 := cmp_pos hc
        exact ih lo mid (by omega) (by omega) (by omega) h3
          (fun i hi' hin => by
            rcases Nat.lt_or_ge mid i with him | him
            · exact lt_trans hgt (sorted_getD_lt hs him hin)
            · have : i = mid := by omega
              subst this; exact hgt)
    · rw [find_ins_point_elem_go_exit arr el (fuel + 1) lo hi hlh]
      dsimp only
      refine ⟨h2, fun i hi' => h3 i (by omega),
        fun i hi' hin => le_of_lt (h4 i hi' hin), ?_⟩
      constructor
      · intro hff; exact absurd hff (by simp)
      · rintro ⟨e, he, hek⟩
        obtain ⟨m, hm, hme⟩ := mem_getD he
        rcases Nat.lt_or_ge m hi with hlt | hge
        · have := h3 m (by omega); rw [hme] at this; omega
        · have := h4 m hge hm; rw [hme] at this; omega

theorem bps_tree_find_ins_point_elem_spec (arr : List Elem) (el : Elem)
    (hs : SortedLt arr) :
    ((bps_tree_find_ins_point_elem arr el).1 ≤ arr.length ∧
     (∀ i, i < (bps_tree_find_ins_point_elem arr el).1 →
        (arr.getD i dflt).1 < el.1) ∧
     (∀ i, (bps_tree_find_ins_point_elem arr el).1 ≤ i → i < arr.length →
        (arr.getD i dflt).1 ≥ el.1) ∧
     ((bps_tree_find_ins_point_elem arr el).2 = true ↔
        ∃ e ∈ arr, e.1 = el.1)) := by
  rw [bps_tree_find_ins_point_elem]
  exact find_ins_point_elem_go_spec arr el hs arr.length 0 arr.length
    (by omega) (by omega) (by omega)
    (fun i hi' => absurd hi' (by omega))
    (fun i hi' hin => absurd hin (by omega))

theorem lb_exact_eq {arr : List Elem} {k : Int} {p : Nat}
    (hs : SortedLe arr)
    (h2 : ∀ i, i < p → (arr.getD i dflt).1 < k)
    (h3 : ∀ i, p ≤ i → i < arr.length → (arr.getD i dflt).1 ≥ k)
    (hex : ∃ e ∈ arr, e.1 = k) :
    p < arr.length ∧ (arr.getD p dflt).1 = k := by
  obtain ⟨e, he, hek⟩ := hex
  obtain ⟨m, hm, hme⟩ := mem_getD he
  have hpm : p ≤ m := by
    by_contra hc
    have := h2 m (by omega)
    rw [hme] at this; omega
  have hp : p < arr.length := by omega
  have h1 := h3 p (le_refl p) hp
  have h4 := sorted_getD_le hs hpm hm
  rw [hme] at h4
  omega

/-- C8 counterexample: on a sorted array holding three comparator-equal
elements, the element-flavoured *binary* search
(`bps_tree_find_ins_point_elem`, the default build) stops at the middle
equal position 1, although the element at index 0 is already `>=` the
probe — so it does not return the lowest equal position / first index
whose element is `>=` the probe, contradicting the claim for that
flavor. -/
theorem C8_counterexample :
    SortedLe [((5 : Int), (0 : Int)), (5, 1), (5, 2)] ∧
    bps_tree_find_ins_point_elem [((5 : Int), (0 : Int)), (5, 1), (5, 2)]
      (5, 9) = (1, true) ∧
    cmp (((5 : Int), (0 : Int)) : Elem) ((5, 9) : Elem) = 0 ∧
    (1 : Nat) ≠ 0 := by
  refine ⟨?_, by decide, by decide, by decide⟩
  rw [SortedLe]
  decide

/-- C8 (amended): on a sorted array, `bps_tree_find_ins_point_key` (both
the binary and the linear implementation) and the linear implementation
of `bps_tree_find_ins_point_elem` return the first index whose element
is `>=` the probe — hence the lowest equal position — with `exact` set
iff an equal element exists.  The binary implementation of
`bps_tree_find_ins_point_elem` stops at an arbitrary equal position, so
its lower-bound property holds under the additional assumption that the
array has no comparator-duplicates (which is the case in every live
tree block). -/
theorem C8_search_primitives_lower_bound (arr : List Elem) (k : Int)
    (el : Elem) (hs : SortedLe arr) :
    ((bps_tree_find_ins_point_key arr k).1 ≤ arr.length ∧
     (∀ i, i < (bps_tree_find_ins_point_key arr k).1 →
        (arr.getD i dflt).1 < k) ∧
     (∀ i, (bps_tree_find_ins_point_key arr k).1 ≤ i → i < arr.length →
        (arr.getD i dflt).1 ≥ k) ∧
     ((bps_tree_find_ins_point_key arr k).2 = true ↔ ∃ e ∈ arr, e.1 = k) ∧
     ((bps_tree_find_ins_point_key arr k).2 = true →
        (bps_tree_find_ins_point_key arr k).1 < arr.length ∧
        (arr.getD (bps_tree_find_ins_point_key arr k).1 dflt).1 = k)) ∧
    ((bps_tree_find_ins_point_key_linear arr k).1 ≤ arr.length ∧
     (∀ i, i < (bps_tree_find_ins_point_key_linear arr k).1 →
        (arr.getD i dflt).1 < k) ∧
     (∀ i, (bps_tree_find_ins_point_key_linear arr k).1 ≤ i →
        i < arr.length → (arr.getD i dflt).1 ≥ k) ∧
     ((bps_tree_find_ins_point_key_linear arr k).2 = true ↔
        ∃ e ∈ arr, e.1 = k) ∧
     ((bps_tree_find_ins_point_key_linear arr k).2 = true →
        (bps_tree_find_ins_point_key_linear arr k).1 < arr.length ∧
        (arr.getD (bps_tree_find_ins_point_key_linear arr k).1 dflt).1 = k)) ∧
    ((bps_tree_find_ins_point_elem_linear arr el).1 ≤ arr.length ∧
     (∀ i, i < (bps_tree_find_ins_point_elem_linear arr el).1 →
        (arr.getD i dflt).1 < el.1) ∧
     (∀ i, (bps_tree_find_ins_point_elem_linear arr el).1 ≤ i →
        i < arr.length → (arr.getD i dflt).1 ≥ el.1) ∧
     ((bps_tree_find_ins_point_elem_linear arr el).2 = true ↔
        ∃ e ∈ arr, e.1 = el.1) ∧
     ((bps_tree_find_ins_point_elem_linear arr el).2 = true →
        (bps_tree_find_ins_point_elem_linear arr el).1 < arr.length ∧
        (arr.getD (bps_tree_find_ins_point_elem_linear arr el).1 dflt).1 =
          el.1)) ∧
    (SortedLt arr →
     ((bps_tree_find_ins_point_elem arr el).1 ≤ arr.length ∧
      (∀ i, i < (bps_tree_find_ins_point_elem arr el).1 →
         (arr.getD i dflt).1 < el.1) ∧
      (∀ i, (bps_tree_find_ins_point_elem arr el).1 ≤ i → i < arr.length →
         (arr.getD i dflt).1 ≥ el.1) ∧
      ((bps_tree_find_ins_point_elem arr el).2 = true ↔
         ∃ e ∈ arr, e.1 = el.1) ∧
      ((bps_tree_find_ins_point_elem arr el).2 = true →
         (bps_tree_find_ins_point_elem arr el).1 < arr.length ∧
         (arr.getD (bps_tree_find_ins_point_elem arr el).1 dflt).1 =
           el.1))) := by
  obtain ⟨kb1, kb2, kb3, kb4⟩ := bps_tree_find_ins_point_key_spec arr k hs
  obtain ⟨kl1, kl2, kl3, kl4⟩ := bps_tree_find_ins_point_key_linear_spec k arr hs
  obtain ⟨el1, el2, el3, el4⟩ := bps_tree_find_ins_point_elem_linear_spec el arr hs
  refine ⟨⟨kb1, kb2, kb3, kb4, fun hx => lb_exact_eq hs kb2 kb3 (kb4.mp hx)⟩,
          ⟨kl1, kl2, kl3, kl4, fun hx => lb_exact_eq hs kl2 kl3 (kl4.mp hx)⟩,
          ⟨el1, el2, el3, el4, fun hx => lb_exact_eq hs el2 el3 (el4.mp hx)⟩,
          ?_⟩
  intro hslt
  obtain ⟨eb1, eb2, eb3, eb4⟩ := bps_tree_find_ins_point_elem_spec arr el hslt
  exact ⟨eb1, eb2, eb3, eb4, fun hx => lb_exact_eq hs eb2 eb3 (eb4.mp hx)⟩

/-- Witness for the amended C8 theorem at a concrete sorted array. -/
theorem C8_search_primitives_lower_bound_witness :
    SortedLe [((1 : Int), (0 : Int)), (3, 0), (5, 0)] ∧
    (bps_tree_find_ins_point_key [((1 : Int), (0 : Int)), (3, 0), (5, 0)]
      3).1 ≤ ([((1 : Int), (0 : Int)), (3, 0), (5, 0)] : List Elem).length :=
  ⟨by rw [SortedLe]; decide,
   (C8_search_primitives_lower_bound
      [((1 : Int), (0 : Int)), (3, 0), (5, 0)] 3 (3, 5)
      (by rw [SortedLe]; decide)).1.1⟩

/-! ### Effects of the insertion failure path (claim C1) -/

theorem getBlock_setBlock_ne {t : Tree} {id i : Nat} {b : Block}
    (h : i ≠ id) : getBlock (setBlock t id b) i = getBlock t i := by
  rw [getBlock, setBlock, getBlock]
  rcases Nat.lt_or_ge i t.store.length with hi | hi
  · rw [List.getD_eq_getElem _ _ (by simpa using hi),
      List.getD_eq_getElem _ _ hi]
    simp [List.getElem_set_ne (Ne.symm h)]
  · rw [List.getD_eq_default _ _ (by simpa using hi),
      List.getD_eq_default _ _ hi]

theorem bps_tree_create_leaf_effects {t : Tree} {budget : Nat} {t' : Tree}
    {id : Nat} {b' : Nat} (hg : garbageOK t = true)
    (h : bps_tree_create_leaf t budget = some (t', id, b')) :
    t'.size = t.size ∧ t'.depth = t.depth ∧ t'.root = t.root ∧
    t'.firstId = t.firstId ∧ t'.lastId = t.lastId ∧
    t'.innerCount = t.innerCount ∧ t'.leafCount = t.leafCount + 1 ∧
    t'.maxElem = t.maxElem ∧ t'.cfg = t.cfg ∧
    (∀ i, liveBlock (getBlock t i) = true → getBlock t' i = getBlock t i) := by
  rw [bps_tree_create_leaf, bps_tree_garbage_pop] at h
  cases hgh : t.garbageHead with
  | some gid =>
    rw [hgh] at h
    simp only [Option.some.injEq, Prod.mk.injEq] at h
    obtain ⟨ht, -, -⟩ := h
    have hgarb : liveBlock (getBlock t gid) = false := by
      rw [garbageOK, hgh] at hg
      cases hc : t.garbageCount with
      | zero => rw [hc] at hg; simp [garbageChainOK] at hg
      | succ n =>
        rw [hc] at hg
        rw [garbageChainOK] at hg
        cases hb : getBlock t gid <;> rw [hb] at hg <;>
          simp_all [liveBlock]
    subst ht
    refine ⟨rfl, rfl, rfl, rfl, rfl, rfl, rfl, rfl, rfl, ?_⟩
    intro i hi
    have hne : i ≠ gid := by
      intro he; rw [he] at hi; rw [hi] at hgarb; cases hgarb
    exact getBlock_setBlock_ne hne
  | none =>
    rw [hgh] at h
    cases budget with
    | zero => simp [matras_alloc] at h
    | succ b =>
      simp only [matras_alloc, Option.some.injEq, Prod.mk.injEq] at h
      obtain ⟨ht, hid, -⟩ := h
      subst ht
      refine ⟨rfl, rfl, rfl, rfl, rfl, rfl, rfl, rfl, rfl, ?_⟩
      intro i hi
      have hlen : i < t.store.length := by
        by_contra hc
        rw [getBlock, List.getD_eq_default] at hi
        · cases hi
        · omega
      have hne : i ≠ t.store.length := by omega
      show ((t.store ++ [Block.free]).set t.store.length
          (Block.leaf none none [])).getD i Block.free =
        t.store.getD i Block.free
      have hlt : i < ((t.store ++ [Block.free]).set t.store.length
          (Block.leaf none none [])).length := by
        simp only [List.length_set, List.length_append, List.length_cons,
          List.length_nil]; omega
      rw [List.getD_eq_getElem _ _ hlt, List.getD_eq_getElem _ _ hlen]
      simp [List.getElem_set_ne (Ne.symm hne), List.getElem_append_left hlen]

theorem bps_tree_garbage_push_effects (t : Tree) (id : Nat) :
    (bps_tree_garbage_push t id).size = t.size ∧
    (bps_tree_garbage_push t id).depth = t.depth ∧
    (bps_tree_garbage_push t id).root = t.root ∧
    (bps_tree_garbage_push t id).firstId = t.firstId ∧
    (bps_tree_garbage_push t id).lastId = t.lastId ∧
    (bps_tree_garbage_push t id).innerCount = t.innerCount ∧
    (bps_tree_garbage_push t id).leafCount = t.leafCount ∧
    (bps_tree_garbage_push t id).maxElem = t.maxElem ∧
    (bps_tree_garbage_push t id).cfg = t.cfg ∧
    (∀ i, i ≠ id → getBlock (bps_tree_garbage_push t id) i = getBlock t i) := by
  rw [bps_tree_garbage_push]
  exact ⟨rfl, rfl, rfl, rfl, rfl, rfl, rfl, rfl, rfl,
    fun i hi => getBlock_setBlock_ne hi⟩

theorem bps_tree_reserve_blocks_false_effects :
    ∀ (budget : Nat) (t : Tree) (count : Nat) (t' : Tree) (b' : Nat),
    bps_tree_reserve_blocks t budget count = (false, t', b') →
    t'.size = t.size ∧ t'.depth = t.depth ∧ t'.root = t.root ∧
    t'.firstId = t.firstId ∧ t'.lastId = t.lastId ∧
    t'.innerCount = t.innerCount ∧ t'.leafCount = t.leafCount ∧
    t'.maxElem = t.maxElem ∧ t'.cfg = t.cfg ∧
    (∀ i, liveBlock (getBlock t i) = true → getBlock t' i = getBlock t i) := by
  intro budget
  induction budget with
  | zero =>
    intro t count t' b' h
    rw [bps_tree_reserve_blocks] at h
    by_cases hc : t.garbageCount < count
    · rw [if_pos hc] at h
      simp only [Prod.mk.injEq] at h
      obtain ⟨-, ht, -⟩ := h
      subst ht
      exact ⟨rfl, rfl, rfl, rfl, rfl, rfl, rfl, rfl, rfl, fun i _ => rfl⟩
    · rw [if_neg hc] at h
      simp at h
  | succ b ih =>
    intro t count t' b' h
    rw [bps_tree_reserve_blocks] at h
    by_cases hc : t.garbageCount < count
    · rw [if_pos hc] at h
      simp only [matras_alloc] at h
      set t1 : Tree := { t with store := t.store ++ [Block.free] } with ht1
      have hmain := ih (bps_tree_garbage_push t1 t.store.length) count t' b' h
      obtain ⟨e1, e2, e3, e4, e5, e6, e7, e8, e9, e10⟩ := hmain
      obtain ⟨p1, p2, p3, p4, p5, p6, p7, p8, p9, p10⟩ :=
        bps_tree_garbage_push_effects t1 t.store.length
      refine ⟨by rw [e1, p1], by rw [e2, p2], by rw [e3, p3], by rw [e4, p4],
        by rw [e5, p5], by rw [e6, p6], by rw [e7, p7], by rw [e8, p8],
        by rw [e9, p9], ?_⟩
      intro i hi
      have hlen : i < t.store.length := by
        by_contra hcc
        rw [getBlock, List.getD_eq_default] at hi
        · cases hi
        · omega
      have hT1 : getBlock t1 i = getBlock t i := by
        rw [getBlock, getBlock, ht1]
        rw [List.getD_eq_getElem _ _
            (by simp only [List.length_append, List.length_cons,
              List.length_nil]; omega),
          List.getD_eq_getElem _ _ hlen]
        simp [List.getElem_append_left hlen]
      have hPush : getBlock (bps_tree_garbage_push t1 t.store.length) i =
          getBlock t i := by
        rw [p10 i (by omega), hT1]
      rw [e10 i (by rw [hPush]; exact hi), hPush]
    · rw [if_neg hc] at h
      simp at h

theorem bps_tree_process_insert_inner_ok :
    ∀ (parents : List PathElem) (s : St) (pe : PathElem)
      (budget blockId pos : Nat) (me : Elem) (ok : Bool) (s' : St) (b' : Nat),
      bps_tree_process_insert_inner s pe parents budget blockId pos me =
        some (ok, s', b') → ok = true := by
  intro parents
  induction parents with
  | nil =>
    intro s pe budget blockId pos me ok s' b' h
    rw [bps_tree_process_insert_inner] at h
    dsimp only at h
    repeat' split at h
    all_goals
      first
        | (simp only [Option.some.injEq, Prod.mk.injEq] at h; exact h.1.symm)
        | simp at h
  | cons p rest ih =>
    intro s pe budget blockId pos me ok s' b' h
    rw [bps_tree_process_insert_inner] at h
    dsimp only at h
    repeat' split at h
    all_goals
      first
        | (simp only [Option.some.injEq, Prod.mk.injEq] at h; exact h.1.symm)
        | simp at h
        | exact ih _ _ _ _ _ _ _ _ _ h

theorem bps_tree_process_insert_leaf_split_false {s : St} {leaf_pe : PathElem}
    {parents : List PathElem} {budget : Nat} {e : Elem}
    {oleft oright oll orr : Option PathElem} {s' : St} {b' : Nat}
    (hg : garbageOK s.t = true)
    (h : bps_tree_process_insert_leaf_split s leaf_pe parents budget e
      oleft oright oll orr = some (false, s', b')) :
    s'.t.size = s.t.size ∧ s'.t.depth = s.t.depth ∧ s'.t.root = s.t.root ∧
    s'.t.firstId = s.t.firstId ∧ s'.t.lastId = s.t.lastId ∧
    s'.t.innerCount = s.t.innerCount ∧
    s'.t.leafCount = s.t.leafCount + 1 ∧
    s'.t.maxElem = s.t.maxElem ∧ s'.t.cfg = s.t.cfg ∧
    (∀ i, liveBlock (getBlock s.t i) = true →
      getBlock s'.t i = getBlock s.t i) := by
  rw [bps_tree_process_insert_leaf_split] at h
  cases hc : bps_tree_create_leaf s.t budget with
  | none => rw [hc] at h; simp at h
  | some v =>
    obtain ⟨t1, nid, b1⟩ := v
    rw [hc] at h
    dsimp only at h
    cases hr : bps_tree_reserve_blocks t1 b1 (t1.depth + 1) with
    | mk rok rrest =>
      obtain ⟨t2, b2⟩ := rrest
      rw [hr] at h
      cases rok with
      | false =>
        dsimp only at h
        simp only [Option.some.injEq, Prod.mk.injEq, true_and] at h
        obtain ⟨hs, -⟩ := h
        obtain ⟨c1, c2, c3, c4, c5, c6, c7, c8, c9, c10⟩ :=
          bps_tree_create_leaf_effects hg hc
        obtain ⟨r1, r2, r3, r4, r5, r6, r7, r8, r9, r10⟩ :=
          bps_tree_reserve_blocks_false_effects b1 t1 (t1.depth + 1) t2 b2 hr
        subst hs
        refine ⟨by rw [r1, c1], by rw [r2, c2], by rw [r3, c3],
          by rw [r4, c4], by rw [r5, c5], by rw [r6, c6],
          by rw [r7, c7], by rw [r8, c8], by rw [r9, c9], ?_⟩
        intro i hi
        have h1 : getBlock t1 i = getBlock s.t i := c10 i hi
        have h2 : liveBlock (getBlock t1 i) = true := by rw [h1]; exact hi
        show getBlock t2 i = getBlock s.t i
        rw [r10 i h2, h1]
      | true =>
        dsimp only at h
        repeat' split at h
        all_goals
          first
            | exact absurd
                (bps_tree_process_insert_inner_ok _ _ _ _ _ _ _ _ _ _ h)
                (by decide)
            | (simp at h; done)
            | simp at h

theorem bps_tree_process_insert_leaf_false {s : St} {leaf_pe : PathElem}
    {parents : List PathElem} {budget : Nat} {e : Elem} {s' : St} {b' : Nat}
    (hg : garbageOK s.t = true)
    (h : bps_tree_process_insert_leaf s leaf_pe parents budget e =
      some (false, s', b')) :
    s'.t.size = s.t.size ∧ s'.t.depth = s.t.depth ∧ s'.t.root = s.t.root ∧
    s'.t.firstId = s.t.firstId ∧ s'.t.lastId = s.t.lastId ∧
    s'.t.innerCount = s.t.innerCount ∧
    s'.t.leafCount = s.t.leafCount + 1 ∧
    s'.t.maxElem = s.t.maxElem ∧ s'.t.cfg = s.t.cfg ∧
    (∀ i, liveBlock (getBlock s.t i) = true →
      getBlock s'.t i = getBlock s.t i) := by
  rw [bps_tree_process_insert_leaf] at h
  dsimp only at h
  repeat' split at h
  all_goals
    first
      | exact bps_tree_process_insert_leaf_split_false hg h
      | (simp at h; done)
      | simp at h

theorem bps_tree_insert_first_elem_ok {t : Tree} {budget : Nat} {e : Elem}
    {ok : Bool} {t' : Tree} {b' : Nat}
    (h : bps_tree_insert_first_elem t budget e = some (ok, t', b')) :
    ok = true := by
  rw [bps_tree_insert_first_elem] at h
  dsimp only at h
  repeat' split at h
  all_goals
    first
      | (simp at h; done)
      | (try dsimp only at h
         simp only [Option.some.injEq, Prod.mk.injEq] at h
         exact h.1.symm)

/-- Concrete refutation of the bit-identical part of claim C1: on the
full one-leaf tree `exTree` with an allocator budget of one block,
`bps_tree_insert` reports failure, yet the tree it leaves behind has
`leaf_count = 2` and a second block in the store — `bps_tree_create_leaf`
has already mutated the tree before the fallible garbage reservation. -/
theorem C1_counterexample :
    bps_tree_insert exTree 1 (5, 0) = some (false, none, exTreeAfter, 0) ∧
    exTreeAfter.leafCount = 2 ∧ exTree.leafCount = 1 ∧
    exTreeAfter.store.length = 2 ∧ exTree.store.length = 1 := by
  refine ⟨?_, rfl, rfl, rfl, rfl⟩
  rfl

/-- **Claim C1, corrected.**  The original claim — on an out-of-memory
`false` return the tree is bit-identical to its pre-call state — is
refuted by `C1_counterexample`: `bps_tree_create_leaf` runs *before*
`bps_tree_reserve_blocks` (bps_tree.h:2777-2781), so the new leaf block
has already been created when the reservation fails.  The amended
property proved here: whenever `bps_tree_insert` returns `false`, the
logical state is untouched — size, depth, root, first/last leaf ids,
inner-block count, maximal element, configuration, and the contents of
every live (leaf or inner) block are exactly those of the pre-call
state — and the only residue is the one extra leaf block
(`leaf_count + 1`) plus garbage-list bookkeeping. -/
theorem C1_insert_oom_effects {t : Tree} {budget : Nat} {e : Elem}
    {r : Option Elem} {t' : Tree} {b' : Nat}
    (hg : garbageOK t = true)
    (h : bps_tree_insert t budget e = some (false, r, t', b')) :
    t'.size = t.size ∧ t'.depth = t.depth ∧ t'.root = t.root ∧
    t'.firstId = t.firstId ∧ t'.lastId = t.lastId ∧
    t'.innerCount = t.innerCount ∧ t'.leafCount = t.leafCount + 1 ∧
    t'.maxElem = t.maxElem ∧ t'.cfg = t.cfg ∧
    (∀ i, liveBlock (getBlock t i) = true →
      getBlock t' i = getBlock t i) := by
  rw [bps_tree_insert] at h
  cases hroot : t.root with
  | none =>
    rw [hroot] at h
    dsimp only at h
    cases hf : bps_tree_insert_first_elem t budget e with
    | none => rw [hf] at h; simp at h
    | some v =>
      obtain ⟨ok, t3, b3⟩ := v
      have hok := bps_tree_insert_first_elem_ok hf
      subst hok
      rw [hf] at h
      simp at h
  | some rid =>
    rw [hroot] at h
    rcases hcp : bps_tree_collect_path t e with ⟨parents, leaf_pe, ex⟩
    rw [hcp] at h
    dsimp only at h
    cases ex with
    | true =>
      rcases hpr : bps_tree_process_replace { t := t, nm := dflt } leaf_pe e
        with ⟨s2, rep⟩
      rw [if_pos rfl, hpr] at h
      simp at h
    | false =>
      rw [if_neg (by simp)] at h
      cases hp : bps_tree_process_insert_leaf { t := t, nm := dflt } leaf_pe
          parents budget e with
      | none => rw [hp] at h; simp at h
      | some v =>
        obtain ⟨ok, s2, b2⟩ := v
        rw [hp] at h
        dsimp only at h
        simp only [Option.some.injEq, Prod.mk.injEq] at h
        obtain ⟨hok, hrr, ht', hb'⟩ := h
        subst hok
        subst ht'
        obtain ⟨e1, e2, e3, e4, e5, e6, e7, e8, e9, e10⟩ :=
          bps_tree_process_insert_leaf_false hg hp
        refine ⟨e1, e2, ?_, e4, e5, e6, e7, e8, e9, e10⟩
        rw [← hroot]
        exact e3

/-- Witness for the amended C1 theorem: the hypotheses are satisfiable —
on `exTree` the failing insertion indeed preserves the whole logical
state while leaving one extra leaf block behind. -/
theorem C1_insert_oom_effects_witness :
    garbageOK exTree = true ∧
    bps_tree_insert exTree 1 (5, 0) = some (false, none, exTreeAfter, 0) ∧
    (exTreeAfter.size = exTree.size ∧ exTreeAfter.depth = exTree.depth ∧
      exTreeAfter.root = exTree.root ∧
      exTreeAfter.firstId = exTree.firstId ∧
      exTreeAfter.lastId = exTree.lastId ∧
      exTreeAfter.innerCount = exTree.innerCount ∧
      exTreeAfter.leafCount = exTree.leafCount + 1 ∧
      exTreeAfter.maxElem = exTree.maxElem ∧
      exTreeAfter.cfg = exTree.cfg ∧
      (∀ i, liveBlock (getBlock exTree i) = true →
        getBlock exTreeAfter i = getBlock exTree i)) :=
  ⟨by rfl, by rfl,
   @C1_insert_oom_effects exTree 1 (5, 0) none exTreeAfter 0
     (by rfl) (by rfl)⟩

/-- **Claim C7** (confirmed).  If `bps_tree_build` on a freshly created
empty tree hits an allocator failure it returns `false`, resets the
matras, and the tree is its initial empty state: no root, depth 0,
size 0 (and the original allocator budget is back, since the reset
returns every extent to the host). -/
theorem C7_build_failure_resets {cfg : Cfg} {budget : Nat}
    {arr : List Elem} {t' : Tree} {b' : Nat} (hs : SortedLe arr)
    (h : bps_tree_build (bps_tree_create cfg) budget arr =
      (false, t', b')) :
    t' = bps_tree_create cfg ∧ t'.root = none ∧ t'.depth = 0 ∧
    t'.size = 0 ∧ b' = budget := by
  rw [bps_tree_build] at h
  by_cases h0 : arr.length == 0
  · rw [if_pos h0] at h
    simp at h
  · rw [if_neg h0] at h
    dsimp only at h
    cases hb : build_go [] budget 0 none
        (build_levels_go (bps_tree_create cfg).cfg.imax
          (build_depth_go (bps_tree_create cfg).cfg.imax
              ((arr.length + (bps_tree_create cfg).cfg.lmax - 1) /
                (bps_tree_create cfg).cfg.lmax)
              ((arr.length + (bps_tree_create cfg).cfg.lmax - 1) /
                (bps_tree_create cfg).cfg.lmax) 1 - 1)
          ((arr.length + (bps_tree_create cfg).cfg.lmax - 1) /
            (bps_tree_create cfg).cfg.lmax))
        arr arr.length none none
        ((arr.length + (bps_tree_create cfg).cfg.lmax - 1) /
          (bps_tree_create cfg).cfg.lmax) with
    | none =>
      rw [hb] at h
      simp only [Prod.mk.injEq, true_and] at h
      obtain ⟨ht, hb'⟩ := h
      subst ht
      exact ⟨rfl, rfl, rfl, rfl, hb'.symm⟩
    | some v =>
      rw [hb] at h
      obtain ⟨store, b2, ic, ri, fid, lid⟩ := v
      dsimp only at h
      simp at h

/-- Witness for C7: a sorted two-element array and a zero allocator
budget make the very first leaf allocation fail. -/
theorem C7_build_failure_resets_witness :
    SortedLe [((1 : Int), (0 : Int)), (2, 0)] ∧
    bps_tree_build (bps_tree_create { lmax := 4, imax := 4 }) 0
        [((1 : Int), (0 : Int)), (2, 0)] =
      (false, bps_tree_create { lmax := 4, imax := 4 }, 0) ∧
    (bps_tree_create { lmax := 4, imax := 4 } =
        bps_tree_create { lmax := 4, imax := 4 } ∧
      (bps_tree_create { lmax := 4, imax := 4 }).root = none ∧
      (bps_tree_create { lmax := 4, imax := 4 }).depth = 0 ∧
      (bps_tree_create { lmax := 4, imax := 4 }).size = 0 ∧
      (0 : Nat) = 0) :=
  ⟨by rw [SortedLe]; decide, by rfl,
   @C7_build_failure_resets { lmax := 4, imax := 4 } 0
     [((1 : Int), (0 : Int)), (2, 0)]
     (bps_tree_create { lmax := 4, imax := 4 }) 0
     (by rw [SortedLe]; decide) (by rfl)⟩

/-! ### The leaf chain laid down by `bps_tree_build` (claim C6) -/

theorem getD_set_ne (l : List Block) (i j : Nat) (v d : Block)
    (h : j ≠ i) : (l.set i v).getD j d = l.getD j d := by
  rcases Nat.lt_or_ge j l.length with hj | hj
  · rw [List.getD_eq_getElem _ _ (by simpa using hj),
      List.getD_eq_getElem _ _ hj]
    simp [List.getElem_set_ne (Ne.symm h)]
  · rw [List.getD_eq_default _ _ (by simpa using hj),
      List.getD_eq_default _ _ hj]

theorem getD_set_mem (l : List Block) (i : Nat) (v d : Block)
    (h : i < l.length) : (l.set i v).getD i d = v := by
  rw [List.getD_eq_getElem _ _ (by simpa using h)]
  simp

theorem getD_set_self (l : List Block) (i j : Nat) (d : Block) :
    (l.set i (l.getD i d)).getD j d = l.getD j d := by
  by_cases h : j = i
  · subst h
    rcases Nat.lt_or_ge j l.length with hj | hj
    · exact getD_set_mem l j _ d hj
    · rw [List.getD_eq_default _ _ (by simpa using hj),
        List.getD_eq_default _ _ hj]
  · exact getD_set_ne l i j _ d h

theorem getD_set_of_getD_eq {l : List Block} {i : Nat} {v d : Block}
    (h : l.getD i d = v) : ∀ j, (l.set i v).getD j d = l.getD j d := by
  intro j
  by_cases hij : j = i
  · subst hij
    subst h
    exact getD_set_self l j j d
  · exact getD_set_ne l i j v d hij

theorem getD_append_lt (l l' : List Block) (j : Nat) (d : Block)
    (h : j < l.length) : (l ++ l').getD j d = l.getD j d := by
  rw [List.getD_eq_getElem _ _ (by simp; omega), List.getD_eq_getElem _ _ h]
  simp [List.getElem_append_left h]

theorem isLeaf_getD_lt {l : List Block} {id : Nat}
    (h : (l.getD id Block.free).isLeaf = true) : id < l.length := by
  by_contra hc
  rw [List.getD_eq_default _ _ (by omega)] at h
  simp [Block.isLeaf] at h

/-- Manual unfolding equations for `build_claim` (the automatic ones are
not generated for this match shape). -/
theorem build_claim_nil_eq (store : List Block) (budget ic : Nat)
    (ri : Option Nat) (iid : Nat) :
    build_claim [] store budget ic ri iid =
      some (store, budget, ic, ri, []) := rfl

theorem build_claim_cons_eq (lv : BuildLevel) (rest : List BuildLevel)
    (store : List Block) (budget ic : Nat) (ri : Option Nat) (iid : Nat) :
    build_claim (lv :: rest) store budget ic ri iid =
      (match lv.parent with
       | some pid =>
         let store :=
           match store.getD pid .free with
           | .inner es cs => store.set pid (.inner es (cs ++ [iid]))
           | b => store.set pid b
         some (store, budget, ic, ri, lv :: rest)
       | none =>
         match budget with
         | 0 => none
         | b + 1 =>
           let new_id := store.length
           let store := store ++ [.inner [] [iid]]
           let lv := { lv with parent := some new_id, psize := 0 }
           match rest with
           | [] => some (store, b, ic + 1, some new_id, [lv])
           | _ =>
             match build_claim rest store b (ic + 1) ri new_id with
             | none => none
             | some (store, b', ic', ri', rest') =>
               some (store, b', ic', ri', lv :: rest')) := rfl

/-- `build_claim` only appends inner blocks and edits inner blocks in
place: every position holding a leaf keeps its exact contents. -/
theorem build_claim_leaf_preserved :
    ∀ (levels : List BuildLevel) (store : List Block) (budget ic : Nat)
      (ri : Option Nat) (iid : Nat) (store' : List Block) (b2 ic2 : Nat)
      (ri2 : Option Nat) (levels2 : List BuildLevel),
      build_claim levels store budget ic ri iid =
        some (store', b2, ic2, ri2, levels2) →
      store.length ≤ store'.length ∧
      (∀ id, (store.getD id Block.free).isLeaf = true →
        store'.getD id Block.free = store.getD id Block.free) := by
  intro levels
  induction levels with
  | nil =>
    intro store budget ic ri iid store' b2 ic2 ri2 levels2 h
    rw [build_claim_nil_eq] at h
    simp only [Option.some.injEq, Prod.mk.injEq] at h
    obtain ⟨h1, -⟩ := h
    subst h1
    exact ⟨le_refl _, fun id _ => rfl⟩
  | cons lv rest ih =>
    intro store budget ic ri iid store' b2 ic2 ri2 levels2 h
    rw [build_claim_cons_eq] at h
    cases hp : lv.parent with
    | some pid =>
      rw [hp] at h
      dsimp only at h
      cases hb : store.getD pid Block.free with
      | inner es cs =>
        rw [hb] at h
        dsimp only at h
        simp only [Option.some.injEq, Prod.mk.injEq] at h
        obtain ⟨h1, -⟩ := h
        subst h1
        refine ⟨by simp, ?_⟩
        intro id hid
        have hne : id ≠ pid := by
          intro he; rw [he, hb] at hid; simp [Block.isLeaf] at hid
        exact getD_set_ne store pid id _ _ hne
      | free =>
        rw [hb] at h
        dsimp only at h
        simp only [Option.some.injEq, Prod.mk.injEq] at h
        obtain ⟨h1, -⟩ := h
        subst h1
        exact ⟨by simp, fun id _ => getD_set_of_getD_eq hb id⟩
      | leaf p n es =>
        rw [hb] at h
        dsimp only at h
        simp only [Option.some.injEq, Prod.mk.injEq] at h
        obtain ⟨h1, -⟩ := h
        subst h1
        exact ⟨by simp, fun id _ => getD_set_of_getD_eq hb id⟩
      | garbage nxt =>
        rw [hb] at h
        dsimp only at h
        simp only [Option.some.injEq, Prod.mk.injEq] at h
        obtain ⟨h1, -⟩ := h
        subst h1
        exact ⟨by simp, fun id _ => getD_set_of_getD_eq hb id⟩
    | none =>
      rw [hp] at h
      cases budget with
      | zero => simp at h
      | succ b =>
        dsimp only at h
        cases rest with
        | nil =>
          simp only [Option.some.injEq, Prod.mk.injEq] at h
          obtain ⟨h1, -⟩ := h
          subst h1
          refine ⟨by simp, ?_⟩
          intro id hid
          exact getD_append_lt store _ id _ (isLeaf_getD_lt hid)
        | cons lv2 rest2 =>
          cases hc : build_claim (lv2 :: rest2) (store ++ [Block.inner [] [iid]])
              b (ic + 1) ri store.length with
          | none => rw [hc] at h; simp at h
          | some v =>
            obtain ⟨s3, b3, ic3, ri3, lv3⟩ := v
            rw [hc] at h
            dsimp only at h
            simp only [Option.some.injEq, Prod.mk.injEq] at h
            obtain ⟨h1, -⟩ := h
            subst h1
            obtain ⟨ihl, ihp⟩ := ih _ _ _ _ _ _ _ _ _ _ hc
            constructor
            · calc store.length ≤ (store ++ [Block.inner [] [iid]]).length :=
                    by simp
                _ ≤ s3.length := ihl
            · intro id hid
              have hlt := isLeaf_getD_lt hid
              have hap : (store ++ [Block.inner [] [iid]]).getD id Block.free =
                  store.getD id Block.free := getD_append_lt store _ id _ hlt
              rw [ihp id (by rw [hap]; exact hid), hap]

/-- `build_bump` edits inner blocks in place: length and every
leaf-holding position are untouched. -/
theorem build_bump_leaf_preserved :
    ∀ (levels : List BuildLevel) (store : List Block) (v : Elem),
      (build_bump store levels v).1.length = store.length ∧
      (∀ id, (store.getD id Block.free).isLeaf = true →
        (build_bump store levels v).1.getD id Block.free =
          store.getD id Block.free) := by
  intro levels
  induction levels with
  | nil => intro store v; rw [build_bump]; exact ⟨rfl, fun _ _ => rfl⟩
  | cons lv rest ih =>
    intro store v
    rw [build_bump]
    cases hp : lv.parent with
    | none => exact ⟨rfl, fun _ _ => rfl⟩
    | some pid =>
      dsimp only
      by_cases hsz : lv.psize + 1 ≠ lv.childCount / lv.blockCount
      · rw [if_pos hsz]
        cases hb : store.getD pid Block.free with
        | inner es cs =>
          dsimp only
          refine ⟨by simp, ?_⟩
          intro id hid
          have hne : id ≠ pid := by
            intro he; rw [he, hb] at hid; simp [Block.isLeaf] at hid
          exact getD_set_ne store pid id _ _ hne
        | free =>
          dsimp only
          exact ⟨by simp, fun id _ => getD_set_of_getD_eq hb id⟩
        | leaf p n es =>
          dsimp only
          exact ⟨by simp, fun id _ => getD_set_of_getD_eq hb id⟩
        | garbage nxt =>
          dsimp only
          exact ⟨by simp, fun id _ => getD_set_of_getD_eq hb id⟩
      · rw [if_neg hsz]
        rcases he : build_bump store rest v with ⟨s2, r2⟩
        dsimp only
        obtain ⟨ihl, ihp⟩ := ih store v
        rw [he] at ihl ihp
        exact ⟨ihl, ihp⟩

/-- Manual unfolding equations for `build_go`. -/
theorem build_go_zero_eq (store : List Block) (budget ic : Nat)
    (ri : Option Nat) (levels : List BuildLevel) (current : List Elem)
    (el : Nat) (prevId firstId : Option Nat) :
    build_go store budget ic ri levels current el prevId firstId 0 =
      some (store, budget, ic, ri, firstId, prevId) := rfl

theorem build_go_succ_eq (store : List Block) (budget ic : Nat)
    (ri : Option Nat) (levels : List BuildLevel) (current : List Elem)
    (el : Nat) (prevId firstId : Option Nat) (ll : Nat) :
    build_go store budget ic ri levels current el prevId firstId (ll + 1) =
      (match budget with
       | 0 => none
       | b + 1 =>
         let id := store.length
         let leafSize := el / (ll + 1)
         let store := store ++ [.free]
         let store := setPrevLeafNextOpt store prevId id
         let store := store.set id (.leaf prevId none (current.take leafSize))
         let firstId := keepFirst firstId id
         match build_claim levels store b ic ri id with
         | none => none
         | some (store, b2, ic2, ri2, levels2) =>
           let insert_value := current.getD (leafSize - 1) dflt
           let (store, levels3) := build_bump store levels2 insert_value
           build_go store b2 ic2 ri2 levels3 (current.drop leafSize)
             (el - leafSize) (some id) firstId ll) := rfl

theorem setLeafNext_isLeaf {b : Block} {x : Option Nat}
    (h : b.isLeaf = true) : (setLeafNext b x).isLeaf = true := by
  cases b <;> simp [Block.isLeaf, setLeafNext] at h ⊢

theorem setPrevLeafNext_length (sa : List Block) (pl id0 : Nat) :
    (setPrevLeafNext sa pl id0).length = sa.length := by
  rw [setPrevLeafNext]
  cases hb : sa.getD pl Block.free <;> simp

theorem setPrevLeafNext_ne (sa : List Block) (pl id0 : Nat) :
    ∀ id, id ≠ pl →
      (setPrevLeafNext sa pl id0).getD id Block.free =
        sa.getD id Block.free := by
  intro id hid
  rw [setPrevLeafNext]
  cases hb : sa.getD pl Block.free <;>
    exact getD_set_ne sa pl id _ _ hid

theorem setPrevLeafNext_self (sa : List Block) (pl id0 : Nat) :
    (setPrevLeafNext sa pl id0).getD pl Block.free =
      setLeafNext (sa.getD pl Block.free) (some id0) := by
  rw [setPrevLeafNext]
  cases hb : sa.getD pl Block.free with
  | leaf pp nn pes =>
    have hlt : pl < sa.length := by
      by_contra hc
      rw [List.getD_eq_default _ _ (by omega)] at hb
      simp at hb
    rw [getD_set_mem sa pl _ _ hlt]
    rfl
  | free => rw [getD_set_of_getD_eq hb pl, hb]; rfl
  | inner es cs => rw [getD_set_of_getD_eq hb pl, hb]; rfl
  | garbage nxt => rw [getD_set_of_getD_eq hb pl, hb]; rfl

/-- One pass of the build loop, abstracted over the store `sb` obtained
after appending the fresh block and patching the previous leaf's
`next_id`. -/
theorem build_go_chain_step {ll : Nat} {current : List Elem}
    {store sb sd se : List Block} {b b2 ic ic2 : Nat} {ri ri2 : Option Nat}
    {levels lv2 lv3 : List BuildLevel}
    {prevId firstId : Option Nat} {store' : List Block} {b' ic' : Nat}
    {ri' fid lid : Option Nat}
    (IH : ∀ (cur2 : List Elem) (st2 : List Block) (bu2 icx : Nat)
      (rix : Option Nat) (lvx : List BuildLevel)
      (pv2 fi2 : Option Nat) (st3 : List Block) (b3 ic3 : Nat)
      (ri3 fid3 lid3 : Option Nat),
      build_go st2 bu2 icx rix lvx cur2 cur2.length pv2 fi2 ll =
        some (st3, b3, ic3, ri3, fid3, lid3) →
      BuildChainOut st2 st3 cur2 pv2 fi2 fid3 lid3 ll)
    (hsb_len : sb.length = store.length + 1)
    (hsb_ne : ∀ id, id < store.length → some id ≠ prevId →
      sb.getD id Block.free = store.getD id Block.free)
    (hsb_prev : ∀ pl, prevId = some pl →
      (store.getD pl Block.free).isLeaf = true →
      sb.getD pl Block.free =
        setLeafNext (store.getD pl Block.free) (some store.length))
    (hc : build_claim levels
        (sb.set store.length
          (Block.leaf prevId none
            (current.take (current.length / (ll + 1))))) b ic ri
        store.length = some (sd, b2, ic2, ri2, lv2))
    (hbump : build_bump sd lv2
        (current.getD (current.length / (ll + 1) - 1) dflt) = (se, lv3))
    (hrec : build_go se b2 ic2 ri2 lv3
        (current.drop (current.length / (ll + 1)))
        (current.drop (current.length / (ll + 1))).length
        (some store.length) (some (firstId.getD store.length)) ll =
      some (store', b', ic', ri', fid, lid)) :
    BuildChainOut store store' current prevId firstId fid lid (ll + 1) := by
  obtain ⟨hcl_len, hcl_pres⟩ :=
    build_claim_leaf_preserved levels _ b ic ri store.length sd b2 ic2 ri2
      lv2 hc
  obtain ⟨hbp_len0, hbp_pres0⟩ :=
    build_bump_leaf_preserved lv2 sd
      (current.getD (current.length / (ll + 1) - 1) dflt)
  rw [hbump] at hbp_len0 hbp_pres0
  dsimp only at hbp_len0 hbp_pres0
  have hih := IH _ _ _ _ _ _ _ _ _ _ _ _ _ _ hrec
  rw [BuildChainOut] at hih
  obtain ⟨ids', hlen', hchain', hfresh', hleaf', hpres', hprev', hfid',
    hlid'⟩ := hih
  have hsc_len : (sb.set store.length
      (Block.leaf prevId none
        (current.take (current.length / (ll + 1))))).length =
      store.length + 1 := by simp [hsb_len]
  have hse_len : store.length + 1 ≤ se.length := by omega
  have hsc_id0 : (sb.set store.length
      (Block.leaf prevId none
        (current.take (current.length / (ll + 1))))).getD store.length
        Block.free =
      Block.leaf prevId none (current.take (current.length / (ll + 1))) :=
    getD_set_mem sb store.length _ _ (by omega)
  have hsd_id0 : sd.getD store.length Block.free =
      Block.leaf prevId none (current.take (current.length / (ll + 1))) := by
    rw [hcl_pres _ (by rw [hsc_id0]; rfl), hsc_id0]
  have hse_id0 : se.getD store.length Block.free =
      Block.leaf prevId none (current.take (current.length / (ll + 1))) := by
    rw [hbp_pres0 _ (by rw [hsd_id0]; rfl), hsd_id0]
  have hse_old : ∀ id, id < store.length → some id ≠ prevId →
      (store.getD id Block.free).isLeaf = true →
      se.getD id Block.free = store.getD id Block.free := by
    intro id hlt hne hlf
    have h1 : sb.getD id Block.free = store.getD id Block.free :=
      hsb_ne id hlt hne
    have h2 : (sb.set store.length
        (Block.leaf prevId none
          (current.take (current.length / (ll + 1))))).getD id Block.free =
        store.getD id Block.free := by
      rw [getD_set_ne sb store.length id _ _ (by omega)]
      exact h1
    have h3 : sd.getD id Block.free = store.getD id Block.free := by
      rw [hcl_pres id (by rw [h2]; exact hlf), h2]
    rw [hbp_pres0 id (by rw [h3]; exact hlf), h3]
  have hse_prevleaf : ∀ pl, prevId = some pl →
      (store.getD pl Block.free).isLeaf = true →
      se.getD pl Block.free =
        setLeafNext (store.getD pl Block.free) (some store.length) := by
    intro pl hpv hlf
    have hplt : pl < store.length := isLeaf_getD_lt hlf
    have h1 := hsb_prev pl hpv hlf
    have h2 : (sb.set store.length
        (Block.leaf prevId none
          (current.take (current.length / (ll + 1))))).getD pl Block.free =
        setLeafNext (store.getD pl Block.free) (some store.length) := by
      rw [getD_set_ne sb store.length pl _ _ (by omega)]
      exact h1
    have h3 : sd.getD pl Block.free =
        setLeafNext (store.getD pl Block.free) (some store.length) := by
      rw [hcl_pres pl (by rw [h2]; exact setLeafNext_isLeaf hlf), h2]
    rw [hbp_pres0 pl (by rw [h3]; exact setLeafNext_isLeaf hlf), h3]
  rw [BuildChainOut]
  refine ⟨store.length :: ids', by simp [hlen'], ?_, ?_, ?_, ?_, ?_, ?_, ?_⟩
  · cases ids' with
    | nil => simp
    | cons y ys =>
      refine List.chain'_cons.2 ⟨?_, hchain'⟩
      have := hfresh' y (by simp)
      omega
  · intro x hx
    rcases List.mem_cons.1 hx with rfl | hx
    · exact le_refl _
    · have := hfresh' x hx
      omega
  · intro k hk
    cases k with
    | zero =>
      have hp := hprev' store.length rfl (by rw [hse_id0]; rfl)
      rw [hse_id0] at hp
      simp only [List.getD_cons_zero, List.getD_cons_succ]
      by_cases hll : ll = 0
      · subst hll
        rw [if_pos rfl] at hp
        rw [hp]
        simp [buildSlices]
      · rw [if_neg hll] at hp
        rw [hp, setLeafNext]
        have h2 : (0 = ll + 1 - 1) = False := eq_false (by omega)
        simp [h2, buildSlices]
        omega
    | succ k' =>
      have hk' : k' < ll := by omega
      have hl := hleaf' k' hk'
      simp only [List.getD_cons_succ]
      rw [hl]
      have e1 : some ((store.length :: ids').getD (k' + 1 - 1) 0) =
          (if k' = 0 then some store.length
           else some (ids'.getD (k' - 1) 0)) := by
        by_cases hk0 : k' = 0
        · subst hk0
          simp
        · rw [if_neg hk0]
          obtain ⟨m, rfl⟩ : ∃ m, k' = m + 1 := ⟨k' - 1, by omega⟩
          simp
      have e2 : (k' + 1 = ll + 1 - 1) ↔ (k' = ll - 1) := by omega
      have e3 : (buildSlices current (ll + 1)).getD (k' + 1) [] =
          (buildSlices (current.drop (current.length / (ll + 1))) ll).getD
            k' [] := by simp [buildSlices]
      rw [if_neg (by omega : ¬k' + 1 = 0), e1, e3]
      simp only [e2]
  · intro id hlf hne
    have hlt := isLeaf_getD_lt hlf
    have h4 := hse_old id hlt hne hlf
    rw [hpres' id (by rw [h4]; exact hlf) (by simp; omega), h4]
  · intro p hpv hlf
    have hplt := isLeaf_getD_lt hlf
    have h4 := hse_prevleaf p hpv hlf
    have h5 : store'.getD p Block.free = se.getD p Block.free :=
      hpres' p (by rw [h4]; exact setLeafNext_isLeaf hlf) (by simp; omega)
    rw [h5, h4, if_neg (by omega : ¬ll + 1 = 0)]
    simp
  · rw [hfid']
    by_cases hll : ll = 0
    · subst hll
      rw [if_pos rfl, if_neg (by omega : ¬0 + 1 = 0)]
      simp
    · rw [if_neg hll, if_neg (by omega : ¬ll + 1 = 0)]
      simp
  · rw [hlid', if_neg (by omega : ¬ll + 1 = 0)]
    by_cases hll : ll = 0
    · subst hll
      rw [if_pos rfl]
      simp
    · rw [if_neg hll]
      obtain ⟨m, rfl⟩ := Nat.exists_eq_succ_of_ne_zero hll
      simp

theorem keepFirst_eq (f : Option Nat) (id : Nat) :
    keepFirst f id = some (f.getD id) := by cases f <;> rfl

theorem setPrevLeafNextOpt_len (sa : List Block) (opl : Option Nat)
    (id0 : Nat) : (setPrevLeafNextOpt sa opl id0).length = sa.length := by
  cases opl with
  | none => rfl
  | some pl => exact setPrevLeafNext_length sa pl id0

theorem setPrevLeafNextOpt_ne (sa : List Block) (opl : Option Nat)
    (id0 : Nat) : ∀ id, some id ≠ opl →
      (setPrevLeafNextOpt sa opl id0).getD id Block.free =
        sa.getD id Block.free := by
  intro id hne
  cases opl with
  | none => rfl
  | some pl =>
    exact setPrevLeafNext_ne sa pl id0 id
      (by intro he; exact hne (by rw [he]))

theorem setPrevLeafNextOpt_prev (sa : List Block) (opl : Option Nat)
    (id0 : Nat) : ∀ pl, opl = some pl →
      (setPrevLeafNextOpt sa opl id0).getD pl Block.free =
        setLeafNext (sa.getD pl Block.free) (some id0) := by
  intro pl hpl
  subst hpl
  exact setPrevLeafNext_self sa pl id0

/-- The build loop lays down exactly the `buildSlices` chain. -/
theorem build_go_chain :
    ∀ (ll : Nat) (current : List Elem) (store : List Block)
      (budget ic : Nat) (ri : Option Nat) (levels : List BuildLevel)
      (prevId firstId : Option Nat) (store' : List Block) (b' ic' : Nat)
      (ri' fid lid : Option Nat),
      build_go store budget ic ri levels current current.length prevId
        firstId ll = some (store', b', ic', ri', fid, lid) →
      BuildChainOut store store' current prevId firstId fid lid ll := by
  intro ll
  induction ll with
  | zero =>
    intro current store budget ic ri levels prevId firstId store' b' ic'
      ri' fid lid h
    rw [build_go_zero_eq] at h
    simp only [Option.some.injEq, Prod.mk.injEq] at h
    obtain ⟨h1, h2, h3, h4, h5, h6⟩ := h
    subst h1
    subst h5
    subst h6
    rw [BuildChainOut]
    exact ⟨[], rfl, by simp, by simp, fun k hk => absurd hk (by omega),
      fun id _ _ => rfl, fun p _ _ => by rw [if_pos rfl],
      by rw [if_pos rfl], by rw [if_pos rfl]⟩
  | succ ll ih =>
    intro current store budget ic ri levels prevId firstId store' b' ic'
      ri' fid lid h
    rw [build_go_succ_eq] at h
    cases budget with
    | zero => simp at h
    | succ b =>
      dsimp only at h
      rw [keepFirst_eq] at h
      cases hc : build_claim levels
          ((setPrevLeafNextOpt (store ++ [Block.free]) prevId
            store.length).set store.length
            (Block.leaf prevId none
              (current.take (current.length / (ll + 1))))) b ic ri
          store.length with
      | none => rw [hc] at h; simp at h
      | some v =>
        obtain ⟨sd, b2, ic2, ri2, lv2⟩ := v
        rw [hc] at h
        dsimp only at h
        rcases hbump : build_bump sd lv2
            (current.getD (current.length / (ll + 1) - 1) dflt)
          with ⟨se, lv3⟩
        rw [hbump] at h
        dsimp only at h
        rw [show current.length - current.length / (ll + 1) =
            (current.drop (current.length / (ll + 1))).length from
          by simp] at h
        exact build_go_chain_step ih
          (by rw [setPrevLeafNextOpt_len]; simp)
          (fun id hlt hne => by
            rw [setPrevLeafNextOpt_ne _ _ _ id hne]
            exact getD_append_lt store _ id _ hlt)
          (fun pl hpl hlf => by
            rw [setPrevLeafNextOpt_prev _ _ _ pl hpl,
              getD_append_lt store _ pl _ (isLeaf_getD_lt hlf)])
          hc hbump h

/-- The slice lengths are exactly the `elems_left / leaf_left` pacing. -/
theorem buildSlices_map_length :
    ∀ (ll : Nat) (arr : List Elem),
      (buildSlices arr ll).map List.length =
        buildFillSizes arr.length ll := by
  intro ll
  induction ll with
  | zero => intro arr; rfl
  | succ ll ih =>
    intro arr
    rw [buildSlices, buildFillSizes]
    simp only [List.map_cons]
    have h1 : (arr.take (arr.length / (ll + 1))).length =
        arr.length / (ll + 1) := by
      rw [List.length_take]
      exact Nat.min_eq_left (Nat.div_le_self _ _)
    rw [h1]
    have h2 := ih (arr.drop (arr.length / (ll + 1)))
    rw [List.length_drop] at h2
    rw [h2]

/-- Concrete refutation of the ceiling-fill part of claim C6: five
elements over `LMAX = 4` build into two leaves; the first leaf receives
`5 / 2 = 2` elements (C integer division of `elems_left / leaf_left`),
not the `⌈5 / 2⌉ = 3` the spec's ceiling formula predicts. -/
theorem C6_counterexample :
    (bps_tree_build (bps_tree_create { lmax := 4, imax := 4 }) 10
        [((1 : Int), (0 : Int)), (2, 0), (3, 0), (4, 0), (5, 0)]).1 =
      true ∧
    (bps_tree_build (bps_tree_create { lmax := 4, imax := 4 }) 10
        [((1 : Int), (0 : Int)), (2, 0), (3, 0), (4, 0),
          (5, 0)]).2.1.firstId = some 0 ∧
    (getBlock (bps_tree_build (bps_tree_create { lmax := 4, imax := 4 }) 10
        [((1 : Int), (0 : Int)), (2, 0), (3, 0), (4, 0), (5, 0)]).2.1
        0).leafElems.length = 2 ∧
    (5 + 4 - 1) / 4 = 2 ∧ (5 + 2 - 1) / 2 = 3 := by
  refine ⟨rfl, rfl, rfl, rfl, rfl⟩

/-- The leaf-chain shape of every successful `bps_tree_build`. -/
theorem build_true_chain {cfg : Cfg} {budget : Nat} {arr : List Elem}
    {t' : Tree} {b' : Nat} (hN : 0 < arr.length) (hl : 0 < cfg.lmax)
    (h : bps_tree_build (bps_tree_create cfg) budget arr = (true, t', b')) :
    t'.leafCount = (arr.length + cfg.lmax - 1) / cfg.lmax ∧
    ∃ ids : List Nat,
      ids.length = (arr.length + cfg.lmax - 1) / cfg.lmax ∧
      t'.firstId = some (ids.getD 0 0) ∧
      t'.lastId = some (ids.getD (ids.length - 1) 0) ∧
      ∀ k, k < ids.length →
        getBlock t' (ids.getD k 0) =
          Block.leaf
            (if k = 0 then none else some (ids.getD (k - 1) 0))
            (if k = ids.length - 1 then none
             else some (ids.getD (k + 1) 0))
            ((buildSlices arr ids.length).getD k []) := by
  rw [bps_tree_build] at h
  dsimp only [bps_tree_create] at h
  have hcond : ¬((arr.length == 0) = true) := by
    simp only [beq_iff_eq]
    omega
  rw [if_neg hcond] at h
  have hlc : 0 < (arr.length + cfg.lmax - 1) / cfg.lmax :=
    (Nat.le_div_iff_mul_le hl).2 (by omega)
  cases hb : build_go [] budget 0 none
      (build_levels_go cfg.imax
        (build_depth_go cfg.imax ((arr.length + cfg.lmax - 1) / cfg.lmax)
            ((arr.length + cfg.lmax - 1) / cfg.lmax) 1 - 1)
        ((arr.length + cfg.lmax - 1) / cfg.lmax))
      arr arr.length none none
      ((arr.length + cfg.lmax - 1) / cfg.lmax) with
  | none =>
    rw [hb] at h
    simp at h
  | some v =>
    obtain ⟨store, b2, ic2, ri2, fid, lid⟩ := v
    rw [hb] at h
    dsimp only at h
    simp only [Prod.mk.injEq, true_and] at h
    obtain ⟨ht, hb2⟩ := h
    subst ht
    have hch := build_go_chain ((arr.length + cfg.lmax - 1) / cfg.lmax)
      arr [] budget 0 none
      (build_levels_go cfg.imax
        (build_depth_go cfg.imax ((arr.length + cfg.lmax - 1) / cfg.lmax)
            ((arr.length + cfg.lmax - 1) / cfg.lmax) 1 - 1)
        ((arr.length + cfg.lmax - 1) / cfg.lmax))
      none none store b2 ic2 ri2 fid lid hb
    rw [BuildChainOut] at hch
    obtain ⟨ids, hlen, hchain, hfresh, hleaf, hpres, hprev, hfid, hlid⟩ :=
      hch
    have hne0 : ¬((arr.length + cfg.lmax - 1) / cfg.lmax = 0) :=
      Nat.pos_iff_ne_zero.mp hlc
    refine ⟨rfl, ids, hlen, ?_, ?_, ?_⟩
    · show fid = some (ids.getD 0 0)
      rw [hfid, if_neg hne0]
      simp
    · show lid = some (ids.getD (ids.length - 1) 0)
      rw [hlid, if_neg hne0, hlen]
    · intro k hk
      rw [hlen] at hk
      show store.getD (ids.getD k 0) Block.free = _
      rw [hleaf k hk, hlen]

/-- **Claim C6, corrected.**  `bps_tree_build` does fill the leaves
left-to-right with `leaf_count = ⌈N / LMAX⌉` leaves linked `prev/next`
in creation order, but each successive leaf receives
`elems_left / leaf_left` elements — C integer division, i.e. the
*floor*, not the ceiling claimed by the spec (refuted by
`C6_counterexample`). -/
theorem C6_build_fill {cfg : Cfg} {budget : Nat} {arr : List Elem}
    {t' : Tree} {b' : Nat} (hs : SortedLe arr) (hN : 0 < arr.length)
    (hl : 0 < cfg.lmax)
    (h : bps_tree_build (bps_tree_create cfg) budget arr = (true, t', b')) :
    t'.leafCount = (arr.length + cfg.lmax - 1) / cfg.lmax ∧
    (buildSlices arr ((arr.length + cfg.lmax - 1) / cfg.lmax)).map
        List.length =
      buildFillSizes arr.length ((arr.length + cfg.lmax - 1) / cfg.lmax) ∧
    ∃ ids : List Nat,
      ids.length = (arr.length + cfg.lmax - 1) / cfg.lmax ∧
      t'.firstId = some (ids.getD 0 0) ∧
      t'.lastId = some (ids.getD (ids.length - 1) 0) ∧
      ∀ k, k < ids.length →
        getBlock t' (ids.getD k 0) =
          Block.leaf
            (if k = 0 then none else some (ids.getD (k - 1) 0))
            (if k = ids.length - 1 then none
             else some (ids.getD (k + 1) 0))
            ((buildSlices arr ids.length).getD k []) := by
  obtain ⟨h1, ids, h2, h3, h4, h5⟩ := build_true_chain hN hl h
  exact ⟨h1, buildSlices_map_length _ arr, ids, h2, h3, h4, h5⟩

/-- Witness for the corrected C6 theorem at the five-element build. -/
theorem C6_build_fill_witness :
    SortedLe [((1 : Int), (0 : Int)), (2, 0), (3, 0), (4, 0), (5, 0)] ∧
    0 < ([((1 : Int), (0 : Int)), (2, 0), (3, 0), (4, 0),
      (5, 0)] : List Elem).length ∧
    0 < (4 : Nat) ∧
    ((bps_tree_build (bps_tree_create { lmax := 4, imax := 4 }) 10
        [((1 : Int), (0 : Int)), (2, 0), (3, 0), (4, 0),
          (5, 0)]).2.1.leafCount = 2 ∧
      (buildSlices [((1 : Int), (0 : Int)), (2, 0), (3, 0), (4, 0), (5, 0)]
          2).map List.length = buildFillSizes 5 2 ∧
      ∃ ids : List Nat,
        ids.length = 2 ∧
        (bps_tree_build (bps_tree_create { lmax := 4, imax := 4 }) 10
            [((1 : Int), (0 : Int)), (2, 0), (3, 0), (4, 0),
              (5, 0)]).2.1.firstId = some (ids.getD 0 0) ∧
        (bps_tree_build (bps_tree_create { lmax := 4, imax := 4 }) 10
            [((1 : Int), (0 : Int)), (2, 0), (3, 0), (4, 0),
              (5, 0)]).2.1.lastId =
          some (ids.getD (ids.length - 1) 0) ∧
        ∀ k, k < ids.length →
          getBlock (bps_tree_build (bps_tree_create { lmax := 4, imax := 4 })
              10 [((1 : Int), (0 : Int)), (2, 0), (3, 0), (4, 0),
                (5, 0)]).2.1 (ids.getD k 0) =
            Block.leaf
              (if k = 0 then none else some (ids.getD (k - 1) 0))
              (if k = ids.length - 1 then none
               else some (ids.getD (k + 1) 0))
              ((buildSlices
                  [((1 : Int), (0 : Int)), (2, 0), (3, 0), (4, 0), (5, 0)]
                  ids.length).getD k [])) :=
  ⟨by rw [SortedLe]; decide, by decide, by decide,
   @C6_build_fill { lmax := 4, imax := 4 } 10
     [((1 : Int), (0 : Int)), (2, 0), (3, 0), (4, 0), (5, 0)]
     (bps_tree_build (bps_tree_create { lmax := 4, imax := 4 }) 10
       [((1 : Int), (0 : Int)), (2, 0), (3, 0), (4, 0), (5, 0)]).2.1
     (bps_tree_build (bps_tree_create { lmax := 4, imax := 4 }) 10
       [((1 : Int), (0 : Int)), (2, 0), (3, 0), (4, 0), (5, 0)]).2.2
     (by rw [SortedLe]; decide) (by decide) (by decide) (by rfl)⟩

/-! ### The iterator walk (claim C5) -/

theorem leafChainElems_none (t : Tree) :
    ∀ cf, leafChainElems t cf none = [] := by
  intro cf
  cases cf <;> rfl

theorem leafChainElems_succ_some (t : Tree) (cf : Nat) (id : Nat) :
    leafChainElems t (cf + 1) (some id) =
      (match getBlock t id with
       | .leaf _ n es => es ++ leafChainElems t cf n
       | _ => []) := rfl

theorem leafChainOK_zero_some (t : Tree) (id : Nat) :
    leafChainOK t 0 (some id) = false := rfl

theorem leafChainOK_succ_some (t : Tree) (cf : Nat) (id : Nat) :
    leafChainOK t (cf + 1) (some id) =
      (match getBlock t id with
       | .leaf _ n es => decide (0 < es.length) && leafChainOK t cf n
       | _ => false) := rfl

theorem leafChainOK_some {t : Tree} {cf : Nat} {id : Nat}
    (h : leafChainOK t cf (some id) = true) :
    ∃ cf' p n es, cf = cf' + 1 ∧ getBlock t id = Block.leaf p n es ∧
      0 < es.length ∧ leafChainOK t cf' n = true := by
  cases cf with
  | zero => rw [leafChainOK_zero_some] at h; simp at h
  | succ cf' =>
    rw [leafChainOK_succ_some] at h
    cases hb : getBlock t id with
    | leaf p n es =>
      rw [hb] at h
      dsimp only at h
      rw [Bool.and_eq_true, decide_eq_true_eq] at h
      exact ⟨cf', p, n, es, rfl, rfl, h.1, h.2⟩
    | free => rw [hb] at h; simp at h
    | inner es cs => rw [hb] at h; simp at h
    | garbage nxt => rw [hb] at h; simp at h

theorem chainFromPos_zero {t : Tree} {cf : Nat} {oid : Option Nat}
    (h : leafChainOK t cf oid = true) :
    chainFromPos t cf oid 0 = leafChainElems t cf oid := by
  cases oid with
  | none =>
    rw [leafChainElems_none]
    rfl
  | some id =>
    obtain ⟨cf', p, n, es, rfl, hb, hpos, hok'⟩ := leafChainOK_some h
    rw [chainFromPos, leafChainElems_succ_some, hb]
    dsimp only [Block.leafElems, Block.leafNextId]
    simp

theorem iterWalk_go_succ (t : Tree) (fuel : Nat) (itr : Iterator) :
    iterWalk_go t (fuel + 1) itr =
      (match bps_tree_itr_get_elem t itr with
       | (_, none) => []
       | (itr2, some e) =>
         e :: iterWalk_go t fuel (bps_tree_itr_next t itr2).2) := rfl

/-- The iteration loop, started anywhere inside a sound leaf chain,
visits exactly the remaining elements. -/
theorem iterWalk_go_spec {t : Tree} :
    ∀ (fuel cf : Nat) (oid : Option Nat) (pos : Nat),
      leafChainOK t cf oid = true →
      (∀ id, oid = some id → pos < (getBlock t id).leafElems.length) →
      (chainFromPos t cf oid pos).length < fuel →
      iterWalk_go t fuel { blockId := oid, pos := some pos } =
        chainFromPos t cf oid pos := by
  intro fuel
  induction fuel with
  | zero => intro cf oid pos _ _ hlen; omega
  | succ fuel ih =>
    intro cf oid pos hok hpos hlen
    cases oid with
    | none => rfl
    | some id =>
      obtain ⟨cf', p, n, es, rfl, hb, hespos, hok'⟩ := leafChainOK_some hok
      have hplen : pos < es.length := by
        have h1 := hpos id rfl
        rw [hb] at h1
        exact h1
      have hget : bps_tree_itr_get_elem t
          { blockId := some id, pos := some pos } =
          ({ blockId := some id, pos := some pos },
            some (es.getD pos dflt)) := by
        rw [bps_tree_itr_get_elem, bps_tree_get_leaf_safe]
        dsimp only
        rw [hb]
        dsimp only
        rw [if_neg (by omega)]
        rfl
      have hfrom : chainFromPos t (cf' + 1) (some id) pos =
          es.drop pos ++ leafChainElems t cf' n := by
        rw [chainFromPos, hb]
        rfl
      have hlen2 : es.length - pos + (leafChainElems t cf' n).length <
          fuel + 1 := by
        rw [hfrom] at hlen
        simpa using hlen
      rw [iterWalk_go_succ, hget]
      dsimp only
      by_cases hcase : es.length ≤ pos + 1
      · have hnext : (bps_tree_itr_next t
            { blockId := some id, pos := some pos }).2 =
            { blockId := n, pos := some 0 } := by
          rw [bps_tree_itr_next]
          dsimp only
          rw [bps_tree_get_leaf_safe]
          dsimp only
          rw [hb]
          dsimp only
          rw [if_neg (by omega)]
          dsimp only [Option.getD_some]
          rw [if_pos hcase]
        rw [hnext]
        have hrec := ih cf' n 0 hok'
          (by
            intro id2 h2
            subst h2
            obtain ⟨cf2, p2, n2, es2, -, hb2, hpos2, -⟩ :=
              leafChainOK_some hok'
            rw [hb2]
            exact hpos2)
          (by
            rw [chainFromPos_zero hok']
            omega)
        rw [hrec, chainFromPos_zero hok', hfrom]
        have hdrop : es.drop pos = [es.getD pos dflt] := by
          rw [List.drop_eq_getElem_cons hplen,
            List.drop_eq_nil_of_le (by omega)]
          rw [List.getD_eq_getElem es dflt hplen]
        rw [hdrop]
        rfl
      · have hnext : (bps_tree_itr_next t
            { blockId := some id, pos := some pos }).2 =
            { blockId := some id, pos := some (pos + 1) } := by
          rw [bps_tree_itr_next]
          dsimp only
          rw [bps_tree_get_leaf_safe]
          dsimp only
          rw [hb]
          dsimp only
          rw [if_neg (by omega)]
          dsimp only [Option.getD_some]
          rw [if_neg hcase]
        rw [hnext]
        have hrec := ih (cf' + 1) (some id) (pos + 1) hok
          (by
            intro id2 h2
            injection h2 with h2
            subst h2
            rw [hb]
            exact (by omega : pos + 1 < es.length))
          (by
            rw [chainFromPos, hb]
            dsimp only [Block.leafElems, Block.leafNextId]
            simp only [List.length_append, List.length_drop,
              Nat.add_sub_cancel]
            omega)
        rw [hrec, hfrom, chainFromPos, hb]
        dsimp only [Block.leafElems, Block.leafNextId]
        rw [List.drop_eq_getElem_cons hplen,
          List.getD_eq_getElem es dflt hplen]
        rfl

/-- **Claim C5** (confirmed).  On a tree whose leaf chain is sound
(nonempty leaves linked `first -> ... -> null`, jointly holding `size`
elements in strictly ascending comparator order — the invariants the
code's own `bps_tree_debug_check` enforces), iterating from
`bps_tree_itr_first` with `bps_tree_itr_next` until the iterator turns
invalid visits exactly `bps_tree_size` elements, in strictly ascending
order: the walk is precisely the leaf-chain contents. -/
theorem C5_iterator_roundtrip {t : Tree}
    (hok : leafChainOK t t.leafCount t.firstId = true)
    (hsz : (leafChainElems t t.leafCount t.firstId).length = t.size)
    (hasc : SortedLt (leafChainElems t t.leafCount t.firstId)) :
    bps_tree_iterWalk t = leafChainElems t t.leafCount t.firstId ∧
    (bps_tree_iterWalk t).length = bps_tree_size t ∧
    SortedLt (bps_tree_iterWalk t) := by
  have hmain : bps_tree_iterWalk t =
      leafChainElems t t.leafCount t.firstId := by
    rw [bps_tree_iterWalk, bps_tree_itr_first]
    cases hf : t.firstId with
    | none =>
      rw [leafChainElems_none]
      rfl
    | some fid =>
      rw [hf] at hok
      have hrec := iterWalk_go_spec (t.size + 1) t.leafCount (some fid) 0
        hok
        (by
          intro id2 h2
          injection h2 with h2
          subst h2
          obtain ⟨cf2, p2, n2, es2, -, hb2, hpos2, -⟩ :=
            leafChainOK_some hok
          rw [hb2]
          exact hpos2)
        (by
          rw [chainFromPos_zero hok]
          rw [hf] at hsz
          omega)
      rw [hrec, chainFromPos_zero hok]
  exact ⟨hmain, by rw [hmain, bps_tree_size]; exact hsz,
    by rw [hmain]; exact hasc⟩

/-- Witness for C5 on a concrete single-leaf tree. -/
theorem C5_iterator_roundtrip_witness :
    leafChainOK exTree exTree.leafCount exTree.firstId = true ∧
    (leafChainElems exTree exTree.leafCount exTree.firstId).length =
      exTree.size ∧
    SortedLt (leafChainElems exTree exTree.leafCount exTree.firstId) ∧
    (bps_tree_iterWalk exTree =
        leafChainElems exTree exTree.leafCount exTree.firstId ∧
      (bps_tree_iterWalk exTree).length = bps_tree_size exTree ∧
      SortedLt (bps_tree_iterWalk exTree)) :=
  ⟨by decide, by decide, by rw [SortedLt]; decide,
   C5_iterator_roundtrip (by decide) (by decide)
     (by rw [SortedLt]; decide)⟩

/-! ### The replacement path (claim C10) -/

theorem getBlock_setBlock_mem {t : Tree} {id : Nat} {b : Block}
    (h : id < t.store.length) : getBlock (setBlock t id b) id = b := by
  rw [getBlock, setBlock]
  exact getD_set_mem t.store id b Block.free h

theorem getBlock_lt_of_ne_free {t : Tree} {id : Nat}
    (h : getBlock t id ≠ Block.free) : id < t.store.length := by
  by_contra hc
  rw [getBlock, List.getD_eq_default _ _ (by omega)] at h
  exact h rfl

/-- **Claim C10** (confirmed).  When the descent finds an exact match
(the tree already contains an element equal to `new_elem`, as judged by
the code's own `bps_tree_collect_path`, and the descent lands on a leaf
block as it does in every well-formed tree), `bps_tree_insert` takes the
replacement path and cannot fail: it returns `true` with the replaced
element, consumes no allocation budget, changes no counter, link, root,
depth, size or store size, and touches only the matched leaf slot plus
the one max-element copy (the tree max or one inner separator). -/
theorem C10_replace_no_structural_change {t : Tree} {budget : Nat}
    {e : Elem} {rid : Nat}
    (hroot : t.root = some rid)
    (hex : (bps_tree_collect_path t e).2.2 = true)
    (hleaf : (getBlock t
      (bps_tree_collect_path t e).2.1.blockId).isLeaf = true) :
    ∃ parents pe t' p n es,
      bps_tree_collect_path t e = (parents, pe, true) ∧
      getBlock t pe.blockId = Block.leaf p n es ∧
      bps_tree_insert t budget e =
        some (true, some (es.getD pe.insertionPoint dflt), t', budget) ∧
      t'.cfg = t.cfg ∧ t'.root = t.root ∧ t'.firstId = t.firstId ∧
      t'.lastId = t.lastId ∧ t'.leafCount = t.leafCount ∧
      t'.innerCount = t.innerCount ∧ t'.garbageCount = t.garbageCount ∧
      t'.garbageHead = t.garbageHead ∧ t'.depth = t.depth ∧
      t'.size = t.size ∧ t'.store.length = t.store.length ∧
      getBlock t' pe.blockId =
        Block.leaf p n (es.set pe.insertionPoint e) ∧
      (∀ i, i ≠ pe.blockId → (∀ idx, pe.maxPtr ≠ MaxPtr.sep i idx) →
        getBlock t' i = getBlock t i) ∧
      (∀ sid idx, pe.maxPtr = MaxPtr.sep sid idx → sid ≠ pe.blockId →
        ∀ es2 cs2, getBlock t sid = Block.inner es2 cs2 →
          getBlock t' sid = Block.inner
            (es2.set idx (lastElem (es.set pe.insertionPoint e))) cs2) ∧
      (pe.maxPtr ≠ MaxPtr.tree → t'.maxElem = t.maxElem) ∧
      (pe.maxPtr = MaxPtr.tree →
        t'.maxElem = lastElem (es.set pe.insertionPoint e)) := by
  rcases hcp : bps_tree_collect_path t e with ⟨parents, pe, ex⟩
  rw [hcp] at hex hleaf
  dsimp only at hex hleaf
  subst hex
  cases hb : getBlock t pe.blockId with
  | free => rw [hb] at hleaf; simp [Block.isLeaf] at hleaf
  | inner es2 cs2 => rw [hb] at hleaf; simp [Block.isLeaf] at hleaf
  | garbage nxt => rw [hb] at hleaf; simp [Block.isLeaf] at hleaf
  | leaf p n es =>
    have hlt : pe.blockId < t.store.length :=
      getBlock_lt_of_ne_free (by rw [hb]; simp)
    have hins0 : bps_tree_insert t budget e =
        some (true, some (es.getD pe.insertionPoint dflt),
          (writeMax
            { t := setBlock t pe.blockId
                (Block.leaf p n (es.set pe.insertionPoint e)),
              nm := dflt } pe.maxPtr
            (lastElem (es.set pe.insertionPoint e))).t, budget) := by
      rw [bps_tree_insert, hroot]
      dsimp only
      rw [hcp]
      dsimp only
      rw [if_pos rfl, bps_tree_process_replace]
      dsimp only
      rw [hb]
    have hS1ne : ∀ i, i ≠ pe.blockId →
        getBlock (setBlock t pe.blockId
          (Block.leaf p n (es.set pe.insertionPoint e))) i =
        getBlock t i := fun i hi => getBlock_setBlock_ne hi
    have hS1self : getBlock (setBlock t pe.blockId
        (Block.leaf p n (es.set pe.insertionPoint e))) pe.blockId =
        Block.leaf p n (es.set pe.insertionPoint e) :=
      getBlock_setBlock_mem hlt
    have hS1len : (setBlock t pe.blockId
        (Block.leaf p n (es.set pe.insertionPoint e))).store.length =
        t.store.length := by
      rw [setBlock]
      simp
    cases hmp : pe.maxPtr with
    | tree =>
      rw [hmp] at hins0
      refine ⟨parents, pe, _, p, n, es, rfl, hb, hins0, rfl, rfl, rfl,
        rfl, rfl, rfl, rfl, rfl, rfl, rfl, hS1len, hS1self, ?_, ?_, ?_,
        ?_⟩
      · intro i hi _
        exact hS1ne i hi
      · intro sid idx hmp2
        rw [hmp] at hmp2
        cases hmp2
      · intro hne
        exact absurd hmp hne
      · intro _
        rfl
    | scratch =>
      rw [hmp] at hins0
      refine ⟨parents, pe, _, p, n, es, rfl, hb, hins0, rfl, rfl, rfl,
        rfl, rfl, rfl, rfl, rfl, rfl, rfl, hS1len, hS1self, ?_, ?_, ?_,
        ?_⟩
      · intro i hi _
        exact hS1ne i hi
      · intro sid idx hmp2
        rw [hmp] at hmp2
        cases hmp2
      · intro _
        rfl
      · intro hmp2
        rw [hmp] at hmp2
        cases hmp2
    | sep sid idx =>
      rw [hmp] at hins0
      by_cases hsid : sid = pe.blockId
      · have hw : (writeMax
            { t := setBlock t pe.blockId
                (Block.leaf p n (es.set pe.insertionPoint e)),
              nm := dflt } (MaxPtr.sep sid idx)
            (lastElem (es.set pe.insertionPoint e))).t =
            setBlock t pe.blockId
              (Block.leaf p n (es.set pe.insertionPoint e)) := by
          rw [writeMax]
          dsimp only
          rw [hsid, hS1self]
        rw [hw] at hins0
        refine ⟨parents, pe, _, p, n, es, rfl, hb, hins0, rfl, rfl, rfl,
          rfl, rfl, rfl, rfl, rfl, rfl, rfl, hS1len, hS1self, ?_, ?_,
          ?_, ?_⟩
        · intro i hi _
          exact hS1ne i hi
        · intro sid2 idx2 hmp2 hne2
          rw [hmp] at hmp2
          injection hmp2 with h1 h2
          subst h1
          exact absurd hsid hne2
        · intro _
          rfl
        · intro hmp2
          rw [hmp] at hmp2
          cases hmp2
      · have hbs : getBlock (setBlock t pe.blockId
            (Block.leaf p n (es.set pe.insertionPoint e))) sid =
            getBlock t sid := hS1ne sid hsid
        cases hbt : getBlock t sid with
        | inner esI csI =>
          have hltI : sid < t.store.length :=
            getBlock_lt_of_ne_free (by rw [hbt]; simp)
          have hw : (writeMax
              { t := setBlock t pe.blockId
                  (Block.leaf p n (es.set pe.insertionPoint e)),
                nm := dflt } (MaxPtr.sep sid idx)
              (lastElem (es.set pe.insertionPoint e))).t =
              setBlock (setBlock t pe.blockId
                  (Block.leaf p n (es.set pe.insertionPoint e))) sid
                (Block.inner
                  (esI.set idx (lastElem (es.set pe.insertionPoint e)))
                  csI) := by
            rw [writeMax]
            dsimp only
            rw [hbs, hbt]
          rw [hw] at hins0
          refine ⟨parents, pe, _, p, n, es, rfl, hb, hins0, rfl, rfl,
            rfl, rfl, rfl, rfl, rfl, rfl, rfl, rfl, ?_, ?_, ?_, ?_, ?_,
            ?_⟩
          · rw [setBlock, setBlock]
            simp
          · rw [getBlock_setBlock_ne (Ne.symm hsid)]
            exact hS1self
          · intro i hi hnsep
            have hisid : i ≠ sid := by
              intro he
              exact (hnsep idx) (by rw [hmp, he])
            rw [getBlock_setBlock_ne hisid]
            exact hS1ne i hi
          · intro sid2 idx2 hmp2 hne2 es3 cs3 hbt2
            rw [hmp] at hmp2
            injection hmp2 with h1 h2
            subst h1
            subst h2
            rw [hbt] at hbt2
            injection hbt2 with h3 h4
            subst h3
            subst h4
            exact getBlock_setBlock_mem (by rw [hS1len]; exact hltI)
          · intro _
            rfl
          · intro hmp2
            rw [hmp] at hmp2
            cases hmp2
        | free =>
          have hw : (writeMax
              { t := setBlock t pe.blockId
                  (Block.leaf p n (es.set pe.insertionPoint e)),
                nm := dflt } (MaxPtr.sep sid idx)
              (lastElem (es.set pe.insertionPoint e))).t =
              setBlock t pe.blockId
                (Block.leaf p n (es.set pe.insertionPoint e)) := by
            rw [writeMax]
            dsimp only
            rw [hbs, hbt]
          rw [hw] at hins0
          refine ⟨parents, pe, _, p, n, es, rfl, hb, hins0, rfl, rfl,
            rfl, rfl, rfl, rfl, rfl, rfl, rfl, rfl, hS1len, hS1self,
            ?_, ?_, ?_, ?_⟩
          · intro i hi _
            exact hS1ne i hi
          · intro sid2 idx2 hmp2 hne2 es3 cs3 hbt2
            rw [hmp] at hmp2
            injection hmp2 with h1 h2
            subst h1
            rw [hbt] at hbt2
            cases hbt2
          · intro _
            rfl
          · intro hmp2
            rw [hmp] at hmp2
            cases hmp2
        | leaf pL nL esL =>
          have hw : (writeMax
              { t := setBlock t pe.blockId
                  (Block.leaf p n (es.set pe.insertionPoint e)),
                nm := dflt } (MaxPtr.sep sid idx)
              (lastElem (es.set pe.insertionPoint e))).t =
              setBlock t pe.blockId
                (Block.leaf p n (es.set pe.insertionPoint e)) := by
            rw [writeMax]
            dsimp only
            rw [hbs, hbt]
          rw [hw] at hins0
          refine ⟨parents, pe, _, p, n, es, rfl, hb, hins0, rfl, rfl,
            rfl, rfl, rfl, rfl, rfl, rfl, rfl, rfl, hS1len, hS1self,
            ?_, ?_, ?_, ?_⟩
          · intro i hi _
            exact hS1ne i hi
          · intro sid2 idx2 hmp2 hne2 es3 cs3 hbt2
            rw [hmp] at hmp2
            injection hmp2 with h1 h2
            subst h1
            rw [hbt] at hbt2
            cases hbt2
          · intro _
            rfl
          · intro hmp2
            rw [hmp] at hmp2
            cases hmp2
        | garbage nxt =>
          have hw : (writeMax
              { t := setBlock t pe.blockId
                  (Block.leaf p n (es.set pe.insertionPoint e)),
                nm := dflt } (MaxPtr.sep sid idx)
              (lastElem (es.set pe.insertionPoint e))).t =
              setBlock t pe.blockId
                (Block.leaf p n (es.set pe.insertionPoint e)) := by
            rw [writeMax]
            dsimp only
            rw [hbs, hbt]
          rw [hw] at hins0
          refine ⟨parents, pe, _, p, n, es, rfl, hb, hins0, rfl, rfl,
            rfl, rfl, rfl, rfl, rfl, rfl, rfl, rfl, hS1len, hS1self,
            ?_, ?_, ?_, ?_⟩
          · intro i hi _
            exact hS1ne i hi
          · intro sid2 idx2 hmp2 hne2 es3 cs3 hbt2
            rw [hmp] at hmp2
            injection hmp2 with h1 h2
            subst h1
            rw [hbt] at hbt2
            cases hbt2
          · intro _
            rfl
          · intro hmp2
            rw [hmp] at hmp2
            cases hmp2

/-- Witness for C10: replacing the element with key 2 inside the full
one-leaf tree. -/
theorem C10_replace_no_structural_change_witness :
    exTree.root = some 0 ∧
    (bps_tree_collect_path exTree ((2 : Int), (5 : Int))).2.2 = true ∧
    (getBlock exTree
      (bps_tree_collect_path exTree
        ((2 : Int), (5 : Int))).2.1.blockId).isLeaf = true ∧
    (∃ parents pe t' p n es,
      bps_tree_collect_path exTree ((2 : Int), (5 : Int)) =
        (parents, pe, true) ∧
      getBlock exTree pe.blockId = Block.leaf p n es ∧
      bps_tree_insert exTree 7 ((2 : Int), (5 : Int)) =
        some (true, some (es.getD pe.insertionPoint dflt), t', 7) ∧
      t'.cfg = exTree.cfg ∧ t'.root = exTree.root ∧
      t'.firstId = exTree.firstId ∧ t'.lastId = exTree.lastId ∧
      t'.leafCount = exTree.leafCount ∧
      t'.innerCount = exTree.innerCount ∧
      t'.garbageCount = exTree.garbageCount ∧
      t'.garbageHead = exTree.garbageHead ∧ t'.depth = exTree.depth ∧
      t'.size = exTree.size ∧ t'.store.length = exTree.store.length ∧
      getBlock t' pe.blockId =
        Block.leaf p n (es.set pe.insertionPoint ((2 : Int), (5 : Int))) ∧
      (∀ i, i ≠ pe.blockId → (∀ idx, pe.maxPtr ≠ MaxPtr.sep i idx) →
        getBlock t' i = getBlock exTree i) ∧
      (∀ sid idx, pe.maxPtr = MaxPtr.sep sid idx → sid ≠ pe.blockId →
        ∀ es2 cs2, getBlock exTree sid = Block.inner es2 cs2 →
          getBlock t' sid = Block.inner
            (es2.set idx
              (lastElem (es.set pe.insertionPoint ((2 : Int), (5 : Int)))))
            cs2) ∧
      (pe.maxPtr ≠ MaxPtr.tree → t'.maxElem = exTree.maxElem) ∧
      (pe.maxPtr = MaxPtr.tree →
        t'.maxElem =
          lastElem (es.set pe.insertionPoint ((2 : Int), (5 : Int))))) :=
  ⟨rfl, by decide, by decide,
   @C10_replace_no_structural_change exTree 7 ((2 : Int), (5 : Int)) 0
     rfl (by decide) (by decide)⟩

/-! ### Leaf fill bounds (claim C2) -/

theorem buildFillSizes_length :
    ∀ (ll n : Nat), (buildFillSizes n ll).length = ll := by
  intro ll
  induction ll with
  | zero => intro n; rfl
  | succ ll ih =>
    intro n
    rw [buildFillSizes]
    simp [ih]

theorem buildSlices_length :
    ∀ (ll : Nat) (arr : List Elem), (buildSlices arr ll).length = ll := by
  intro ll
  induction ll with
  | zero => intro arr; rfl
  | succ ll ih =>
    intro arr
    rw [buildSlices]
    simp [ih]

/-- The pacing `elems_left / leaf_left` keeps every leaf between 1 and
`L` elements as long as `leaf_left ≤ elems_left ≤ leaf_left * L`. -/
theorem buildFillSizes_bounds :
    ∀ (ll n L : Nat), ll ≤ n → n ≤ ll * L →
      ∀ s ∈ buildFillSizes n ll, 1 ≤ s ∧ s ≤ L := by
  intro ll
  induction ll with
  | zero => intro n L _ _ s hs; simp [buildFillSizes] at hs
  | succ ll ih =>
    intro n L hge hle s hs
    have hq1 : 1 ≤ n / (ll + 1) :=
      (Nat.le_div_iff_mul_le (by omega)).2 (by omega)
    have hqL : n / (ll + 1) ≤ L := Nat.div_le_of_le_mul hle
    rw [buildFillSizes] at hs
    rcases List.mem_cons.1 hs with rfl | hs
    · exact ⟨hq1, hqL⟩
    · have hqr := Nat.div_add_mod n (ll + 1)
      have hr : n % (ll + 1) < ll + 1 := Nat.mod_lt _ (by omega)
      have e2 : (ll + 1) * (n / (ll + 1)) =
          ll * (n / (ll + 1)) + n / (ll + 1) := by ring
      have e1 : ll * 1 ≤ ll * (n / (ll + 1)) :=
        Nat.mul_le_mul_left ll hq1
      rw [Nat.mul_one] at e1
      cases Nat.eq_zero_or_pos ll with
      | inl h0 =>
        subst h0
        simp [buildFillSizes] at hs
      | inr hpos =>
        refine ih (n - n / (ll + 1)) L ?_ ?_ s hs
        · omega
        · by_cases hql2 : n / (ll + 1) = L
          · rw [hql2]
            rw [hql2] at hqr e2
            omega
          · have hq2 : n / (ll + 1) + 1 ≤ L := by omega
            have e4 : ll * (n / (ll + 1) + 1) ≤ ll * L :=
              Nat.mul_le_mul_left ll hq2
            have e5 : ll * (n / (ll + 1) + 1) =
                ll * (n / (ll + 1)) + ll := by ring
            omega

theorem le_ceil_div_mul (N L : Nat) (hL : 0 < L) :
    N ≤ ((N + L - 1) / L) * L := by
  obtain ⟨l, rfl⟩ : ∃ l, L = l + 1 := ⟨L - 1, by omega⟩
  rw [show N + (l + 1) - 1 = N + l from by omega]
  have hqr := Nat.div_add_mod (N + l) (l + 1)
  have hr : (N + l) % (l + 1) < l + 1 := Nat.mod_lt _ (by omega)
  have ec : (N + l) / (l + 1) * (l + 1) =
      (l + 1) * ((N + l) / (l + 1)) := Nat.mul_comm _ _
  omega

theorem ceil_div_le_self (N L : Nat) (hN : 0 < N) (hL : 0 < L) :
    (N + L - 1) / L ≤ N := by
  obtain ⟨l, rfl⟩ : ∃ l, L = l + 1 := ⟨L - 1, by omega⟩
  rw [show N + (l + 1) - 1 = N + l from by omega]
  apply Nat.div_le_of_le_mul
  have e : (l + 1) * N = N + l * N := by ring
  have e2 : l * 1 ≤ l * N := Nat.mul_le_mul_left l hN
  rw [Nat.mul_one] at e2
  omega

/-- Concrete refutation of the `⌈2·LMAX/3⌉` lower bound of claim C2:
after `bps_tree_build` of five elements over `LMAX = 4` — an API
boundary, and a state the code's own `bps_tree_debug_check` accepts —
the non-root leaf block 0 holds 2 elements, below `⌈2·4/3⌉ = 3`. -/
theorem C2_counterexample :
    (bps_tree_build (bps_tree_create { lmax := 4, imax := 4 }) 10
        [((1 : Int), (0 : Int)), (2, 0), (3, 0), (4, 0), (5, 0)]).1 =
      true ∧
    bps_tree_debug_check
      (bps_tree_build (bps_tree_create { lmax := 4, imax := 4 }) 10
        [((1 : Int), (0 : Int)), (2, 0), (3, 0), (4, 0), (5, 0)]).2.1 =
      0 ∧
    (bps_tree_build (bps_tree_create { lmax := 4, imax := 4 }) 10
        [((1 : Int), (0 : Int)), (2, 0), (3, 0), (4, 0),
          (5, 0)]).2.1.root = some 1 ∧
    getBlock
      (bps_tree_build (bps_tree_create { lmax := 4, imax := 4 }) 10
        [((1 : Int), (0 : Int)), (2, 0), (3, 0), (4, 0), (5, 0)]).2.1 0 =
      Block.leaf none (some 2) [((1 : Int), (0 : Int)), (2, 0)] ∧
    (2 * 4 + 2) / 3 = 3 :=
  ⟨rfl, rfl, rfl, rfl, rfl⟩

/-- **Claim C2, corrected.**  The claimed `⌈2·LMAX/3⌉` minimum fill
does not hold at API boundaries: `bps_tree_build` paces leaves at
`elems_left / leaf_left`, which can be far below it (refuted by
`C2_counterexample`; the deletion rebalance threshold in the code is
also the floor `2·LMAX/3`, not the ceiling).  What the build boundary
does guarantee, proved here: every leaf holds between 1 and LMAX
elements — exactly the bounds the code's own `bps_tree_debug_check`
enforces. -/
theorem C2_leaf_fill_bounds {cfg : Cfg} {budget : Nat} {arr : List Elem}
    {t' : Tree} {b' : Nat} (hs : SortedLe arr) (hN : 0 < arr.length)
    (hl : 0 < cfg.lmax)
    (h : bps_tree_build (bps_tree_create cfg) budget arr = (true, t', b')) :
    ∃ ids : List Nat,
      ids.length = (arr.length + cfg.lmax - 1) / cfg.lmax ∧
      ∀ k, k < ids.length →
        ∃ pk nk esk,
          getBlock t' (ids.getD k 0) = Block.leaf pk nk esk ∧
          1 ≤ esk.length ∧ esk.length ≤ cfg.lmax := by
  obtain ⟨h1, ids, h2, h3, h4, h5⟩ := build_true_chain hN hl h
  refine ⟨ids, h2, ?_⟩
  intro k hk
  refine ⟨_, _, _, h5 k hk, ?_, ?_⟩ <;>
  · have hsl : (buildSlices arr ids.length).length = ids.length :=
      buildSlices_length ids.length arr
    have hk2 : k < (buildSlices arr ids.length).length := by omega
    have hged : (buildSlices arr ids.length).getD k [] =
        (buildSlices arr ids.length)[k] :=
      List.getD_eq_getElem _ _ hk2
    have h6 : k < ((buildSlices arr ids.length).map List.length).length :=
      by simpa using hk2
    have h7 := List.getElem_mem h6
    have h8 : ((buildSlices arr ids.length).map List.length)[k] =
        ((buildSlices arr ids.length)[k]).length := List.getElem_map _
    have h9 : ((buildSlices arr ids.length)[k]).length ∈
        buildFillSizes arr.length ids.length := by
      rw [← buildSlices_map_length, ← h8]
      exact h7
    have hbnd := buildFillSizes_bounds ids.length arr.length cfg.lmax
      (by rw [h2]; exact ceil_div_le_self _ _ hN hl)
      (by rw [h2]; exact le_ceil_div_mul _ _ hl)
      ((buildSlices arr ids.length)[k]).length h9
    have hlen_eq : ((buildSlices arr ids.length).getD k []).length =
        ((buildSlices arr ids.length)[k]).length :=
      congrArg List.length hged
    omega

/-- Witness for the corrected C2 theorem at the five-element build. -/
theorem C2_leaf_fill_bounds_witness :
    SortedLe [((1 : Int), (0 : Int)), (2, 0), (3, 0), (4, 0), (5, 0)] ∧
    0 < ([((1 : Int), (0 : Int)), (2, 0), (3, 0), (4, 0),
      (5, 0)] : List Elem).length ∧
    0 < (4 : Nat) ∧
    (∃ ids : List Nat,
      ids.length = 2 ∧
      ∀ k, k < ids.length →
        ∃ pk nk esk,
          getBlock
            (bps_tree_build (bps_tree_create { lmax := 4, imax := 4 }) 10
              [((1 : Int), (0 : Int)), (2, 0), (3, 0), (4, 0),
                (5, 0)]).2.1 (ids.getD k 0) =
            Block.leaf pk nk esk ∧
          1 ≤ esk.length ∧ esk.length ≤ 4) :=
  ⟨by rw [SortedLe]; decide, by decide, by decide,
   @C2_leaf_fill_bounds { lmax := 4, imax := 4 } 10
     [((1 : Int), (0 : Int)), (2, 0), (3, 0), (4, 0), (5, 0)]
     (bps_tree_build (bps_tree_create { lmax := 4, imax := 4 }) 10
       [((1 : Int), (0 : Int)), (2, 0), (3, 0), (4, 0), (5, 0)]).2.1
     (bps_tree_build (bps_tree_create { lmax := 4, imax := 4 }) 10
       [((1 : Int), (0 : Int)), (2, 0), (3, 0), (4, 0), (5, 0)]).2.2
     (by rw [SortedLe]; decide) (by decide) (by decide) (by rfl)⟩

end BpsTree
